import Mathlib

/-!
# Verification of the Chimera polyglot storage engine

Shallow embedding of the ChimeraDB source (`src/ChimeraDB/chimera/...`):
the five storage engines' in-memory state and operations, the write-ahead
log, the data profiler and the engine selector, together with theorems
settling the specification claims about them.

Python's dynamic values are modelled by the inductive `PyVal`; Python
dicts by insertion-ordered association lists (`Dict`); Python sets by
duplicate-free lists (`SSet`); Python exceptions over mutable state by the
state-plus-error monad `PyM` (an error carries the state at the moment of
the raise, exactly like an exception propagating out of code that has
already mutated `self`).
-/

set_option maxHeartbeats 1000000
set_option synthInstance.maxSize 4096
set_option maxRecDepth 4096

namespace Chimera

/-- Dynamic (JSON-like) Python values as they appear in documents, rows,
node/edge attributes and time-series points: `None`, `bool`, `int`, `str`,
`list`, `dict`.  Floats are not needed by any claim and are omitted;
numeric literals in the source are modelled as integers. -/
inductive PyVal where
  | vnone
  | vbool (b : Bool)
  | vint (n : Int)
  | vstr (s : String)
  | vlist (xs : List PyVal)
  | vdict (kvs : List (String × PyVal))
  deriving Repr

mutual
/-- Structural boolean equality on `PyVal` (the derived handler does not
support the nested `List` occurrences, so it is written out). -/
def PyVal.beq : PyVal → PyVal → Bool
  | .vnone, .vnone => true
  | .vbool a, .vbool b => a == b
  | .vint a, .vint b => a == b
  | .vstr a, .vstr b => a == b
  | .vlist xs, .vlist ys => PyVal.beqList xs ys
  | .vdict xs, .vdict ys => PyVal.beqKVs xs ys
  | _, _ => false

/-- Structural equality on lists of `PyVal`. -/
def PyVal.beqList : List PyVal → List PyVal → Bool
  | [], [] => true
  | x :: xs, y :: ys => PyVal.beq x y && PyVal.beqList xs ys
  | _, _ => false

/-- Structural equality on dict entry lists. -/
def PyVal.beqKVs : List (String × PyVal) → List (String × PyVal) → Bool
  | [], [] => true
  | (k, v) :: xs, (k2, v2) :: ys =>
    k == k2 && PyVal.beq v v2 && PyVal.beqKVs xs ys
  | _, _ => false
end

mutual
theorem PyVal.beq_iff : ∀ a b : PyVal, PyVal.beq a b = true ↔ a = b
  | .vnone, .vnone => by simp [PyVal.beq]
  | .vbool a, .vbool b => by simp [PyVal.beq]
  | .vint a, .vint b => by simp [PyVal.beq]
  | .vstr a, .vstr b => by simp [PyVal.beq]
  | .vlist xs, .vlist ys => by
    simpa [PyVal.beq] using PyVal.beqList_iff xs ys
  | .vdict xs, .vdict ys => by
    simpa [PyVal.beq] using PyVal.beqKVs_iff xs ys
  | .vnone, .vbool _ | .vnone, .vint _ | .vnone, .vstr _
  | .vnone, .vlist _ | .vnone, .vdict _
  | .vbool _, .vnone | .vbool _, .vint _ | .vbool _, .vstr _
  | .vbool _, .vlist _ | .vbool _, .vdict _
  | .vint _, .vnone | .vint _, .vbool _ | .vint _, .vstr _
  | .vint _, .vlist _ | .vint _, .vdict _
  | .vstr _, .vnone | .vstr _, .vbool _ | .vstr _, .vint _
  | .vstr _, .vlist _ | .vstr _, .vdict _
  | .vlist _, .vnone | .vlist _, .vbool _ | .vlist _, .vint _
  | .vlist _, .vstr _ | .vlist _, .vdict _
  | .vdict _, .vnone | .vdict _, .vbool _ | .vdict _, .vint _
  | .vdict _, .vstr _ | .vdict _, .vlist _ => by simp [PyVal.beq]

theorem PyVal.beqList_iff :
    ∀ xs ys : List PyVal, PyVal.beqList xs ys = true ↔ xs = ys
  | [], [] => by simp [PyVal.beqList]
  | [], _ :: _ => by simp [PyVal.beqList]
  | _ :: _, [] => by simp [PyVal.beqList]
  | x :: xs, y :: ys => by
    simp [PyVal.beqList, PyVal.beq_iff x y, PyVal.beqList_iff xs ys]

theorem PyVal.beqKVs_iff :
    ∀ xs ys : List (String × PyVal), PyVal.beqKVs xs ys = true ↔ xs = ys
  | [], [] => by simp [PyVal.beqKVs]
  | [], _ :: _ => by simp [PyVal.beqKVs]
  | _ :: _, [] => by simp [PyVal.beqKVs]
  | (k, v) :: xs, (k2, v2) :: ys => by
    simp [PyVal.beqKVs, PyVal.beq_iff v v2, PyVal.beqKVs_iff xs ys,
      and_assoc]
end

instance : DecidableEq PyVal := fun a b =>
  decidable_of_iff (PyVal.beq a b = true) (PyVal.beq_iff a b)

namespace PyVal

/-- Python truthiness (`bool(v)`): `None`, `False`, `0`, `""`, `[]`, `{}`
are falsy, everything else truthy. -/
def truthy : PyVal → Bool
  | .vnone => false
  | .vbool b => b
  | .vint n => n != 0
  | .vstr s => !s.isEmpty
  | .vlist xs => !xs.isEmpty
  | .vdict kvs => !kvs.isEmpty

/-- The numeric reading of a value, when Python treats it as a number for
arithmetic and comparisons: `int` is itself and `bool` is 0/1
(`isinstance(True, int)` holds in Python). -/
def asNum? : PyVal → Option Int
  | .vint n => some n
  | .vbool b => some (if b then 1 else 0)
  | _ => none

end PyVal

mutual
/-- Python `==` on our value variants: numbers (including `bool`, which is
an `int` subtype) compare by numeric value, strings/lists structurally,
cross-type comparisons are `False`.  Dict equality is compared entry-wise
in insertion order; Python's `==` also identifies permuted dicts, but no
dict-to-dict comparison is exercised by any claim. -/
def pyEq : PyVal → PyVal → Bool
  | .vint a, .vint b => a == b
  | .vint a, .vbool b => a == (if b then (1 : Int) else 0)
  | .vbool a, .vint b => (if a then (1 : Int) else 0) == b
  | .vbool a, .vbool b => a == b
  | .vstr a, .vstr b => a == b
  | .vnone, .vnone => true
  | .vlist xs, .vlist ys => pyEqList xs ys
  | .vdict xs, .vdict ys => pyEqKVs xs ys
  | _, _ => false

/-- Elementwise Python `==` on lists. -/
def pyEqList : List PyVal → List PyVal → Bool
  | [], [] => true
  | x :: xs, y :: ys => pyEq x y && pyEqList xs ys
  | _, _ => false

/-- Entry-wise Python `==` on dict entry lists. -/
def pyEqKVs : List (String × PyVal) → List (String × PyVal) → Bool
  | [], [] => true
  | (k, v) :: xs, (k2, v2) :: ys => k == k2 && pyEq v v2 && pyEqKVs xs ys
  | _, _ => false
end

mutual
/-- Python `<`: `some b` when the comparison is defined (both numeric,
both strings, or both lists compared lexicographically), `none` when
Python raises `TypeError` (`None` against anything, string against
number, dicts, and so on). -/
def pyLt : PyVal → PyVal → Option Bool
  | .vstr a, .vstr b => some (decide (a < b))
  | .vlist xs, .vlist ys => pyLtList xs ys
  | a, b =>
    match a.asNum?, b.asNum? with
    | some x, some y => some (decide (x < y))
    | _, _ => none

/-- Python `<` on lists: skip `==`-equal prefixes, then compare the first
differing elements with `<` (which may itself raise). -/
def pyLtList : List PyVal → List PyVal → Option Bool
  | [], [] => some false
  | [], _ :: _ => some true
  | _ :: _, [] => some false
  | x :: xs, y :: ys => if pyEq x y then pyLtList xs ys else pyLt x y
end

mutual
/-- Python `<=`, with the same `TypeError` (`none`) cases as `pyLt`. -/
def pyLe : PyVal → PyVal → Option Bool
  | .vstr a, .vstr b => some (decide (a ≤ b))
  | .vlist xs, .vlist ys => pyLeList xs ys
  | a, b =>
    match a.asNum?, b.asNum? with
    | some x, some y => some (decide (x ≤ y))
    | _, _ => none

/-- Python `<=` on lists. -/
def pyLeList : List PyVal → List PyVal → Option Bool
  | [], _ => some true
  | _ :: _, [] => some false
  | x :: xs, y :: ys => if pyEq x y then pyLeList xs ys else pyLt x y
end

/-- Python `a > b` (for the builtin types of interest, `a > b` ⟺ `b < a`). -/
def pyGt (a b : PyVal) : Option Bool := pyLt b a

/-- Python `a >= b`. -/
def pyGe (a b : PyVal) : Option Bool := pyLe b a

/-- A Python dict with keys `κ`: the entry list in insertion order.
All dicts built by the source keep their keys duplicate-free. -/
abbrev Dict (κ ν : Type) := List (κ × ν)

namespace Dict

variable {κ ν : Type} [DecidableEq κ]

/-- `d.get(k)`: first matching entry. -/
def get? : Dict κ ν → κ → Option ν
  | [], _ => none
  | (k2, v) :: rest, k => if k2 = k then some v else get? rest k

/-- `d.get(k, dflt)`. -/
def getD (d : Dict κ ν) (k : κ) (dflt : ν) : ν := (get? d k).getD dflt

/-- `k in d`. -/
def hasKey (d : Dict κ ν) (k : κ) : Bool := (get? d k).isSome

/-- `d[k] = v`: replace in place if the key exists, else append (Python
dicts keep insertion order, new keys go to the end). -/
def set : Dict κ ν → κ → ν → Dict κ ν
  | [], k, v => [(k, v)]
  | (k2, v2) :: rest, k, v =>
    if k2 = k then (k, v) :: rest else (k2, v2) :: set rest k v

/-- `del d[k]` / `d.pop(k, None)`: drop the entry. -/
def erase (d : Dict κ ν) (k : κ) : Dict κ ν :=
  d.filter (fun p => !(decide (p.1 = k)))

/-- `d.setdefault(k, v)`: insert `v` at the end if `k` is absent. -/
def setdefault (d : Dict κ ν) (k : κ) (v : ν) : Dict κ ν :=
  if hasKey d k then d else d ++ [(k, v)]

/-- `list(d.keys())`. -/
def keys (d : Dict κ ν) : List κ := d.map Prod.fst

@[simp] theorem get?_nil (k : κ) : get? ([] : Dict κ ν) k = none := rfl

@[simp] theorem get?_cons (k2 : κ) (v : ν) (rest : Dict κ ν) (k : κ) :
    get? ((k2, v) :: rest) k = if k2 = k then some v else get? rest k := rfl

@[simp] theorem get?_set_self (d : Dict κ ν) (k : κ) (v : ν) :
    get? (set d k v) k = some v := by
  induction d with
  | nil => simp [set]
  | cons hd tl ih =>
    obtain ⟨k2, v2⟩ := hd
    by_cases h : k2 = k <;> simp [set, h, ih]

@[simp] theorem get?_set_ne (d : Dict κ ν) (k k2 : κ) (v : ν) (h : k2 ≠ k) :
    get? (set d k v) k2 = get? d k2 := by
  induction d with
  | nil => simp [set, Ne.symm h]
  | cons hd tl ih =>
    obtain ⟨k3, v3⟩ := hd
    by_cases h3 : k3 = k
    · subst h3
      simp [set, Ne.symm h]
    · simp [set, h3, ih]

@[simp] theorem get?_erase_self (d : Dict κ ν) (k : κ) :
    get? (erase d k) k = none := by
  induction d with
  | nil => rfl
  | cons hd tl ih =>
    obtain ⟨k2, v2⟩ := hd
    by_cases h : k2 = k <;> simp [erase, List.filter_cons, h] <;>
      simpa [erase] using ih

@[simp] theorem get?_erase_ne (d : Dict κ ν) (k k2 : κ) (h : k2 ≠ k) :
    get? (erase d k) k2 = get? d k2 := by
  induction d with
  | nil => rfl
  | cons hd tl ih =>
    obtain ⟨k3, v3⟩ := hd
    have ih2 : get? (List.filter (fun p => !decide (p.1 = k)) tl) k2 =
        get? tl k2 := by simpa [erase] using ih
    by_cases h3 : k3 = k
    · subst h3
      simp [erase, List.filter_cons, Ne.symm h, ih2]
    · simp [erase, List.filter_cons, h3, ih2]

theorem get?_append (d1 d2 : Dict κ ν) (k : κ) :
    get? (d1 ++ d2) k =
      match get? d1 k with
      | some v => some v
      | none => get? d2 k := by
  induction d1 with
  | nil => simp
  | cons hd tl ih =>
    obtain ⟨k2, v2⟩ := hd
    by_cases h : k2 = k <;> simp [h, ih]

@[simp] theorem get?_setdefault_present (d : Dict κ ν) (k k2 : κ) (v : ν)
    (hk : hasKey d k = true) : get? (setdefault d k v) k2 = get? d k2 := by
  simp [setdefault, hk]

theorem get?_eq_none_of_not_mem (d : Dict κ ν) (k : κ)
    (h : k ∉ d.map Prod.fst) : get? d k = none := by
  induction d with
  | nil => rfl
  | cons hd tl ih =>
    obtain ⟨k2, v2⟩ := hd
    have hk2 : k2 ≠ k := fun he => h (by simp [he])
    simp only [get?_cons, if_neg hk2]
    exact ih (fun hm => h (by simp [hm]))

theorem mem_keys_set (d : Dict κ ν) (k : κ) (v : ν) (a : κ) :
    a ∈ (set d k v).map Prod.fst ↔ a ∈ d.map Prod.fst ∨ a = k := by
  induction d with
  | nil => simp [set]
  | cons hd tl ih =>
    obtain ⟨k2, v2⟩ := hd
    by_cases h : k2 = k
    · subst h
      simp [set]
      tauto
    · simp only [set, if_neg h, List.map_cons, List.mem_cons, ih]
      tauto

theorem nodup_keys_set (d : Dict κ ν) (k : κ) (v : ν)
    (h : (d.map Prod.fst).Nodup) : ((set d k v).map Prod.fst).Nodup := by
  induction d with
  | nil => simp [set]
  | cons hd tl ih =>
    obtain ⟨k2, v2⟩ := hd
    simp only [List.map_cons, List.nodup_cons] at h
    by_cases he : k2 = k
    · subst he
      simpa [set, List.nodup_cons] using h
    · simp only [set, if_neg he, List.map_cons, List.nodup_cons]
      refine ⟨?_, ih h.2⟩
      rw [mem_keys_set]
      rintro (hm | rfl)
      · exact h.1 hm
      · exact he rfl

theorem get?_setdefault_absent (d : Dict κ ν) (k k2 : κ) (v : ν)
    (hk : hasKey d k = false) :
    get? (setdefault d k v) k2 =
      if k2 = k then some v else get? d k2 := by
  have hnone : get? d k = none := by
    cases h : get? d k with
    | none => rfl
    | some v2 => simp [hasKey, h] at hk
  by_cases h2 : k2 = k
  · subst h2
    simp [setdefault, hk, get?_append, hnone]
  · simp only [setdefault, hk, Bool.false_eq_true, if_false, if_neg h2,
      get?_append]
    cases h : get? d k2 with
    | none => simp [Ne.symm h2]
    | some v2 => simp

theorem getD_setdefault_nil {κ ν2 : Type} [DecidableEq κ]
    (d : Dict κ (List ν2)) (k k2 : κ) :
    getD (setdefault d k []) k2 [] = getD d k2 [] := by
  by_cases hk : hasKey d k
  · simp [getD, get?_setdefault_present d k k2 [] hk]
  · rw [getD, getD, get?_setdefault_absent d k k2 [] (by simpa using hk)]
    by_cases h2 : k2 = k
    · subst h2
      have : get? d k2 = none := by
        cases h : get? d k2 with
        | none => rfl
        | some v2 => simp [hasKey, h] at hk
      simp [this]
    · simp [h2]

end Dict

/-- A Python set over `α`: the element list without duplicates (iteration
order in the source is hash order; no claim depends on it). -/
abbrev SSet (α : Type) := List α

namespace SSet

variable {α : Type} [DecidableEq α]

/-- `s.add(a)`. -/
def insert (s : SSet α) (a : α) : SSet α := if a ∈ s then s else s ++ [a]

/-- `s.discard(a)`. -/
def discard (s : SSet α) (a : α) : SSet α :=
  s.filter (fun x => !(decide (x = a)))

/-- `a in s`. -/
def mem (s : SSet α) (a : α) : Bool := decide (a ∈ s)

@[simp] theorem mem_insert (s : SSet α) (a b : α) :
    b ∈ s.insert a ↔ b ∈ s ∨ b = a := by
  by_cases h : a ∈ s
  · simp only [insert, if_pos h]
    constructor
    · exact Or.inl
    · rintro (hb | rfl) <;> assumption
  · simp [insert, if_neg h]

@[simp] theorem mem_discard (s : SSet α) (a b : α) :
    b ∈ s.discard a ↔ b ∈ s ∧ b ≠ a := by
  simp [discard]

end SSet

/-- Python exception kinds raised by the modelled code. -/
inductive PyErr where
  | valueError
  | typeError
  | keyError
  | ioError
  | zeroDivisionError
  deriving DecidableEq, Repr

/-- Result of running an operation over mutable state `σ`: either a value
or a raised exception; both carry the state at that moment (an exception
does not roll back mutations already performed). -/
inductive PyResult (σ α : Type) where
  | ok (a : α) (st : σ)
  | err (e : PyErr) (st : σ)
  deriving Repr, DecidableEq

/-- State-and-exception monad modelling Python methods mutating `self`. -/
def PyM (σ α : Type) : Type := σ → PyResult σ α

namespace PyM

instance : Monad (PyM σ) where
  pure a := fun st => .ok a st
  bind m f := fun st =>
    match m st with
    | .ok a st2 => f a st2
    | .err e st2 => .err e st2

/-- `raise e`. -/
def throw (e : PyErr) : PyM σ α := fun st => .err e st

/-- Read the state (`self`). -/
def read : PyM σ σ := fun st => .ok st st

/-- Replace the state. -/
def write (st : σ) : PyM σ Unit := fun _ => .ok () st

/-- Mutate the state. -/
def modify (f : σ → σ) : PyM σ Unit := fun st => .ok () (f st)

/-- Run from a state. -/
def run (m : PyM σ α) (st : σ) : PyResult σ α := m st

@[simp] theorem run_pure (a : α) (st : σ) :
    (pure a : PyM σ α).run st = .ok a st := rfl

@[simp] theorem run_bind (m : PyM σ α) (f : α → PyM σ β) (st : σ) :
    (m >>= f).run st =
      match m.run st with
      | .ok a st2 => (f a).run st2
      | .err e st2 => .err e st2 := rfl

@[simp] theorem run_throw (e : PyErr) (st : σ) :
    (throw e : PyM σ α).run st = .err e st := rfl

@[simp] theorem run_read (st : σ) : (read : PyM σ σ).run st = .ok st st := rfl

@[simp] theorem run_write (st2 st : σ) :
    (write st2 : PyM σ Unit).run st = .ok () st2 := rfl

@[simp] theorem run_modify (f : σ → σ) (st : σ) :
    (modify f : PyM σ Unit).run st = .ok () (f st) := rfl

/-- `if cond: raise e` as a monadic guard. -/
def raiseIf (cond : Bool) (e : PyErr) : PyM σ Unit :=
  if cond then throw e else pure ()

@[simp] theorem run_raiseIf (cond : Bool) (e : PyErr) (st : σ) :
    (raiseIf cond e : PyM σ Unit).run st =
      if cond then .err e st else .ok () st := by
  by_cases h : cond <;> simp [raiseIf, h]

/-- Run a `PyM` computation over each list element in order, stopping at
the first raise (Python `for` loop whose body may raise). -/
def forEach (xs : List α) (body : α → PyM σ Unit) : PyM σ Unit :=
  match xs with
  | [] => pure ()
  | x :: rest => do
    body x
    forEach rest body

@[simp] theorem forEach_nil (body : α → PyM σ Unit) :
    forEach [] body = pure () := rfl

@[simp] theorem forEach_cons (x : α) (xs : List α) (body : α → PyM σ Unit) :
    forEach (x :: xs) body = body x >>= fun _ => forEach xs body := rfl

end PyM

@[simp] theorem exceptBind_ok (a : α) (f : α → Except PyErr β) :
    (Except.ok a : Except PyErr α) >>= f = f a := rfl

@[simp] theorem exceptBind_error (e : PyErr) (f : α → Except PyErr β) :
    (Except.error e : Except PyErr α) >>= f = Except.error e := rfl

@[simp] theorem exceptMap_ok (a : α) (f : α → β) :
    f <$> (Except.ok a : Except PyErr α) = Except.ok (f a) := rfl

@[simp] theorem exceptMap_error (e : PyErr) (f : α → β) :
    f <$> (Except.error e : Except PyErr α) = Except.error e := rfl

/-- Lift a pure `Except` computation (one that reads but does not mutate
`self`) into `PyM`. -/
def liftExc : Except PyErr α → PyM σ α
  | .ok a => pure a
  | .error e => PyM.throw e

@[simp] theorem run_liftExc_ok (a : α) (st : σ) :
    (liftExc (σ := σ) (.ok a)).run st = .ok a st := rfl

@[simp] theorem run_liftExc_error (e : PyErr) (st : σ) :
    (liftExc (σ := σ) (α := α) (.error e)).run st = .err e st := rfl

/-- Whether a value is hashable in Python (usable as a dict key or set
element): lists and dicts are not. -/
def PyVal.hashable : PyVal → Bool
  | .vlist _ => false
  | .vdict _ => false
  | _ => true

/-- `isinstance(v, dict)`. -/
def PyVal.isDictVal : PyVal → Bool
  | .vdict _ => true
  | _ => false

/-- Evaluate a Python comparison result: a defined comparison gives its
boolean, an undefined one raises `TypeError`. -/
def evalCmp : Option Bool → Except PyErr Bool
  | some b => .ok b
  | none => .error .typeError

/-! ## Filters

The comparison-filter language shared (by copy-paste in the source) by the
document engine's `_match`, the graph engine's `_match_node`/`_match_edge`
and, with the same semantics, the column engine's row filter.  A filter is
a dict of field conditions; a condition is either a plain value (equality)
or a dict of `$gt`/`$gte`/`$lt`/`$lte`/`$ne` thresholds. -/

/-- A document / row / attribute map: a Python dict keyed by strings. -/
abbrev Doc := Dict String PyVal

/-- One pass over the operator dict of a condition.  Each recognised
operator evaluates its Python comparison (which may raise `TypeError`)
and short-circuits with `false` when the predicate fails; unrecognised
operators are ignored, exactly like the source's `if op == ...` chains. -/
def matchOps (val : PyVal) : List (String × PyVal) → Except PyErr Bool
  | [] => .ok true
  | (op, thr) :: rest =>
    if op = "$gt" then do
      let b ← evalCmp (pyGt val thr)
      if b then matchOps val rest else .ok false
    else if op = "$gte" then do
      let b ← evalCmp (pyGe val thr)
      if b then matchOps val rest else .ok false
    else if op = "$lt" then do
      let b ← evalCmp (pyLt val thr)
      if b then matchOps val rest else .ok false
    else if op = "$lte" then do
      let b ← evalCmp (pyLe val thr)
      if b then matchOps val rest else .ok false
    else if op = "$ne" then
      -- `not (val != threshold)`: Python `!=` is total
      if pyEq val thr then .ok false else matchOps val rest
    else matchOps val rest

/-- One field condition of `_match`: `val = doc.get(field)` (absent →
`None`), operator dict or equality by `==`. -/
def matchField (doc : Doc) : String × PyVal → Except PyErr Bool
  | (field, cond) =>
    let val := Dict.getD doc field .vnone
    match cond with
    | .vdict ops => matchOps val ops
    | c => .ok (pyEq val c)

/-- `_match(doc, filt)`: conjunction over the filter's field conditions,
short-circuiting at the first failed field (so later conditions are not
evaluated, and cannot raise). -/
def matchDoc (doc : Doc) : List (String × PyVal) → Except PyErr Bool
  | [] => .ok true
  | fc :: rest => do
    let b ← matchField doc fc
    if b then matchDoc doc rest else .ok false

/-- `[x for x in xs if p(x)]` where the predicate may raise. -/
def filterExc (p : α → Except PyErr Bool) : List α → Except PyErr (List α)
  | [] => .ok []
  | x :: xs => do
    let b ← p x
    let rest ← filterExc p xs
    .ok (if b then x :: rest else rest)

/-- Count of elements satisfying a predicate that may raise. -/
def countExc (p : α → Except PyErr Bool) (xs : List α) : Except PyErr Nat :=
  do return (← filterExc p xs).length

/-! ## JSON serialization (`json.dumps`) with Python's default separators,
used by the document engine's size check. -/

/-- Escape one character as inside a JSON string literal. -/
def jsonEscChar (c : Char) : String :=
  if c = '"' then "\\\""
  else if c = '\\' then "\\\\"
  else if c = '\n' then "\\n"
  else if c = '\t' then "\\t"
  else if c = '\r' then "\\r"
  else String.singleton c

/-- A JSON string literal. -/
def jsonStr (s : String) : String :=
  "\"" ++ String.join (s.toList.map jsonEscChar) ++ "\""

mutual
/-- `json.dumps(v)` with the default `", "` / `": "` separators. -/
def jsonDumps : PyVal → String
  | .vnone => "null"
  | .vbool b => if b then "true" else "false"
  | .vint n => toString n
  | .vstr s => jsonStr s
  | .vlist xs => "[" ++ jsonDumpsList xs ++ "]"
  | .vdict kvs => "\x7b" ++ jsonDumpsKVs kvs ++ "\x7d"

/-- Comma-joined list elements. -/
def jsonDumpsList : List PyVal → String
  | [] => ""
  | [x] => jsonDumps x
  | x :: rest => jsonDumps x ++ ", " ++ jsonDumpsList rest

/-- Comma-joined dict entries. -/
def jsonDumpsKVs : List (String × PyVal) → String
  | [] => ""
  | [(k, v)] => jsonStr k ++ ": " ++ jsonDumps v
  | (k, v) :: rest => jsonStr k ++ ": " ++ jsonDumps v ++ ", " ++ jsonDumpsKVs rest
end

/-! ## Shared secondary-index shape

The document engine's `collection → field → value → set(id)` index, the
column engine's `table → column → value → set(row_id)` index and the graph
engine's node/edge indexes all have the same nesting, and the source's
`_add_to_index` / `_remove_from_index` helpers are identical up to
renaming. -/

/-- Nested index dict: scope → field → value → ids. -/
abbrev Idx3 := Dict String (Dict String (Dict PyVal (SSet PyVal)))

/-- `_add_to_index` for a single `(field, val)` pair:
`indexes.setdefault(scope, {}).setdefault(field, {}).setdefault(val, set()).add(key)`.
The nested `setdefault` chain creates the path; the observable effect is
adding `key` to the id set at `(scope, field, val)`. -/
def idxAdd1 (idx : Idx3) (scope field : String) (val key : PyVal) : Idx3 :=
  let scopeIdx := Dict.getD idx scope []
  let fldIdx := Dict.getD scopeIdx field []
  let ids := Dict.getD fldIdx val []
  Dict.set idx scope (Dict.set scopeIdx field
    (Dict.set fldIdx val (SSet.insert ids key)))

/-- `_remove_from_index` for a single `(field, val)` pair: look the id set
up without creating the path (`indexes.get(scope, {}).get(field, {})`),
discard `key`, drop the now-empty set.  A missing path or empty set is a
no-op (mutating the fresh `{}` returned by `.get`). -/
def idxRemove1 (idx : Idx3) (scope field : String) (val key : PyVal) : Idx3 :=
  match Dict.get? idx scope with
  | none => idx
  | some scopeIdx =>
    match Dict.get? scopeIdx field with
    | none => idx
    | some fldIdx =>
      match Dict.get? fldIdx val with
      | none => idx
      | some ids =>
        if ids.isEmpty then idx
        else
          let ids2 := SSet.discard ids key
          let fldIdx2 :=
            if ids2.isEmpty then Dict.erase fldIdx val
            else Dict.set fldIdx val ids2
          Dict.set idx scope (Dict.set scopeIdx field fldIdx2)

/-- The id set of a nested index at (scope, field, value). -/
def getIdx (idx : Idx3) (scope field : String) (v : PyVal) : SSet PyVal :=
  Dict.getD (Dict.getD (Dict.getD idx scope []) field []) v []

theorem mem_getIdx_idxAdd1 (idx : Idx3) (s f : String) (v k : PyVal)
    (s' f' : String) (v' rid : PyVal) :
    rid ∈ getIdx (idxAdd1 idx s f v k) s' f' v' ↔
      rid ∈ getIdx idx s' f' v' ∨ (s' = s ∧ f' = f ∧ v' = v ∧ rid = k) := by
  unfold getIdx idxAdd1
  by_cases hs : s' = s
  · subst hs
    by_cases hf : f' = f
    · subst hf
      by_cases hv : v' = v
      · subst hv
        simp [Dict.getD, Dict.get?_set_self, SSet.mem_insert]
      · simp [Dict.getD, Dict.get?_set_self, Dict.get?_set_ne _ _ _ _ hv, hv]
    · simp [Dict.getD, Dict.get?_set_self, Dict.get?_set_ne _ _ _ _ hf, hf]
  · simp [Dict.getD, Dict.get?_set_ne _ _ _ _ hs, hs]

theorem mem_getIdx_idxRemove1 (idx : Idx3) (s f : String) (v k : PyVal)
    (s' f' : String) (v' rid : PyVal) :
    rid ∈ getIdx (idxRemove1 idx s f v k) s' f' v' ↔
      rid ∈ getIdx idx s' f' v' ∧ ¬(s' = s ∧ f' = f ∧ v' = v ∧ rid = k) := by
  unfold getIdx idxRemove1
  cases hsc : Dict.get? idx s with
  | none =>
    by_cases hs : s' = s
    · subst hs
      simp [Dict.getD, hsc]
    · simp [Dict.getD, hs]
  | some scopeIdx =>
    cases hfl : Dict.get? scopeIdx f with
    | none =>
      by_cases hs : s' = s
      · subst hs
        by_cases hf : f' = f
        · subst hf
          simp [Dict.getD, hsc, hfl]
        · simp [Dict.getD, hsc, hfl, hf]
      · simp [Dict.getD, hsc, hfl, hs]
    | some fldIdx =>
      cases hvv : Dict.get? fldIdx v with
      | none =>
        by_cases hs : s' = s
        · subst hs
          by_cases hf : f' = f
          · subst hf
            by_cases hv : v' = v
            · subst hv
              simp [Dict.getD, hsc, hfl, hvv]
            · simp [Dict.getD, hsc, hfl, hvv, hv]
          · simp [Dict.getD, hsc, hfl, hvv, hf]
        · simp [Dict.getD, hsc, hfl, hvv, hs]
      | some ids =>
        by_cases hemp : ids.isEmpty
        · have hids : ids = [] := List.isEmpty_iff.mp hemp
          subst hids
          by_cases hs : s' = s
          · subst hs
            by_cases hf : f' = f
            · subst hf
              by_cases hv : v' = v
              · subst hv
                simp [Dict.getD, hsc, hfl, hvv, hemp]
              · simp [Dict.getD, hsc, hfl, hvv, hv, hemp]
            · simp [Dict.getD, hsc, hfl, hvv, hf, hemp]
          · simp [Dict.getD, hsc, hfl, hvv, hs, hemp]
        · by_cases hs : s' = s
          · subst hs
            by_cases hf : f' = f
            · subst hf
              by_cases hv : v' = v
              · subst hv
                by_cases hde : (SSet.discard ids k).isEmpty
                · have hall : ∀ x ∈ ids, x = k := by
                    intro x hx
                    by_contra hxk
                    have hxd : x ∈ SSet.discard ids k :=
                      (SSet.mem_discard ids k x).mpr ⟨hx, hxk⟩
                    rw [List.isEmpty_iff.mp hde] at hxd
                    exact absurd hxd (List.not_mem_nil x)
                  simp [Dict.getD, hsc, hfl, hvv, hemp, hde]
                  exact hall rid
                · simp [Dict.getD, hsc, hfl, hvv, hemp, hde, SSet.mem_discard]
              · by_cases hde : (SSet.discard ids k).isEmpty
                · simp [Dict.getD, hsc, hfl, hvv, hemp, hde, hv,
                    Dict.get?_erase_ne _ _ _ hv]
                · simp [Dict.getD, hsc, hfl, hvv, hemp, hde, hv,
                    Dict.get?_set_ne _ _ _ _ hv]
            · simp [Dict.getD, hsc, hfl, hvv, hemp, hf,
                Dict.get?_set_ne _ _ _ _ hf]
          · simp [Dict.getD, hsc, hfl, hvv, hemp, hs,
              Dict.get?_set_ne _ _ _ _ hs]

/-! ## Document engine (`document_engine.py`) -/

namespace DocumentEngine

/-- A WAL record of the document engine (the op dicts built by `_insert`,
`update` and `delete`). -/
inductive DocOp where
  | insertOp (collection : String) (document : Doc)
  | updateOp (collection : String) (filt : Doc) (changes : Doc)
  | deleteOp (collection : String) (keyOrFilt : PyVal)
  deriving DecidableEq, Repr

/-- In-memory state: `store` is collection → `_id` → document, `indexes`
is collection → field → value → set of ids, `wal` the appended records. -/
structure DocState where
  store : Dict String (Dict PyVal Doc)
  indexes : Idx3
  wal : List DocOp
  deriving DecidableEq, Repr

/-- The engine's initial state (fresh engine, empty WAL). -/
def initState : DocState := ⟨[], [], []⟩

/-- The stored document of a collection at an id. -/
def storedDoc (st : DocState) (coll : String) (id : PyVal) : Option Doc :=
  Dict.get? (Dict.getD st.store coll []) id

/-- The id set of the index at (collection, field, value). -/
def idxIds (st : DocState) (coll field : String) (value : PyVal) : SSet PyVal :=
  Dict.getD (Dict.getD (Dict.getD st.indexes coll []) field []) value []

/-- `_add_to_index(coll, key, doc)`: iterate the document's fields; an
unhashable value raises `TypeError` at that point, leaving the entries
already processed in the index. -/
def addToIndex (coll : String) (key : PyVal) (doc : Doc) : PyM DocState Unit :=
  PyM.forEach doc (fun fv => do
    PyM.raiseIf (!fv.2.hashable) .typeError
    PyM.modify (fun st =>
      { st with indexes := idxAdd1 st.indexes coll fv.1 fv.2 key }))

/-- `_remove_from_index(coll, key, doc)`. -/
def removeFromIndex (coll : String) (key : PyVal) (doc : Doc) :
    PyM DocState Unit :=
  PyM.forEach doc (fun fv => do
    PyM.raiseIf (!fv.2.hashable) .typeError
    PyM.modify (fun st =>
      { st with indexes := idxRemove1 st.indexes coll fv.1 fv.2 key }))

/-- `store[coll][key] = doc` (the collection dict exists: `_apply` starts
with `store.setdefault(coll, {})`). -/
def storeSet (store : Dict String (Dict PyVal Doc)) (coll : String)
    (key : PyVal) (doc : Doc) : Dict String (Dict PyVal Doc) :=
  Dict.set store coll (Dict.set (Dict.getD store coll []) key doc)

/-- `_apply(op)`: the mutation described by one WAL record, replayed
against the in-memory state (also the write path of the live operations,
which call `_apply` before appending to the WAL). -/
def apply : DocOp → PyM DocState Unit
  | .insertOp coll doc => do
    PyM.modify (fun st => { st with
      store := Dict.setdefault st.store coll [],
      indexes := Dict.setdefault st.indexes coll [] })
    let key := Dict.getD doc "_id" .vnone
    if key = .vnone then pure ()
    else do
      -- `if key in self.store[coll]` hashes the key
      PyM.raiseIf (!key.hashable) .typeError
      let st ← PyM.read
      match Dict.get? (Dict.getD st.store coll []) key with
      | some old => removeFromIndex coll key old
      | none => pure ()
      PyM.modify (fun st => { st with store := storeSet st.store coll key doc })
      addToIndex coll key doc
  | .updateOp coll filt changes => do
    PyM.modify (fun st => { st with
      store := Dict.setdefault st.store coll [],
      indexes := Dict.setdefault st.indexes coll [] })
    match Dict.get? changes "$set" with
    | some (.vdict setKvs) => do
      let st ← PyM.read
      PyM.forEach (Dict.getD st.store coll []) (fun entry => do
        let b ← liftExc (matchDoc entry.2 filt)
        if b then do
          -- old_doc = doc.copy(); doc.update(changes['$set'])
          let newDoc := setKvs.foldl (fun d kv => Dict.set d kv.1 kv.2) entry.2
          PyM.modify (fun st =>
            { st with store := storeSet st.store coll entry.1 newDoc })
          removeFromIndex coll entry.1 entry.2
          addToIndex coll entry.1 newDoc
        else pure ())
    | some _ => PyM.throw .typeError  -- `doc.update` of a non-dict raises
    | none => pure ()
  | .deleteOp coll keyOrFilt => do
    PyM.modify (fun st => { st with
      store := Dict.setdefault st.store coll [],
      indexes := Dict.setdefault st.indexes coll [] })
    let filt : Doc :=
      match keyOrFilt with
      | .vdict kvs => kvs
      | x => [("_id", x)]
    let st ← PyM.read
    let toRemove ←
      liftExc (filterExc (fun entry => matchDoc entry.2 filt)
        (Dict.getD st.store coll []))
    PyM.forEach toRemove (fun entry => do
      let st ← PyM.read
      match Dict.get? (Dict.getD st.store coll []) entry.1 with
      | some old => removeFromIndex coll entry.1 old
      | none => PyM.throw .keyError
      PyM.modify (fun st => { st with
        store := Dict.set st.store coll
          (Dict.erase (Dict.getD st.store coll []) entry.1) }))

/-- `wal.append(op)`: the `failAppend` flag injects the I/O failure the
error-handling claims are about (`fsync`/`write` raising `IOError`). -/
def walAppend (failAppend : Bool) (op : DocOp) : PyM DocState Unit :=
  if failAppend then PyM.throw .ioError
  else PyM.modify (fun st => { st with wal := st.wal ++ [op] })

/-- `self._apply(op); self.wal.append(op)` — the mutation is applied
first, the record logged second. -/
def applyAndLog (failAppend : Bool) (op : DocOp) : PyM DocState Unit := do
  apply op
  walAppend failAppend op

/-- `_validate_collection_id` (limits at their defaults 128 / 256). -/
def validateCollectionId (coll : String) (docId : PyVal) : PyM DocState Unit := do
  PyM.raiseIf (coll.isEmpty) .valueError
  PyM.raiseIf (coll.length > 128) .valueError
  PyM.raiseIf (!docId.truthy) .valueError
  match docId with
  | .vstr s => PyM.raiseIf (s.length > 256) .valueError
  | _ => pure ()

/-- `_insert(collection, document)` (max document size at its default
10 MiB). -/
def insert (failAppend : Bool) (coll : String) (document : Doc) :
    PyM DocState Unit := do
  let key := Dict.getD document "_id" .vnone
  validateCollectionId coll key
  PyM.raiseIf ((jsonDumps (.vdict document)).length > 10485760) .valueError
  let op := DocOp.insertOp coll document
  applyAndLog failAppend op

/-- `put(collection, key, document)`: force `_id := key` then insert. -/
def put (failAppend : Bool) (coll : String) (key : PyVal) (document : Doc) :
    PyM DocState Unit :=
  insert failAppend coll (Dict.set document "_id" key)

/-- `update(collection, filt, changes)`: validates `filt.get('_id')`,
counts matches over the live collection, applies + logs only when the
count is positive, and returns the count. -/
def update (failAppend : Bool) (coll : String) (filt : Doc) (changes : Doc) :
    PyM DocState Nat := do
  validateCollectionId coll (Dict.getD filt "_id" .vnone)
  let op := DocOp.updateOp coll filt changes
  let st ← PyM.read
  let count ← liftExc (countExc (fun entry => matchDoc entry.2 filt)
    (Dict.getD st.store coll []))
  if count ≠ 0 then do
    applyAndLog failAppend op
    pure count
  else pure count

/-- `delete(collection, key_or_filt)`: applies, then logs only when the
collection shrank, and returns that fact. -/
def delete (failAppend : Bool) (coll : String) (keyOrFilt : PyVal) :
    PyM DocState Bool := do
  let op := DocOp.deleteOp coll keyOrFilt
  let st ← PyM.read
  let before := (Dict.getD st.store coll []).length
  apply op
  let st2 ← PyM.read
  if (Dict.getD st2.store coll []).length < before then do
    walAppend failAppend op
    pure true
  else pure false

/-- `query(collection, filter)`: single-field equality filters go through
the index (re-validating each hit against the live document); everything
else is a full scan.  Either path surfaces a `TypeError` raised by a
comparison. -/
def query (coll : String) (filter : Doc) : PyM DocState (List Doc) := do
  let st ← PyM.read
  match filter with
  | [(field, value)] =>
    if value.isDictVal then
      liftExc (do
        let entries ← filterExc (fun entry => matchDoc entry.2 filter)
          (Dict.getD st.store coll [])
        pure (entries.map (fun e => e.2)))
    else do
      PyM.raiseIf (!value.hashable) .typeError
      let hits ← liftExc ((idxIds st coll field value).foldlM (fun acc id => do
        match Dict.get? (Dict.getD st.store coll []) id with
        | none => (.error .keyError : Except PyErr (List Doc))
        | some doc => do
          let b ← matchDoc doc filter
          pure (if b then acc ++ [doc] else acc)) [])
      pure hits
  | _ =>
    liftExc (do
      let entries ← filterExc (fun entry => matchDoc entry.2 filter)
        (Dict.getD st.store coll [])
      pure (entries.map (fun e => e.2)))

end DocumentEngine

/-! ## Column engine (`column_engine.py`) -/

namespace ColumnEngine

/-- A WAL record of the column engine. -/
inductive ColOp where
  | insertOp (table : String) (rowId : PyVal) (rowData : Doc)
  | updateOp (table : String) (rowId : PyVal) (updates : Doc)
  | deleteOp (table : String) (rowId : PyVal)
  deriving DecidableEq, Repr

/-- In-memory state: `store` is table → column → row-id → value,
`indexes` is table → column → value → set of row-ids. -/
structure ColState where
  store : Dict String (Dict String (Dict PyVal PyVal))
  indexes : Idx3
  wal : List ColOp
  deriving DecidableEq, Repr

/-- Fresh engine (empty store, empty WAL). -/
def initState : ColState := ⟨[], [], []⟩

/-- The value stored for a row id in one column of a table. -/
def storedVal (st : ColState) (table col : String) (rid : PyVal) : Option PyVal :=
  Dict.get? (Dict.getD (Dict.getD st.store table []) col []) rid

/-- The row-id set of the index at (table, column, value). -/
def idxIds (st : ColState) (table col : String) (value : PyVal) : SSet PyVal :=
  Dict.getD (Dict.getD (Dict.getD st.indexes table []) col []) value []

/-- `wal.append(op)` with injectable I/O failure. -/
def walAppend (failAppend : Bool) (op : ColOp) : PyM ColState Unit :=
  if failAppend then PyM.throw .ioError
  else PyM.modify (fun st => { st with wal := st.wal ++ [op] })

/-- `_validate_table_id` (limits at their defaults 128 / 256). -/
def validateTableId (table : String) (rowId : PyVal) : PyM ColState Unit := do
  PyM.raiseIf (table.isEmpty) .valueError
  PyM.raiseIf (table.length > 128) .valueError
  PyM.raiseIf (!rowId.truthy) .valueError
  match rowId with
  | .vstr s => PyM.raiseIf (s.length > 256) .valueError
  | _ => pure ()

/-- `_apply(op)` of the column engine. -/
def apply : ColOp → PyM ColState Unit
  | .insertOp table rowId rowData => do
    PyM.modify (fun st => { st with
      store := Dict.setdefault st.store table [],
      indexes := Dict.setdefault st.indexes table [] })
    -- `row_id in self.store[table].get('_id', {})` hashes the row id
    PyM.raiseIf (!rowId.hashable) .typeError
    let st ← PyM.read
    -- Remove stale index entries if overwriting an existing row: for
    -- EVERY column currently stored, drop the index entry of that
    -- column's value for this row id (absent columns contribute `None`).
    if Dict.hasKey (Dict.getD (Dict.getD st.store table []) "_id" []) rowId then
      PyM.forEach (Dict.getD st.store table []) (fun colEntry => do
        let st ← PyM.read
        if Dict.hasKey (Dict.getD st.indexes table []) colEntry.1 then do
          let old := Dict.getD colEntry.2 rowId .vnone
          PyM.raiseIf (!old.hashable) .typeError
          PyM.modify (fun st =>
            { st with indexes := idxRemove1 st.indexes table colEntry.1 old rowId })
        else pure ())
    else pure ()
    -- Insert the new data column-wise
    PyM.forEach rowData (fun cv => do
      PyM.modify (fun st => { st with
        store := Dict.set st.store table
          (Dict.set (Dict.getD st.store table [])
            cv.1 (Dict.set (Dict.getD (Dict.getD st.store table []) cv.1 []) rowId cv.2)) })
      PyM.raiseIf (!cv.2.hashable) .typeError
      PyM.modify (fun st =>
        { st with indexes := idxAdd1 st.indexes table cv.1 cv.2 rowId }))
  | .updateOp table rowId updates => do
    PyM.modify (fun st => { st with
      store := Dict.setdefault st.store table [],
      indexes := Dict.setdefault st.indexes table [] })
    PyM.raiseIf (!rowId.hashable) .typeError
    PyM.forEach updates (fun cv => do
      let st ← PyM.read
      let oldVal := Dict.getD (Dict.getD (Dict.getD st.store table []) cv.1 []) rowId .vnone
      PyM.modify (fun st => { st with
        store := Dict.set st.store table
          (Dict.set (Dict.getD st.store table [])
            cv.1 (Dict.set (Dict.getD (Dict.getD st.store table []) cv.1 []) rowId cv.2)) })
      let st2 ← PyM.read
      if Dict.hasKey (Dict.getD st2.indexes table []) cv.1 then do
        if oldVal ≠ .vnone then do
          PyM.raiseIf (!oldVal.hashable) .typeError
          PyM.modify (fun st =>
            { st with indexes := idxRemove1 st.indexes table cv.1 oldVal rowId })
        else pure ()
        PyM.raiseIf (!cv.2.hashable) .typeError
        PyM.modify (fun st =>
          { st with indexes := idxAdd1 st.indexes table cv.1 cv.2 rowId })
      else pure ())
  | .deleteOp table rowId => do
    PyM.modify (fun st => { st with
      store := Dict.setdefault st.store table [],
      indexes := Dict.setdefault st.indexes table [] })
    PyM.raiseIf (!rowId.hashable) .typeError
    let st ← PyM.read
    PyM.forEach (Dict.getD st.store table []) (fun colEntry => do
      match Dict.get? colEntry.2 rowId with
      | some oldVal => do
        PyM.modify (fun st => { st with
          store := Dict.set st.store table
            (Dict.set (Dict.getD st.store table [])
              colEntry.1 (Dict.erase (Dict.getD (Dict.getD st.store table []) colEntry.1 []) rowId)) })
        let st2 ← PyM.read
        if Dict.hasKey (Dict.getD st2.indexes table []) colEntry.1 then do
          PyM.raiseIf (!oldVal.hashable) .typeError
          PyM.modify (fun st =>
            { st with indexes := idxRemove1 st.indexes table colEntry.1 oldVal rowId })
        else pure ()
      | none => pure ())

/-- `self._apply(op); self.wal.append(op)`. -/
def applyAndLog (failAppend : Bool) (op : ColOp) : PyM ColState Unit := do
  apply op
  walAppend failAppend op

/-- `put(table, key, row)`: validate, force `row['_id'] = key`, apply,
then append the WAL record. -/
def put (failAppend : Bool) (table : String) (key : PyVal) (row : Doc) :
    PyM ColState Unit := do
  validateTableId table key
  let rowData := Dict.set row "_id" key
  let op := ColOp.insertOp table key rowData
  applyAndLog failAppend op

/-- One operator-dict evaluation of `_filter_row_ids`: unlike the document
engine's `_match`, the inner loop has no early return, so every comparison
is evaluated (and may raise) even after the row is already invalid. -/
def evalOps (value : PyVal) : List (String × PyVal) → Except PyErr Bool
  | [] => .ok true
  | (op, thr) :: rest =>
    if op = "$gt" then do
      let b ← evalCmp (pyGt value thr)
      let r ← evalOps value rest
      .ok (b && r)
    else if op = "$gte" then do
      let b ← evalCmp (pyGe value thr)
      let r ← evalOps value rest
      .ok (b && r)
    else if op = "$lt" then do
      let b ← evalCmp (pyLt value thr)
      let r ← evalOps value rest
      .ok (b && r)
    else if op = "$lte" then do
      let b ← evalCmp (pyLe value thr)
      let r ← evalOps value rest
      .ok (b && r)
    else if op = "$ne" then do
      let r ← evalOps value rest
      .ok (pyEq value thr = false && r)
    else evalOps value rest

/-- One field condition of the row filter (`value = store[table].get(col,
{}).get(rid)`, absent → `None`). -/
def evalField (tableStore : Dict String (Dict PyVal PyVal)) (rid : PyVal) :
    String × PyVal → Except PyErr Bool
  | (col, cond) =>
    let value := Dict.getD (Dict.getD tableStore col []) rid .vnone
    match cond with
    | .vdict ops => evalOps value ops
    | c => .ok (pyEq value c)

/-- Whether a row id passes the filter: field conditions in order, with
`break` after the first invalid one. -/
def rowMatches (tableStore : Dict String (Dict PyVal PyVal)) (rid : PyVal) :
    List (String × PyVal) → Except PyErr Bool
  | [] => .ok true
  | fc :: rest => do
    let b ← evalField tableStore rid fc
    if b then rowMatches tableStore rid rest else .ok false

/-- `all_ids`: the union of the row ids present in any column, in
first-appearance order. -/
def allIds (tableStore : Dict String (Dict PyVal PyVal)) : SSet PyVal :=
  tableStore.foldl (fun acc colEntry =>
    colEntry.2.foldl (fun acc2 rv => SSet.insert acc2 rv.1) acc) []

/-- `_filter_row_ids(table, filter)`: single-equality filters read the
index, everything else scans the union of row ids. -/
def filterRowIds (st : ColState) (table : String) (filter : Doc) :
    Except PyErr (SSet PyVal) :=
  match filter with
  | [(col, value)] =>
    if value.isDictVal then do
      (allIds (Dict.getD st.store table [])).foldlM (fun acc rid => do
        let b ← rowMatches (Dict.getD st.store table []) rid [(col, value)]
        pure (if b then SSet.insert acc rid else acc)) []
    else do
      if !value.hashable then .error .typeError
      else .ok (idxIds st table col value)
  | filt =>
    (allIds (Dict.getD st.store table [])).foldlM (fun acc rid => do
      let b ← rowMatches (Dict.getD st.store table []) rid filt
      pure (if b then SSet.insert acc rid else acc)) []

/-- Rebuild the logical row for an id: every column that has a value for
it. -/
def buildRow (tableStore : Dict String (Dict PyVal PyVal)) (rid : PyVal) : Doc :=
  tableStore.foldl (fun acc colEntry =>
    match Dict.get? colEntry.2 rid with
    | some v => acc ++ [(colEntry.1, v)]
    | none => acc) []

/-- `_find_one(table, filter)`: first matching row id, rebuilt. -/
def findOne (st : ColState) (table : String) (filter : Doc) :
    Except PyErr (Option Doc) := do
  let rowIds ← filterRowIds st table filter
  match rowIds with
  | [] => pure none
  | rid :: _ => pure (some (buildRow (Dict.getD st.store table []) rid))

/-- `get(table, key)`. -/
def get (st : ColState) (table : String) (key : PyVal) :
    Except PyErr (Option Doc) :=
  findOne st table [("_id", key)]

/-- `update(table, filt, update)`: validates `filt.get('_id')`, then one
UPDATE record per matched row id (apply, then append), returning the
count. -/
def update (failAppend : Bool) (table : String) (filt : Doc) (updates : Doc) :
    PyM ColState Nat := do
  validateTableId table (Dict.getD filt "_id" .vnone)
  let st ← PyM.read
  let rowIds ← liftExc (filterRowIds st table filt)
  PyM.forEach rowIds (fun rid =>
    applyAndLog failAppend (ColOp.updateOp table rid updates))
  pure rowIds.length

/-- `delete(table, key_or_filt)`: one DELETE record per matched row id. -/
def delete (failAppend : Bool) (table : String) (keyOrFilt : PyVal) :
    PyM ColState Bool := do
  let filt : Doc :=
    match keyOrFilt with
    | .vdict kvs => kvs
    | x => [("_id", x)]
  let st ← PyM.read
  let rowIds ← liftExc (filterRowIds st table filt)
  match rowIds with
  | [] => pure false
  | _ => do
    PyM.forEach rowIds (fun rid =>
      applyAndLog failAppend (ColOp.deleteOp table rid))
    pure true

/-- `query(table, filt)`: all matching rows, rebuilt column-wise. -/
def query (st : ColState) (table : String) (filt : Doc) :
    Except PyErr (List Doc) := do
  let rowIds ← filterRowIds st table filt
  pure (rowIds.map (buildRow (Dict.getD st.store table [])))

end ColumnEngine

/-! ## Graph engine (`graph_engine.py`) -/

namespace GraphEngine

/-- A WAL record of the graph engine. -/
inductive GraphOp where
  | addNode (graph : String) (nodeId : PyVal) (nodeData : Doc)
  | addEdge (graph : String) (edgeId : PyVal) (edgeData : Doc)
  | deleteNode (graph : String) (nodeId : PyVal)
  | deleteEdge (graph : String) (edgeId : PyVal)
  deriving DecidableEq, Repr

/-- One graph's primary state: the `{'nodes': …, 'edges': …}` dict. -/
structure GraphData where
  nodes : Dict PyVal Doc
  edges : Dict PyVal Doc
  deriving DecidableEq, Repr

/-- One node's adjacency entry: the `{'outgoing': …, 'incoming': …}`
dict of edge-id sets. -/
structure AdjEntry where
  outgoing : SSet PyVal
  incoming : SSet PyVal
  deriving DecidableEq, Repr

/-- In-memory state of the graph engine. -/
structure GraphState where
  store : Dict String GraphData
  nodeIndexes : Idx3
  edgeIndexes : Idx3
  adjacency : Dict String (Dict PyVal AdjEntry)
  wal : List GraphOp
  deriving DecidableEq, Repr

/-- Fresh engine. -/
def initState : GraphState := ⟨[], [], [], [], []⟩

/-- The empty `{'nodes': {}, 'edges': {}}`. -/
def emptyGraph : GraphData := ⟨[], []⟩

/-- The empty `{'outgoing': set(), 'incoming': set()}`. -/
def emptyAdj : AdjEntry := ⟨[], []⟩

/-- The graph dict of a state (after `_apply`'s `setdefault` it exists;
readers use `.get`-style access). -/
def graphOf (st : GraphState) (graph : String) : GraphData :=
  Dict.getD st.store graph emptyGraph

/-- The adjacency entry of a node, when present. -/
def adjOf (st : GraphState) (graph : String) (nodeId : PyVal) : Option AdjEntry :=
  Dict.get? (Dict.getD st.adjacency graph []) nodeId

/-- `wal.append(op)` with injectable I/O failure. -/
def walAppend (failAppend : Bool) (op : GraphOp) : PyM GraphState Unit :=
  if failAppend then PyM.throw .ioError
  else PyM.modify (fun st => { st with wal := st.wal ++ [op] })

/-- `_validate_graph_node` (limits at their defaults 128 / 256). -/
def validateGraphNode (graph : String) (nodeId : PyVal) : PyM GraphState Unit := do
  PyM.raiseIf (graph.isEmpty) .valueError
  PyM.raiseIf (graph.length > 128) .valueError
  PyM.raiseIf (!nodeId.truthy) .valueError
  match nodeId with
  | .vstr s => PyM.raiseIf (s.length > 256) .valueError
  | _ => pure ()

/-- Replace one graph's data in the store. -/
def setGraph (st : GraphState) (graph : String) (g : GraphData) : GraphState :=
  { st with store := Dict.set st.store graph g }

/-- Replace one node's adjacency entry. -/
def setAdj (st : GraphState) (graph : String) (nodeId : PyVal) (a : AdjEntry) :
    GraphState :=
  { st with
    adjacency :=
      Dict.set st.adjacency graph
        (Dict.set (Dict.getD st.adjacency graph []) nodeId a) }

/-- `self.adjacency[graph][node]` for mutation: raises `KeyError` when the
node has no adjacency entry (the `ADD_EDGE` overwrite path indexes it
without a guard). -/
def adjacencyModify (graph : String) (nodeId : PyVal) (f : AdjEntry → AdjEntry) :
    PyM GraphState Unit := do
  let st ← PyM.read
  match adjOf st graph nodeId with
  | none => PyM.throw .keyError
  | some a => PyM.write (setAdj st graph nodeId (f a))

/-- `_apply(op)` of the graph engine. -/
def apply : GraphOp → PyM GraphState Unit
  | .addNode graph nodeId nodeData => do
    PyM.modify (fun st => { st with
      store := Dict.setdefault st.store graph emptyGraph,
      nodeIndexes := Dict.setdefault st.nodeIndexes graph [],
      edgeIndexes := Dict.setdefault st.edgeIndexes graph [],
      adjacency := Dict.setdefault st.adjacency graph [] })
    -- `node_id in self.store[graph]['nodes']` hashes the id
    PyM.raiseIf (!nodeId.hashable) .typeError
    let st ← PyM.read
    match Dict.get? (graphOf st graph).nodes nodeId with
    | some old =>
      PyM.forEach old (fun fv => do
        PyM.raiseIf (!fv.2.hashable) .typeError
        PyM.modify (fun st =>
          { st with nodeIndexes := idxRemove1 st.nodeIndexes graph fv.1 fv.2 nodeId }))
    | none => pure ()
    PyM.modify (fun st => setGraph st graph
      { graphOf st graph with
        nodes := Dict.set (graphOf st graph).nodes nodeId nodeData })
    PyM.forEach nodeData (fun fv => do
      PyM.raiseIf (!fv.2.hashable) .typeError
      PyM.modify (fun st =>
        { st with nodeIndexes := idxAdd1 st.nodeIndexes graph fv.1 fv.2 nodeId }))
    PyM.modify (fun st =>
      { st with
        adjacency :=
          Dict.set st.adjacency graph
            (Dict.setdefault (Dict.getD st.adjacency graph []) nodeId emptyAdj) })
  | .addEdge graph edgeId edgeData => do
    PyM.modify (fun st => { st with
      store := Dict.setdefault st.store graph emptyGraph,
      nodeIndexes := Dict.setdefault st.nodeIndexes graph [],
      edgeIndexes := Dict.setdefault st.edgeIndexes graph [],
      adjacency := Dict.setdefault st.adjacency graph [] })
    PyM.raiseIf (!edgeId.hashable) .typeError
    let st ← PyM.read
    match Dict.get? (graphOf st graph).edges edgeId with
    | some oldEdge => do
      PyM.forEach oldEdge (fun fv => do
        if fv.1 ≠ "from" ∧ fv.1 ≠ "to" then do
          PyM.raiseIf (!fv.2.hashable) .typeError
          PyM.modify (fun st =>
            { st with edgeIndexes := idxRemove1 st.edgeIndexes graph fv.1 fv.2 edgeId })
        else pure ())
      -- Remove from old adjacency: unguarded subscripts
      let oldFrom := Dict.getD oldEdge "from" .vnone
      let oldTo := Dict.getD oldEdge "to" .vnone
      if oldFrom.truthy ∧ oldTo.truthy then do
        adjacencyModify graph oldFrom (fun a =>
          { a with outgoing := SSet.discard a.outgoing edgeId })
        adjacencyModify graph oldTo (fun a =>
          { a with incoming := SSet.discard a.incoming edgeId })
      else pure ()
    | none => pure ()
    PyM.modify (fun st => setGraph st graph
      { graphOf st graph with
        edges := Dict.set (graphOf st graph).edges edgeId edgeData })
    PyM.forEach edgeData (fun fv => do
      if fv.1 ≠ "from" ∧ fv.1 ≠ "to" then do
        PyM.raiseIf (!fv.2.hashable) .typeError
        PyM.modify (fun st =>
          { st with edgeIndexes := idxAdd1 st.edgeIndexes graph fv.1 fv.2 edgeId })
      else pure ())
    let fromNode := Dict.getD edgeData "from" .vnone
    let toNode := Dict.getD edgeData "to" .vnone
    if fromNode.truthy ∧ toNode.truthy then do
      PyM.modify (fun st =>
        { st with
          adjacency :=
            Dict.set st.adjacency graph
              (Dict.setdefault (Dict.getD st.adjacency graph []) fromNode emptyAdj) })
      PyM.modify (fun st =>
        { st with
          adjacency :=
            Dict.set st.adjacency graph
              (Dict.setdefault (Dict.getD st.adjacency graph []) toNode emptyAdj) })
      adjacencyModify graph fromNode (fun a =>
        { a with outgoing := SSet.insert a.outgoing edgeId })
      adjacencyModify graph toNode (fun a =>
        { a with incoming := SSet.insert a.incoming edgeId })
    else pure ()
  | .deleteNode graph nodeId => do
    PyM.modify (fun st => { st with
      store := Dict.setdefault st.store graph emptyGraph,
      nodeIndexes := Dict.setdefault st.nodeIndexes graph [],
      edgeIndexes := Dict.setdefault st.edgeIndexes graph [],
      adjacency := Dict.setdefault st.adjacency graph [] })
    PyM.raiseIf (!nodeId.hashable) .typeError
    let st ← PyM.read
    -- connected_edges: union of the node's outgoing and incoming sets
    let connectedEdges : SSet PyVal :=
      match adjOf st graph nodeId with
      | some a => a.incoming.foldl SSet.insert a.outgoing
      | none => []
    PyM.forEach connectedEdges (fun edgeId => do
      let st ← PyM.read
      match Dict.get? (graphOf st graph).edges edgeId with
      | some edgeData => do
        PyM.forEach edgeData (fun fv => do
          if fv.1 ≠ "from" ∧ fv.1 ≠ "to" then do
            PyM.raiseIf (!fv.2.hashable) .typeError
            PyM.modify (fun st =>
              { st with edgeIndexes := idxRemove1 st.edgeIndexes graph fv.1 fv.2 edgeId })
          else pure ())
        PyM.modify (fun st => setGraph st graph
          { graphOf st graph with
            edges := Dict.erase (graphOf st graph).edges edgeId })
      | none => pure ())
    let st2 ← PyM.read
    match Dict.get? (graphOf st2 graph).nodes nodeId with
    | some nodeData => do
      PyM.forEach nodeData (fun fv => do
        PyM.raiseIf (!fv.2.hashable) .typeError
        PyM.modify (fun st =>
          { st with nodeIndexes := idxRemove1 st.nodeIndexes graph fv.1 fv.2 nodeId }))
      PyM.modify (fun st => setGraph st graph
        { graphOf st graph with
          nodes := Dict.erase (graphOf st graph).nodes nodeId })
    | none => pure ()
    PyM.modify (fun st =>
      { st with
        adjacency :=
          Dict.set st.adjacency graph
            (Dict.erase (Dict.getD st.adjacency graph []) nodeId) })
  | .deleteEdge graph edgeId => do
    PyM.modify (fun st => { st with
      store := Dict.setdefault st.store graph emptyGraph,
      nodeIndexes := Dict.setdefault st.nodeIndexes graph [],
      edgeIndexes := Dict.setdefault st.edgeIndexes graph [],
      adjacency := Dict.setdefault st.adjacency graph [] })
    PyM.raiseIf (!edgeId.hashable) .typeError
    let st ← PyM.read
    match Dict.get? (graphOf st graph).edges edgeId with
    | some edgeData => do
      PyM.forEach edgeData (fun fv => do
        if fv.1 ≠ "from" ∧ fv.1 ≠ "to" then do
          PyM.raiseIf (!fv.2.hashable) .typeError
          PyM.modify (fun st =>
            { st with edgeIndexes := idxRemove1 st.edgeIndexes graph fv.1 fv.2 edgeId })
        else pure ())
      let fromNode := Dict.getD edgeData "from" .vnone
      let toNode := Dict.getD edgeData "to" .vnone
      if fromNode.truthy then do
        let st ← PyM.read
        match adjOf st graph fromNode with
        | some a => PyM.write (setAdj st graph fromNode
            { a with outgoing := SSet.discard a.outgoing edgeId })
        | none => pure ()
      else pure ()
      if toNode.truthy then do
        let st ← PyM.read
        match adjOf st graph toNode with
        | some a => PyM.write (setAdj st graph toNode
            { a with incoming := SSet.discard a.incoming edgeId })
        | none => pure ()
      else pure ()
      PyM.modify (fun st => setGraph st graph
        { graphOf st graph with
          edges := Dict.erase (graphOf st graph).edges edgeId })
    | none => pure ()

/-- `self._apply(op); self.wal.append(op)`. -/
def applyAndLog (failAppend : Bool) (op : GraphOp) : PyM GraphState Unit := do
  apply op
  walAppend failAppend op

/-- `put(graph, key, value)`: validate and add the node.  The
`json.loads` of the value bytes is modelled by taking the decoded
attribute dict directly; a malformed payload raises `ValueError` before
any state change, which the validation step already covers. -/
def put (failAppend : Bool) (graph : String) (key : PyVal) (nodeData : Doc) :
    PyM GraphState Unit := do
  validateGraphNode graph key
  let op := GraphOp.addNode graph key nodeData
  applyAndLog failAppend op

/-- `delete(graph, key)`: `False` without mutation when the node is
absent, else apply + append. -/
def delete (failAppend : Bool) (graph : String) (key : PyVal) :
    PyM GraphState Bool := do
  validateGraphNode graph key
  PyM.raiseIf (!key.hashable) .typeError
  let st ← PyM.read
  if Dict.hasKey (graphOf st graph).nodes key then do
    let op := GraphOp.deleteNode graph key
    applyAndLog failAppend op
    pure true
  else pure false

/-- `add_edge(graph, edge_id, from_node, to_node, edge_data)`: force the
structural fields, apply, append.  (No validation.) -/
def addEdge (failAppend : Bool) (graph : String) (edgeId fromNode toNode : PyVal)
    (edgeData : Doc) : PyM GraphState Unit := do
  let ed := Dict.set (Dict.set edgeData "from" fromNode) "to" toNode
  let op := GraphOp.addEdge graph edgeId ed
  applyAndLog failAppend op

/-- `delete_edge(graph, edge_id)`. -/
def deleteEdge (failAppend : Bool) (graph : String) (edgeId : PyVal) :
    PyM GraphState Bool := do
  PyM.raiseIf (!edgeId.hashable) .typeError
  let st ← PyM.read
  if Dict.hasKey (graphOf st graph).edges edgeId then do
    let op := GraphOp.deleteEdge graph edgeId
    applyAndLog failAppend op
    pure true
  else pure false

end GraphEngine

/-! ## Time-series engine (`timeseries_engine.py`)

Timestamps are modelled as naturals (the source uses Python ints; all
timestamps reaching the engine through `add_point`/`put` in the claims are
non-negative epoch values, for which Python's floor division `//` agrees
with the model's).  Numeric point values are read through `PyVal.asNum?`;
aggregation arithmetic is carried out in `ℚ`, which contains every value
Python's int/float arithmetic produces on integer inputs. -/

namespace TimeSeriesEngine

/-- `str(v)` as used for tag-index keys.  Containers use their JSON form
(an approximation of `repr`; no claim exercises container-valued tags). -/
def pyStr : PyVal → String
  | .vnone => "None"
  | .vbool b => if b then "True" else "False"
  | .vint n => toString n
  | .vstr s => s
  | v => jsonDumps v

/-- `isinstance(value, (int, float))` — true of `bool` as well. -/
def isNumericPy : PyVal → Bool
  | .vint _ => true
  | .vbool _ => true
  | _ => false

/-- A WAL record of the time-series engine. -/
inductive TsOp where
  | insertPoint (series : String) (timestamp : Nat) (pointData : Doc)
  | updateMetadata (series : String) (metadata : Doc)
  | deletePoint (series : String) (timestamp : Nat)
  | deleteSeries (series : String)
  deriving DecidableEq, Repr

/-- One series: the `{'points': …, 'metadata': …}` dict. -/
structure TsSeries where
  points : Dict Nat Doc
  metadata : Doc
  deriving DecidableEq, Repr

/-- The empty series skeleton. -/
def emptySeries : TsSeries := ⟨[], []⟩

/-- In-memory state of the time-series engine. -/
structure TsState where
  store : Dict String TsSeries
  timeIndexes : Dict String (Dict Nat (SSet Nat))
  tagIndexes : Dict String (Dict String (Dict String (SSet Nat)))
  valueIndexes : Dict String (Dict String (List Nat))
  wal : List TsOp
  deriving DecidableEq, Repr

/-- Fresh engine. -/
def initState : TsState := ⟨[], [], [], [], []⟩

/-- The series dict of a state. -/
def seriesOf (st : TsState) (series : String) : TsSeries :=
  Dict.getD st.store series emptySeries

/-- `wal.append(op)` with injectable I/O failure. -/
def walAppend (failAppend : Bool) (op : TsOp) : PyM TsState Unit :=
  if failAppend then PyM.throw .ioError
  else PyM.modify (fun st => { st with wal := st.wal ++ [op] })

/-- `_add_to_indexes(series, timestamp, point_data)`. -/
def addToIndexes (series : String) (ts : Nat) (p : Doc) : PyM TsState Unit := do
  -- time index: `time_indexes[series].setdefault(ts, set()).add(ts)`
  PyM.modify (fun st =>
    { st with
      timeIndexes :=
        Dict.set st.timeIndexes series
          (Dict.set (Dict.getD st.timeIndexes series [])
            ts (SSet.insert (Dict.getD (Dict.getD st.timeIndexes series []) ts []) ts)) })
  -- tag indexes over `point_data.get('tags', {})`
  match Dict.getD p "tags" (.vdict []) with
  | .vdict tags =>
    PyM.forEach tags (fun tv =>
      PyM.modify (fun st =>
        { st with
          tagIndexes :=
            Dict.set st.tagIndexes series
              (Dict.set (Dict.getD st.tagIndexes series [])
                tv.1
                (Dict.set (Dict.getD (Dict.getD st.tagIndexes series []) tv.1 [])
                  (pyStr tv.2)
                  (SSet.insert
                    (Dict.getD (Dict.getD (Dict.getD st.tagIndexes series []) tv.1 [])
                      (pyStr tv.2) []) ts))) }))
  | _ => PyM.throw .typeError  -- `.items()` on a non-dict raises
  -- value indexes: numeric fields other than 'timestamp'/'tags',
  -- appended and re-sorted (`list.append` + `list.sort`)
  PyM.forEach p (fun fv =>
    if isNumericPy fv.2 ∧ fv.1 ≠ "timestamp" ∧ fv.1 ≠ "tags" then
      PyM.modify (fun st =>
        { st with
          valueIndexes :=
            Dict.set st.valueIndexes series
              (Dict.set (Dict.getD st.valueIndexes series [])
                fv.1
                ((Dict.getD (Dict.getD st.valueIndexes series []) fv.1 [] ++
                  [ts]).insertionSort (· ≤ ·))) })
    else pure ())

/-- `_remove_from_indexes(series, timestamp, point_data)`. -/
def removeFromIndexes (series : String) (ts : Nat) (p : Doc) :
    PyM TsState Unit := do
  -- time index: discard then drop if empty
  PyM.modify (fun st =>
    { st with
      timeIndexes :=
        Dict.set st.timeIndexes series
          (match Dict.get? (Dict.getD st.timeIndexes series []) ts with
           | none => Dict.getD st.timeIndexes series []
           | some tset =>
             let tset2 := SSet.discard tset ts
             if tset2.isEmpty then
               Dict.erase (Dict.getD st.timeIndexes series []) ts
             else Dict.set (Dict.getD st.timeIndexes series []) ts tset2) })
  -- tag indexes
  match Dict.getD p "tags" (.vdict []) with
  | .vdict tags =>
    PyM.forEach tags (fun tv =>
      PyM.modify (fun st =>
        { st with
          tagIndexes :=
            let tagIdx := Dict.getD (Dict.getD st.tagIndexes series []) tv.1 []
            let tagTs := Dict.getD tagIdx (pyStr tv.2) []
            let tagTs2 := SSet.discard tagTs ts
            let tagIdx2 :=
              if tagTs2.isEmpty then Dict.erase tagIdx (pyStr tv.2)
              else Dict.set tagIdx (pyStr tv.2) tagTs2
            Dict.set st.tagIndexes series
              (Dict.set (Dict.getD st.tagIndexes series []) tv.1 tagIdx2) }))
  | _ => PyM.throw .typeError
  -- value indexes: `list.remove(ts)` with `ValueError` swallowed
  PyM.forEach p (fun fv =>
    if isNumericPy fv.2 ∧ fv.1 ≠ "timestamp" ∧ fv.1 ≠ "tags" then
      PyM.modify (fun st =>
        { st with
          valueIndexes :=
            match Dict.get? (Dict.getD st.valueIndexes series []) fv.1 with
            | none => st.valueIndexes
            | some lst =>
              Dict.set st.valueIndexes series
                (Dict.set (Dict.getD st.valueIndexes series []) fv.1
                  (lst.erase ts)) })
    else pure ())

/-- `_apply(op)` of the time-series engine. -/
def apply : TsOp → PyM TsState Unit
  | .insertPoint series ts pointData => do
    PyM.modify (fun st => { st with
      store := Dict.setdefault st.store series emptySeries,
      timeIndexes := Dict.setdefault st.timeIndexes series [],
      tagIndexes := Dict.setdefault st.tagIndexes series [],
      valueIndexes := Dict.setdefault st.valueIndexes series [] })
    let st ← PyM.read
    match Dict.get? (seriesOf st series).points ts with
    | some oldPoint => removeFromIndexes series ts oldPoint
    | none => pure ()
    PyM.modify (fun st =>
      { st with
        store :=
          Dict.set st.store series
            { seriesOf st series with
              points := Dict.set (seriesOf st series).points ts pointData } })
    addToIndexes series ts pointData
  | .updateMetadata series metadata => do
    PyM.modify (fun st => { st with
      store := Dict.setdefault st.store series emptySeries,
      timeIndexes := Dict.setdefault st.timeIndexes series [],
      tagIndexes := Dict.setdefault st.tagIndexes series [],
      valueIndexes := Dict.setdefault st.valueIndexes series [] })
    PyM.modify (fun st =>
      { st with
        store :=
          Dict.set st.store series
            { seriesOf st series with
              metadata := metadata.foldl (fun d kv => Dict.set d kv.1 kv.2)
                (seriesOf st series).metadata } })
  | .deletePoint series ts => do
    PyM.modify (fun st => { st with
      store := Dict.setdefault st.store series emptySeries,
      timeIndexes := Dict.setdefault st.timeIndexes series [],
      tagIndexes := Dict.setdefault st.tagIndexes series [],
      valueIndexes := Dict.setdefault st.valueIndexes series [] })
    let st ← PyM.read
    match Dict.get? (seriesOf st series).points ts with
    | some pointData => do
      removeFromIndexes series ts pointData
      PyM.modify (fun st =>
        { st with
          store :=
            Dict.set st.store series
              { seriesOf st series with
                points := Dict.erase (seriesOf st series).points ts } })
    | none => pure ()
  | .deleteSeries series => do
    PyM.modify (fun st => { st with
      store := Dict.setdefault st.store series emptySeries,
      timeIndexes := Dict.setdefault st.timeIndexes series [],
      tagIndexes := Dict.setdefault st.tagIndexes series [],
      valueIndexes := Dict.setdefault st.valueIndexes series [] })
    PyM.modify (fun st =>
      { st with
        timeIndexes := Dict.erase st.timeIndexes series,
        tagIndexes := Dict.erase st.tagIndexes series,
        valueIndexes := Dict.erase st.valueIndexes series,
        store := Dict.erase st.store series })

/-- `self._apply(op); self.wal.append(op)`. -/
def applyAndLog (failAppend : Bool) (op : TsOp) : PyM TsState Unit := do
  apply op
  walAppend failAppend op

/-- `_cleanup_old_data()` at the given clock reading (`time.time()` is
passed in explicitly): evict points strictly older than
`now − retention_days·86400` from the store and every index. -/
def cleanupOldData (now : Nat) (retentionDays : Nat) : PyM TsState Unit := do
  let cutoff : Int := (now : Int) - retentionDays * 86400
  let st ← PyM.read
  PyM.forEach st.store (fun se => do
    let toRemove := (se.2.points.filter (fun pe => decide ((pe.1 : Int) < cutoff))).map
      Prod.fst
    PyM.forEach toRemove (fun ts => do
      let st ← PyM.read
      match Dict.get? (seriesOf st se.1).points ts with
      | some pointData => do
        removeFromIndexes se.1 ts pointData
        PyM.modify (fun st =>
          { st with
            store :=
              Dict.set st.store se.1
                { seriesOf st se.1 with
                  points := Dict.erase (seriesOf st se.1).points ts } })
      | none => pure ()))

/-- `_validate_series_point` (limits at their defaults 128 / 256; a zero
timestamp is falsy and rejected). -/
def validateSeriesPoint (series : String) (pointId : Nat) : PyM TsState Unit := do
  PyM.raiseIf (series.isEmpty) .valueError
  PyM.raiseIf (series.length > 128) .valueError
  PyM.raiseIf (pointId == 0) .valueError

/-- `put(series, key, value)`: validate, force
`point_data['timestamp'] = key`, apply, append.  The `json.loads` of the
value bytes is modelled by taking the decoded dict directly. -/
def put (failAppend : Bool) (series : String) (key : Nat) (pointData : Doc) :
    PyM TsState Unit := do
  validateSeriesPoint series key
  let pd := Dict.set pointData "timestamp" (.vint key)
  let op := TsOp.insertPoint series key pd
  applyAndLog failAppend op

/-- `add_point(series, timestamp, value, tags)`: no validation; apply,
append, then retention cleanup at the current clock. -/
def addPoint (failAppend : Bool) (now retentionDays : Nat) (series : String)
    (timestamp : Nat) (value : PyVal) (tags : Doc) : PyM TsState Unit := do
  let pointData : Doc :=
    [("timestamp", .vint timestamp), ("value", value), ("tags", .vdict tags)]
  let op := TsOp.insertPoint series timestamp pointData
  applyAndLog failAppend op
  cleanupOldData now retentionDays

/-- `delete(series, key)`: `False` without mutation when absent. -/
def delete (failAppend : Bool) (series : String) (key : Nat) :
    PyM TsState Bool := do
  validateSeriesPoint series key
  let st ← PyM.read
  if Dict.hasKey (seriesOf st series).points key then do
    let op := TsOp.deletePoint series key
    applyAndLog failAppend op
    pure true
  else pure false

/-- `update_series_metadata(series, metadata)`. -/
def updateSeriesMetadata (failAppend : Bool) (series : String) (metadata : Doc) :
    PyM TsState Unit := do
  let op := TsOp.updateMetadata series metadata
  applyAndLog failAppend op

/-- `delete_series(series)`. -/
def deleteSeries (failAppend : Bool) (series : String) : PyM TsState Bool := do
  let st ← PyM.read
  if Dict.hasKey st.store series then do
    let op := TsOp.deleteSeries series
    applyAndLog failAppend op
    pure true
  else pure false

/-- `int(s)` applied to the interval's numeric prefix: a non-empty
all-digit string parses as a decimal, anything else raises
`ValueError` (sign/whitespace forms never reach `_parse_interval`). -/
def digitsToNat? (cs : List Char) : Option Nat :=
  if cs ≠ [] ∧ cs.all Char.isDigit then
    some (cs.foldl (fun n c => n * 10 + (c.toNat - 48)) 0)
  else none

/-- `_parse_interval(interval)`: a suffix in `s/m/h/d` (checked in that
order on the last character) multiplies the decimal prefix (whose
failed `int()` parse raises `ValueError`); any other string falls back
to 3600. -/
def parseInterval (interval : String) : Except PyErr Nat :=
  match interval.data.getLast? with
  | some 's' =>
    match digitsToNat? interval.data.dropLast with
    | some n => .ok n
    | none => .error .valueError
  | some 'm' =>
    match digitsToNat? interval.data.dropLast with
    | some n => .ok (n * 60)
    | none => .error .valueError
  | some 'h' =>
    match digitsToNat? interval.data.dropLast with
    | some n => .ok (n * 3600)
    | none => .error .valueError
  | some 'd' =>
    match digitsToNat? interval.data.dropLast with
    | some n => .ok (n * 86400)
    | none => .error .valueError
  | _ => .ok 3600

/-- The scan loop of `_query_time_range`: ascending timestamps, the
zero/absent bound disabling its comparison (Python truthiness of
`start`/`end`), empty point dicts skipped (`if point_data:`), stop once
`limit` points are collected. -/
def scanLoop (seriesPoints : Dict Nat Doc) (start end_ limit : Nat) :
    List Nat → List Doc → List Doc
  | [], acc => acc
  | ts :: rest, acc =>
    if start ≠ 0 ∧ ts < start then scanLoop seriesPoints start end_ limit rest acc
    else if end_ ≠ 0 ∧ ts > end_ then
      scanLoop seriesPoints start end_ limit rest acc
    else
      match Dict.get? seriesPoints ts with
      | some p =>
        if p.isEmpty then scanLoop seriesPoints start end_ limit rest acc
        else
          let acc2 := acc ++ [p]
          if limit ≤ acc2.length then acc2
          else scanLoop seriesPoints start end_ limit rest acc2
      | none => scanLoop seriesPoints start end_ limit rest acc

/-- `_query_time_range(series, {'start': …, 'end': …, 'limit': …})`:
iterate the sorted time-index keys (the sorted point keys when the series
has no time index). -/
def queryTimeRange (st : TsState) (series : String) (start end_ limit : Nat) :
    List Doc :=
  let seriesPoints := (seriesOf st series).points
  let timestamps :=
    if Dict.hasKey st.timeIndexes series then
      (Dict.keys (Dict.getD st.timeIndexes series [])).insertionSort (· ≤ ·)
    else (Dict.keys seriesPoints).insertionSort (· ≤ ·)
  scanLoop seriesPoints start end_ limit timestamps []

/-- One result row of an aggregation query:
`{'timestamp': …, 'value': …, 'count': …}`. -/
structure AggEntry where
  timestamp : Int
  value : ℚ
  count : Nat
  deriving DecidableEq, Repr

/-- Append a value to its bucket: existing buckets keep their place, a new
bucket is appended (Python dict insertion order). -/
def bucketAdd : List (Int × List ℚ) → Int → ℚ → List (Int × List ℚ)
  | [], k, v => [(k, [v])]
  | (k2, vs) :: rest, k, v =>
    if k2 = k then (k2, vs ++ [v]) :: rest else (k2, vs) :: bucketAdd rest k v

/-- The aggregation function applied to one bucket's values (buckets are
never empty; the `[]` case is unreachable).  An unrecognised function name
defaults to the average, like the source's trailing `else`. -/
def aggValue (function : String) : List ℚ → ℚ
  | [] => 0
  | v :: rest =>
    if function = "sum" then (v :: rest).sum
    else if function = "min" then rest.foldl min v
    else if function = "max" then rest.foldl max v
    else if function = "count" then ((v :: rest).length : ℚ)
    else (v :: rest).sum / ((v :: rest).length : ℚ)

/-- A point value read as a number: `//` and the arithmetic aggregation
functions raise `TypeError` on non-numeric operands. -/
def readNum (v : PyVal) : Except PyErr Int :=
  match v.asNum? with
  | some n => Except.ok n
  | none => Except.error PyErr.typeError

/-- One iteration of the bucket-grouping loop:
`bucket_start = (timestamp // interval_seconds) * interval_seconds;
buckets[bucket_start].append(point.get(field, 0))` (defaults of `0`
for an absent `timestamp` or field, as in the source's `.get(…, 0)`). -/
def aggStep (intervalSeconds : Nat) (field : String)
    (bs : List (Int × List ℚ)) (p : Doc) :
    Except PyErr (List (Int × List ℚ)) := do
  let tsv ← readNum (Dict.getD p "timestamp" (.vint 0))
  let v ← readNum (Dict.getD p field (.vint 0))
  pure (bucketAdd bs (Int.fdiv tsv intervalSeconds * intervalSeconds)
    ((v : ℚ)))

/-- `_query_aggregation(series, {'interval', 'start', 'end', 'function',
'field'})`: parse the interval, scan the time range (with the internal
100000-point limit), bucket by `(ts // interval) * interval`, aggregate
each bucket, and emit entries in ascending bucket order.  Points are read
through `asNum?`: a non-numeric `timestamp` or field value raises
(`TypeError` from `//`, `sum`, `min`…). -/
def queryAggregation (st : TsState) (series : String) (interval : String)
    (start end_ : Nat) (function field : String) :
    Except PyErr (List AggEntry) := do
  let intervalSeconds ← parseInterval interval
  if intervalSeconds = 0 then .error .zeroDivisionError
  else do
    let points := queryTimeRange st series start end_ 100000
    let buckets ← points.foldlM (aggStep intervalSeconds field)
      ([] : List (Int × List ℚ))
    let sortedBuckets := buckets.insertionSort (fun a b => a.1 ≤ b.1)
    pure (sortedBuckets.map (fun b =>
      ⟨b.1, aggValue function b.2, b.2.length⟩))

end TimeSeriesEngine

/-! ## KV engine (`kv_engine.py`) -/

namespace KVEngine

/-- A WAL record of the KV engine.  The record's value field holds the
bytes that its base-64 text encodes (the encoding itself is kept
abstract). -/
inductive KVOp where
  | putOp (collection key : String) (value : List Nat)
  | deleteOp (collection key : String)
  deriving DecidableEq, Repr

/-- In-memory state: collection → key → bytes. -/
structure KVState where
  store : Dict String (Dict String (List Nat))
  wal : List KVOp
  deriving DecidableEq, Repr

/-- Fresh engine. -/
def initState : KVState := ⟨[], []⟩

/-- `wal.append(entry)` with injectable I/O failure. -/
def walAppend (failAppend : Bool) (op : KVOp) : PyM KVState Unit :=
  if failAppend then PyM.throw .ioError
  else PyM.modify (fun st => { st with wal := st.wal ++ [op] })

/-- `_validate_collection_key` (limits at their defaults 128 / 256). -/
def validateCollectionKey (coll key : String) : PyM KVState Unit := do
  PyM.raiseIf (coll.isEmpty) .valueError
  PyM.raiseIf (coll.length > 128) .valueError
  PyM.raiseIf (key.isEmpty) .valueError
  PyM.raiseIf (key.length > 256) .valueError

/-- `put(collection, key, value)`: validate, **append the WAL record
first**, then mutate the store (max value size at its default 10 MiB). -/
def put (failAppend : Bool) (coll key : String) (value : List Nat) :
    PyM KVState Unit := do
  validateCollectionKey coll key
  PyM.raiseIf (value.length > 10485760) .valueError
  let entry := KVOp.putOp coll key value
  walAppend failAppend entry
  PyM.modify (fun st =>
    { st with
      store :=
        Dict.set st.store coll
          (Dict.set (Dict.getD st.store coll []) key value) })

/-- `get(collection, key)`. -/
def get (st : KVState) (coll key : String) : Option (List Nat) :=
  Dict.get? (Dict.getD st.store coll []) key

/-- `delete(collection, key)`: validate, **append first**, then
`store.get(collection, {}).pop(key, None)` (a missing collection's fresh
`{}` is popped without effect), returning whether a value was removed. -/
def delete (failAppend : Bool) (coll key : String) : PyM KVState Bool := do
  validateCollectionKey coll key
  let entry := KVOp.deleteOp coll key
  walAppend failAppend entry
  let st ← PyM.read
  let old := Dict.get? (Dict.getD st.store coll []) key
  if Dict.hasKey st.store coll then
    PyM.modify (fun st =>
      { st with
        store :=
          Dict.set st.store coll
            (Dict.erase (Dict.getD st.store coll []) key) })
  else pure ()
  pure old.isSome

end KVEngine

/-! ## Write-ahead log (`storage/wal.py`)

The WAL file is modelled at the byte/character level (`List Char`).
`append` writes `json.dumps(op) + '\n'`; the JSON codec itself is kept
abstract: theorems take an encoder/decoder pair together with the
properties of `json.dumps`/`json.loads` they rely on (single-line output
with no surrounding whitespace, decoding inverts encoding, and — for the
truncation analysis — a truncated encoding does not decode). -/

namespace WriteAheadLog

/-- Python file iteration plus `strip()`: split the file at newlines (the
final chunk, with no trailing newline, is also yielded). -/
def splitNlAux : List Char → List Char → List (List Char)
  | [], cur => [cur.reverse]
  | c :: rest, cur =>
    if c = '\n' then cur.reverse :: splitNlAux rest []
    else splitNlAux rest (c :: cur)

/-- Split a file's characters into lines. -/
def splitNl (file : List Char) : List (List Char) := splitNlAux file []

/-- `line.strip()`. -/
def stripChars (l : List Char) : List Char :=
  ((l.dropWhile Char.isWhitespace).reverse.dropWhile Char.isWhitespace).reverse

/-- The loop body of `replay()`: skip blank lines, `json.loads` each
remaining line (a parse failure — in particular a truncated trailing
record — raises), collect in order. -/
def replayLines (dec : List Char → Option ρ) :
    List (List Char) → Except PyErr (List ρ)
  | [] => .ok []
  | l :: rest =>
    let t := stripChars l
    if t.isEmpty then replayLines dec rest
    else
      match dec t with
      | none => .error .valueError
      | some r => do
        let rs ← replayLines dec rest
        .ok (r :: rs)

/-- `replay()` over a file's contents. -/
def replay (dec : List Char → Option ρ) (file : List Char) :
    Except PyErr (List ρ) :=
  replayLines dec (splitNl file)

/-- The file produced by a sequence of `append(op)` calls:
`json.dumps(op) + '\n'` per record, concatenated. -/
def walFile (enc : ρ → List Char) (ops : List ρ) : List Char :=
  (ops.map (fun op => enc op ++ ['\n'])).flatten

/-- A concrete single-line, self-delimiting record codec used to witness
the codec hypotheses (standing in for `json.dumps`/`json.loads` of an op
dict, with which it shares the properties that matter here: one line, no
surrounding whitespace, round-trips, and no strict prefix parses). -/
def encRec (b : Bool) : List Char :=
  if b then ['#', 't', ';'] else ['#', 'f', ';']

/-- Decoder of `encRec`'s format: only the two complete encodings parse;
anything else — in particular any strict prefix of an encoding — is
rejected. -/
def decRec (l : List Char) : Option Bool :=
  if l = ['#', 't', ';'] then some true
  else if l = ['#', 'f', ';'] then some false
  else none

end WriteAheadLog

/-! ## Engine selector (`profiler/engine_selector.py`) -/

namespace EngineSelector

/-- `if x in l: l.insert(0, l.pop(l.index(x)))` — float the first
occurrence of `x` to the front. -/
def floatToFront (l : List String) (x : String) : List String :=
  if x ∈ l then x :: l.erase x else l

/-- `_apply_use_case_adjustments(recommendations, use_case, profile)`:
each branch floats its two preferred engines to the front in turn (so the
engine floated second ends up first); `graph_analysis` inserts `graph` at
the front when missing. -/
def applyUseCaseAdjustments (recommendations : List String) (useCase : String) :
    List String :=
  let adjusted := recommendations
  if useCase = "analytics" then
    floatToFront (floatToFront adjusted "column") "timeseries"
  else if useCase = "transactional" then
    floatToFront (floatToFront adjusted "document") "kv"
  else if useCase = "real-time" then
    floatToFront (floatToFront adjusted "kv") "timeseries"
  else if useCase = "graph_analysis" then
    if "graph" ∈ adjusted then floatToFront adjusted "graph"
    else "graph" :: adjusted
  else adjusted

end EngineSelector

/-! ## Data profiler (`profiler/data_profiler.py`), type analysis -/

namespace DataProfiler

/-- `isinstance(value, (int, float))`: true of `bool` too (`bool` is a
subtype of `int` in Python). -/
def isNumericInst : PyVal → Bool
  | .vint _ => true
  | .vbool _ => true
  | _ => false

/-- `isinstance(value, str)`. -/
def isStrInst : PyVal → Bool
  | .vstr _ => true
  | _ => false

/-- `isinstance(value, bool)`. -/
def isBoolInst : PyVal → Bool
  | .vbool _ => true
  | _ => false

/-- `type(value).__name__`. -/
def typeName : PyVal → String
  | .vnone => "NoneType"
  | .vbool _ => "bool"
  | .vint _ => "int"
  | .vstr _ => "str"
  | .vlist _ => "list"
  | .vdict _ => "dict"

/-- The result groups of `_analyze_data_types` settled by the claims
(`list(set(...))` is modelled as first-occurrence deduplication; the
claims speak of set contents, not order). -/
structure TypeAnalysis where
  numericFields : List String
  stringFields : List String
  booleanFields : List String
  mixedTypeFields : List String
  deriving DecidableEq, Repr

/-- All `(field, value)` pairs of the dataset in iteration order. -/
def allPairs (data : List Doc) : List (String × PyVal) :=
  data.foldl (fun acc item => acc ++ item) []

/-- First-occurrence deduplication (the contents of `set(...)`). -/
def dedupF (l : List String) : List String :=
  l.foldl SSet.insert []

/-- `_analyze_data_types(data)`: the `if isinstance(value, (int, float))`
/ `elif isinstance(value, str)` / `elif isinstance(value, bool)` chain
classifies each value into at most one bucket — the boolean arm is
checked only after the numeric arm.  `type_counts` drives the mixed-type
field list. -/
def analyzeDataTypes (data : List Doc) : TypeAnalysis :=
  let pairs := allPairs data
  let numeric := (pairs.filter (fun fv => isNumericInst fv.2)).map Prod.fst
  let strings := (pairs.filter (fun fv =>
    !isNumericInst fv.2 && isStrInst fv.2)).map Prod.fst
  let booleans := (pairs.filter (fun fv =>
    !isNumericInst fv.2 && !isStrInst fv.2 && isBoolInst fv.2)).map Prod.fst
  let typeCounts : Dict String (SSet String) :=
    pairs.foldl (fun tc fv =>
      Dict.set tc fv.1 (SSet.insert (Dict.getD tc fv.1 []) (typeName fv.2))) []
  { numericFields := dedupF numeric
    stringFields := dedupF strings
    booleanFields := dedupF booleans
    mixedTypeFields :=
      (typeCounts.filter (fun e => 1 < e.2.length)).map Prod.fst }

end DataProfiler

/-! # Claims -/

/-! ## C8 — use-case adjustment order -/

/-- The use-case adjustment floats each branch's first-listed engine to
the front and then its second, so the second-listed engine ends up ranked
first: `analytics` yields time-series, then column, contradicting the
claim's "column is ranked first and time-series second" on the very list
`["column", "timeseries"]`. -/
theorem c8_analytics_order_counterexample :
    EngineSelector.applyUseCaseAdjustments ["column", "timeseries"] "analytics" =
      ["timeseries", "column"] ∧
    (EngineSelector.applyUseCaseAdjustments ["column", "timeseries"] "analytics").head? ≠
      some "column" := by
  constructor
  · decide
  · decide

/-- C8 (amended): when the named engines are present the adjusted list
begins with the branch's *second*-listed engine, then its first —
analytics: time-series then column; transactional: kv then document;
real-time: time-series then kv; graph_analysis: graph first, inserted at
the front when missing. -/
theorem c8_use_case_adjustment_order (l : List String) :
    ("column" ∈ l → "timeseries" ∈ l →
      (EngineSelector.applyUseCaseAdjustments l "analytics").take 2 =
        ["timeseries", "column"]) ∧
    ("document" ∈ l → "kv" ∈ l →
      (EngineSelector.applyUseCaseAdjustments l "transactional").take 2 =
        ["kv", "document"]) ∧
    ("kv" ∈ l → "timeseries" ∈ l →
      (EngineSelector.applyUseCaseAdjustments l "real-time").take 2 =
        ["timeseries", "kv"]) ∧
    ("graph" ∈ l →
      (EngineSelector.applyUseCaseAdjustments l "graph_analysis").head? =
        some "graph") ∧
    ("graph" ∉ l →
      EngineSelector.applyUseCaseAdjustments l "graph_analysis" = "graph" :: l) := by
  refine ⟨?_, ?_, ?_, ?_, ?_⟩
  · intro hc ht
    have ht2 : "timeseries" ∈ ("column" :: l.erase "column") :=
      List.mem_cons_of_mem _ (List.mem_erase_of_ne (by decide) |>.mpr ht)
    simp only [EngineSelector.applyUseCaseAdjustments, EngineSelector.floatToFront,
      if_pos hc, if_pos ht2, reduceIte]
    rw [List.erase_cons_tail (by decide)]
    rfl
  · intro hd hk
    have hk2 : "kv" ∈ ("document" :: l.erase "document") :=
      List.mem_cons_of_mem _ (List.mem_erase_of_ne (by decide) |>.mpr hk)
    simp only [EngineSelector.applyUseCaseAdjustments, EngineSelector.floatToFront,
      if_pos hd, if_pos hk2, reduceIte]
    rw [List.erase_cons_tail (by decide)]
    rfl
  · intro hk ht
    have ht2 : "timeseries" ∈ ("kv" :: l.erase "kv") :=
      List.mem_cons_of_mem _ (List.mem_erase_of_ne (by decide) |>.mpr ht)
    simp only [EngineSelector.applyUseCaseAdjustments, EngineSelector.floatToFront,
      if_pos hk, if_pos ht2, reduceIte]
    rw [List.erase_cons_tail (by decide)]
    rfl
  · intro hg
    simp [EngineSelector.applyUseCaseAdjustments, EngineSelector.floatToFront,
      if_pos hg]
  · intro hg
    simp [EngineSelector.applyUseCaseAdjustments, EngineSelector.floatToFront,
      hg]

/-- Witness for `c8_use_case_adjustment_order` at a concrete list. -/
theorem c8_use_case_adjustment_order_witness :
    (EngineSelector.applyUseCaseAdjustments ["column", "timeseries"]
      "analytics").take 2 = ["timeseries", "column"] ∧
    (EngineSelector.applyUseCaseAdjustments ["column", "timeseries"]
      "graph_analysis") = "graph" :: ["column", "timeseries"] :=
  ⟨(c8_use_case_adjustment_order ["column", "timeseries"]).1 (by decide) (by decide),
   (c8_use_case_adjustment_order ["column", "timeseries"]).2.2.2.2 (by decide)⟩

/-! ## C4 — comparison predicates on type-mismatched values -/

/-- A `$gt` comparison on an absent field evaluates `None > 30`, which
raises `TypeError` — surfaced by `query` — and a `$ne` comparison on the
same absent field *matches* (`None != 30` is true): both contradict the
claim's "evaluates to a non-match and never raises an error". -/
theorem c4_type_mismatch_counterexample :
    (DocumentEngine.query "people"
        [("age", PyVal.vdict [("$gt", PyVal.vint 30)])]).run
      ⟨[("people", [(PyVal.vstr "a", [("_id", PyVal.vstr "a")])])], [], []⟩ =
      .err .typeError
        ⟨[("people", [(PyVal.vstr "a", [("_id", PyVal.vstr "a")])])], [], []⟩ ∧
    matchDoc [("_id", PyVal.vstr "a")]
        [("age", PyVal.vdict [("$ne", PyVal.vint 30)])] = .ok true := by
  constructor
  · rfl
  · rfl

/-- C4 (amended): comparisons between two numeric values (ints and bools)
or two strings follow natural ordering; `$gt`/`$gte`/`$lt`/`$lte` against
a numeric threshold raise `TypeError` whenever the field's value is not
numeric (absent fields read as `None`), and the error propagates out of
`query`; `$ne` never raises and treats a type-mismatched value as
unequal, i.e. as a **match**; plain equality conditions treat a
type-mismatched value as a non-match without error.  The column engine's
inline evaluator behaves the same way. -/
theorem c4_comparison_semantics :
    (∀ v w : PyVal, ∀ x y : Int, v.asNum? = some x → w.asNum? = some y →
      pyGt v w = some (decide (y < x)) ∧ pyGe v w = some (decide (y ≤ x)) ∧
      pyLt v w = some (decide (x < y)) ∧ pyLe v w = some (decide (x ≤ y))) ∧
    (∀ a b : String,
      pyGt (.vstr a) (.vstr b) = some (decide (b < a)) ∧
      pyLt (.vstr a) (.vstr b) = some (decide (a < b))) ∧
    (∀ v : PyVal, ∀ m : Int, v.asNum? = none →
      pyGt v (.vint m) = none ∧ pyGe v (.vint m) = none ∧
      pyLt v (.vint m) = none ∧ pyLe v (.vint m) = none) ∧
    (∀ (doc : Doc) (field : String) (m : Int),
      (Dict.getD doc field .vnone).asNum? = none →
      matchDoc doc [(field, .vdict [("$gt", .vint m)])] = .error .typeError) ∧
    (∀ (doc : Doc) (field : String) (thr : PyVal),
      matchDoc doc [(field, .vdict [("$ne", thr)])] =
        .ok (!pyEq (Dict.getD doc field .vnone) thr)) ∧
    (∀ (doc : Doc) (field : String) (c : PyVal), c.isDictVal = false →
      matchDoc doc [(field, c)] = .ok (pyEq (Dict.getD doc field .vnone) c)) ∧
    (∀ (value : PyVal) (m : Int), value.asNum? = none →
      ColumnEngine.evalOps value [("$gt", .vint m)] = .error .typeError) ∧
    (∀ (value thr : PyVal),
      ColumnEngine.evalOps value [("$ne", thr)] = .ok (!pyEq value thr)) ∧
    (∀ (coll : String) (id : PyVal) (doc : Doc) (field : String) (m : Int)
        (idx : Idx3) (wal : List DocumentEngine.DocOp),
      (Dict.getD doc field .vnone).asNum? = none →
      (DocumentEngine.query coll [(field, .vdict [("$gt", .vint m)])]).run
        ⟨[(coll, [(id, doc)])], idx, wal⟩ =
        .err .typeError ⟨[(coll, [(id, doc)])], idx, wal⟩) := by
  have hnum : ∀ v w : PyVal, ∀ x y : Int, v.asNum? = some x → w.asNum? = some y →
      pyLt v w = some (decide (x < y)) ∧ pyLe v w = some (decide (x ≤ y)) := by
    intro v w x y hv hw
    cases v <;> cases w <;>
      simp_all [PyVal.asNum?, pyLt, pyLe]
  have hnone : ∀ v : PyVal, ∀ m : Int, v.asNum? = none →
      pyLt v (.vint m) = none ∧ pyLe v (.vint m) = none ∧
      pyLt (.vint m) v = none ∧ pyLe (.vint m) v = none := by
    intro v m hv
    cases v <;> simp_all [PyVal.asNum?, pyLt, pyLe]
  refine ⟨?_, ?_, ?_, ?_, ?_, ?_, ?_, ?_, ?_⟩
  · intro v w x y hv hw
    exact ⟨(hnum w v y x hw hv).1, (hnum w v y x hw hv).2,
      (hnum v w x y hv hw).1, (hnum v w x y hv hw).2⟩
  · intro a b
    constructor <;> simp [pyGt, pyLt]
  · intro v m hv
    exact ⟨(hnone v m hv).2.2.1, (hnone v m hv).2.2.2,
      (hnone v m hv).1, (hnone v m hv).2.1⟩
  · intro doc field m hv
    have h := (hnone _ m hv).2.2.1
    simp [matchDoc, matchField, matchOps, pyGt, h, evalCmp]
  · intro doc field thr
    simp only [matchDoc, matchField, matchOps]
    by_cases h : pyEq (Dict.getD doc field .vnone) thr <;>
      simp [h, matchDoc]
  · intro doc field c hc
    have hmf : matchField doc (field, c) = .ok (pyEq (Dict.getD doc field .vnone) c) := by
      cases c <;> simp_all [matchField, PyVal.isDictVal]
    simp only [matchDoc, hmf, exceptBind_ok]
    by_cases h : pyEq (Dict.getD doc field .vnone) c <;> simp [h, matchDoc]
  · intro value m hv
    have h := (hnone value m hv).2.2.1
    simp [ColumnEngine.evalOps, pyGt, h, evalCmp]
  · intro value thr
    by_cases h : pyEq value thr <;> simp [ColumnEngine.evalOps, h]
  · intro coll id doc field m idx wal hv
    have h := (hnone _ m hv).2.2.1
    simp only [Dict.getD] at h
    simp [DocumentEngine.query, PyVal.isDictVal, Dict.getD, Dict.get?,
      filterExc, matchDoc, matchField, matchOps, pyGt, h, evalCmp, liftExc]

/-- Witness for `c4_comparison_semantics` at concrete inputs. -/
theorem c4_comparison_semantics_witness :
    pyGt (PyVal.vint 5) (PyVal.vint 3) = some true ∧
    matchDoc [("_id", PyVal.vstr "a")]
      [("age", PyVal.vdict [("$gt", PyVal.vint 30)])] = .error .typeError := by
  constructor
  · have h := c4_comparison_semantics.1 (PyVal.vint 5) (PyVal.vint 3) 5 3 rfl rfl
    simpa using h.1
  · exact c4_comparison_semantics.2.2.2.1 [("_id", PyVal.vstr "a")] "age" 30 rfl

/-! ## C5 — WAL replay and truncated trailing records -/

namespace WriteAheadLog

theorem splitNlAux_append (xs ys cur : List Char) (h : '\n' ∉ xs) :
    splitNlAux (xs ++ '\n' :: ys) cur =
      (cur.reverse ++ xs) :: splitNlAux ys [] := by
  induction xs generalizing cur with
  | nil => simp [splitNlAux]
  | cons c rest ih =>
    have hc : c ≠ '\n' := fun hcn => h (hcn ▸ List.mem_cons_self c rest)
    have hrest : '\n' ∉ rest := fun hr => h (List.mem_cons_of_mem c hr)
    simp [splitNlAux, hc, ih (c :: cur) hrest]

theorem splitNl_record (xs ys : List Char) (h : '\n' ∉ xs) :
    splitNl (xs ++ '\n' :: ys) = xs :: splitNl ys := by
  simpa [splitNl] using splitNlAux_append xs ys [] h

theorem splitNlAux_no_newline (xs cur : List Char) (h : '\n' ∉ xs) :
    splitNlAux xs cur = [cur.reverse ++ xs] := by
  induction xs generalizing cur with
  | nil => simp [splitNlAux]
  | cons c rest ih =>
    have hc : c ≠ '\n' := fun hcn => h (hcn ▸ List.mem_cons_self c rest)
    have hrest : '\n' ∉ rest := fun hr => h (List.mem_cons_of_mem c hr)
    simp [splitNlAux, hc, ih (c :: cur) hrest]

theorem splitNl_no_newline (xs : List Char) (h : '\n' ∉ xs) :
    splitNl xs = [xs] := by
  simpa [splitNl] using splitNlAux_no_newline xs [] h

theorem splitNl_walFile (enc : ρ → List Char) (ops : List ρ)
    (suffix : List Char) (hnl : ∀ op, '\n' ∉ enc op) :
    splitNl (walFile enc ops ++ suffix) =
      (ops.map enc) ++ splitNl suffix := by
  induction ops with
  | nil => simp [walFile]
  | cons op rest ih =>
    have : walFile enc (op :: rest) ++ suffix =
        enc op ++ '\n' :: (walFile enc rest ++ suffix) := by
      simp [walFile]
    rw [this, splitNl_record _ _ (hnl op), ih]
    rfl

theorem replayLines_records (dec : List Char → Option ρ)
    (enc : ρ → List Char) (ops : List ρ) (tail : List (List Char))
    (hdec : ∀ op, dec (enc op) = some op)
    (hstrip : ∀ op, stripChars (enc op) = enc op)
    (hne : ∀ op, enc op ≠ []) :
    replayLines dec ((ops.map enc) ++ tail) =
      match replayLines dec tail with
      | .ok rs => .ok (ops ++ rs)
      | .error e => .error e := by
  induction ops with
  | nil =>
    cases h : replayLines dec tail <;> simp [h]
  | cons op rest ih =>
    cases h : replayLines dec tail with
    | ok rs =>
      have ih2 : replayLines dec (List.map enc rest ++ tail) = .ok (rest ++ rs) := by
        rw [ih, h]
      simp [replayLines, hstrip op, hdec op, ih2, List.isEmpty_iff, hne op]
    | error e =>
      have ih2 : replayLines dec (List.map enc rest ++ tail) = .error e := by
        rw [ih, h]
      simp [replayLines, hstrip op, hdec op, ih2, List.isEmpty_iff, hne op]

end WriteAheadLog

/-- `replay()` does **not** tolerate a truncated trailing record: the tail
`"#f"` is a strict prefix of the record encoding `"#f;"`, and replaying a
file holding one complete record followed by that partial record raises a
parse error instead of returning the complete records. -/
theorem c5_truncated_record_raises :
    WriteAheadLog.encRec false = ['#', 'f'] ++ [';'] ∧
    WriteAheadLog.replay WriteAheadLog.decRec
      (WriteAheadLog.walFile WriteAheadLog.encRec [true] ++ ['#', 'f']) =
      .error .valueError := by
  constructor
  · decide
  · rfl

/-- C5 (amended): for any record codec with `json.dumps`/`json.loads`'s
framing properties (single-line, no surrounding whitespace, non-empty,
decoding inverts encoding), `replay()` over a file of appended records
returns exactly the complete records in append order, skipping blank
records; but a truncated (non-decodable, non-blank) trailing record makes
`replay()` raise a parse error rather than being silently discarded. -/
theorem c5_replay_records {ρ : Type} (enc : ρ → List Char)
    (dec : List Char → Option ρ)
    (hdec : ∀ op, dec (enc op) = some op)
    (hnl : ∀ op, '\n' ∉ enc op)
    (hstrip : ∀ op, WriteAheadLog.stripChars (enc op) = enc op)
    (hne : ∀ op, enc op ≠ []) :
    (∀ ops : List ρ,
      WriteAheadLog.replay dec (WriteAheadLog.walFile enc ops) = .ok ops) ∧
    (∀ (ops : List ρ) (suffix : List Char), '\n' ∉ suffix →
      WriteAheadLog.stripChars suffix ≠ [] →
      dec (WriteAheadLog.stripChars suffix) = none →
      WriteAheadLog.replay dec (WriteAheadLog.walFile enc ops ++ suffix) =
        .error .valueError) := by
  constructor
  · intro ops
    have h0 : WriteAheadLog.walFile enc ops =
        WriteAheadLog.walFile enc ops ++ [] := (List.append_nil _).symm
    rw [WriteAheadLog.replay, h0,
      WriteAheadLog.splitNl_walFile enc ops [] hnl,
      WriteAheadLog.replayLines_records dec enc ops _ hdec hstrip hne]
    simp [WriteAheadLog.splitNl, WriteAheadLog.splitNlAux,
      WriteAheadLog.replayLines, WriteAheadLog.stripChars]
  · intro ops suffix hsnl hsne hsdec
    rw [WriteAheadLog.replay,
      WriteAheadLog.splitNl_walFile enc ops suffix hnl,
      WriteAheadLog.replayLines_records dec enc ops _ hdec hstrip hne,
      WriteAheadLog.splitNl_no_newline suffix hsnl]
    simp [WriteAheadLog.replayLines, List.isEmpty_iff, hsne, hsdec]

/-- Witness for `c5_replay_records` with the concrete codec and records. -/
theorem c5_replay_records_witness :
    WriteAheadLog.replay WriteAheadLog.decRec
      (WriteAheadLog.walFile WriteAheadLog.encRec [true, false]) =
      .ok [true, false] :=
  (c5_replay_records WriteAheadLog.encRec WriteAheadLog.decRec
    (by decide) (by decide) (by decide) (by decide)).1 [true, false]

/-! ## C1 — WAL append order versus in-memory mutation -/

theorem KVEngine.run_kvValidate (coll key : String) (st : KVEngine.KVState) :
    (KVEngine.validateCollectionKey coll key).run st = .ok () st ∨
    (KVEngine.validateCollectionKey coll key).run st = .err .valueError st := by
  by_cases h1 : coll.isEmpty <;> by_cases h2 : coll.length > 128 <;>
    by_cases h3 : key.isEmpty <;> by_cases h4 : key.length > 256 <;>
      simp [KVEngine.validateCollectionKey, h1, h2, h3, h4]

theorem DocumentEngine.run_docApplyAndLog (failAppend : Bool)
    (op : DocumentEngine.DocOp) (st : DocumentEngine.DocState) :
    (DocumentEngine.applyAndLog failAppend op).run st =
      match (DocumentEngine.apply op).run st with
      | .ok _ st2 =>
        if failAppend then .err .ioError st2
        else .ok () { st2 with wal := st2.wal ++ [op] }
      | .err e st2 => .err e st2 := by
  cases h : (DocumentEngine.apply op).run st <;> cases failAppend <;>
    simp [DocumentEngine.applyAndLog, DocumentEngine.walAppend, h]

theorem ColumnEngine.run_colApplyAndLog (failAppend : Bool)
    (op : ColumnEngine.ColOp) (st : ColumnEngine.ColState) :
    (ColumnEngine.applyAndLog failAppend op).run st =
      match (ColumnEngine.apply op).run st with
      | .ok _ st2 =>
        if failAppend then .err .ioError st2
        else .ok () { st2 with wal := st2.wal ++ [op] }
      | .err e st2 => .err e st2 := by
  cases h : (ColumnEngine.apply op).run st <;> cases failAppend <;>
    simp [ColumnEngine.applyAndLog, ColumnEngine.walAppend, h]

theorem GraphEngine.run_graphApplyAndLog (failAppend : Bool)
    (op : GraphEngine.GraphOp) (st : GraphEngine.GraphState) :
    (GraphEngine.applyAndLog failAppend op).run st =
      match (GraphEngine.apply op).run st with
      | .ok _ st2 =>
        if failAppend then .err .ioError st2
        else .ok () { st2 with wal := st2.wal ++ [op] }
      | .err e st2 => .err e st2 := by
  cases h : (GraphEngine.apply op).run st <;> cases failAppend <;>
    simp [GraphEngine.applyAndLog, GraphEngine.walAppend, h]

theorem TimeSeriesEngine.run_tsApplyAndLog (failAppend : Bool)
    (op : TimeSeriesEngine.TsOp) (st : TimeSeriesEngine.TsState) :
    (TimeSeriesEngine.applyAndLog failAppend op).run st =
      match (TimeSeriesEngine.apply op).run st with
      | .ok _ st2 =>
        if failAppend then .err .ioError st2
        else .ok () { st2 with wal := st2.wal ++ [op] }
      | .err e st2 => .err e st2 := by
  cases h : (TimeSeriesEngine.apply op).run st <;> cases failAppend <;>
    simp [TimeSeriesEngine.applyAndLog, TimeSeriesEngine.walAppend, h]

/-- The document engine's `_insert` applies the in-memory mutation and
then appends: with a failing append, `put` on a fresh engine raises
`IOError` but leaves the document stored and indexed — the in-memory
state is **not** what it was before the call, refuting the claim's
rollback guarantee. -/
theorem c1_append_failure_counterexample :
    (DocumentEngine.put true "c" (PyVal.vstr "a") []).run
        DocumentEngine.initState =
      .err .ioError
        ⟨[("c", [(PyVal.vstr "a", [("_id", PyVal.vstr "a")])])],
         [("c", [("_id", [(PyVal.vstr "a", [PyVal.vstr "a"])])])], []⟩ ∧
    DocumentEngine.storedDoc
        ⟨[("c", [(PyVal.vstr "a", [("_id", PyVal.vstr "a")])])],
         [("c", [("_id", [(PyVal.vstr "a", [PyVal.vstr "a"])])])], []⟩
        "c" (PyVal.vstr "a") = some [("_id", PyVal.vstr "a")] ∧
    DocumentEngine.storedDoc DocumentEngine.initState "c" (PyVal.vstr "a") =
      none := by
  refine ⟨?_, rfl, rfl⟩
  rfl

/-- C1 (amended): only the KV engine appends the WAL record before the
in-memory mutation — a failing append surfaces `IOError` with the state
exactly unchanged.  The document, column, graph and time-series engines
run `self._apply(op)` first and `self.wal.append(op)` second (the
`applyAndLog` composition used by all their logging operations): a
failing append surfaces `IOError` with the mutation already applied and
the WAL missing exactly the one record a successful run would have
appended.  Document `delete` likewise applies before its conditional
append. -/
theorem c1_wal_order_by_engine :
    (∀ (coll key : String) (value : List Nat) (st st1 : KVEngine.KVState),
      (KVEngine.put false coll key value).run st = .ok () st1 →
      (KVEngine.put true coll key value).run st = .err .ioError st) ∧
    (∀ (coll key : String) (st st1 : KVEngine.KVState) (b : Bool),
      (KVEngine.delete false coll key).run st = .ok b st1 →
      (KVEngine.delete true coll key).run st = .err .ioError st) ∧
    (∀ (op : DocumentEngine.DocOp) (st st2 : DocumentEngine.DocState),
      (DocumentEngine.apply op).run st = .ok () st2 →
      (DocumentEngine.applyAndLog true op).run st = .err .ioError st2 ∧
      (DocumentEngine.applyAndLog false op).run st =
        .ok () { st2 with wal := st2.wal ++ [op] }) ∧
    (∀ (op : ColumnEngine.ColOp) (st st2 : ColumnEngine.ColState),
      (ColumnEngine.apply op).run st = .ok () st2 →
      (ColumnEngine.applyAndLog true op).run st = .err .ioError st2 ∧
      (ColumnEngine.applyAndLog false op).run st =
        .ok () { st2 with wal := st2.wal ++ [op] }) ∧
    (∀ (op : GraphEngine.GraphOp) (st st2 : GraphEngine.GraphState),
      (GraphEngine.apply op).run st = .ok () st2 →
      (GraphEngine.applyAndLog true op).run st = .err .ioError st2 ∧
      (GraphEngine.applyAndLog false op).run st =
        .ok () { st2 with wal := st2.wal ++ [op] }) ∧
    (∀ (op : TimeSeriesEngine.TsOp) (st st2 : TimeSeriesEngine.TsState),
      (TimeSeriesEngine.apply op).run st = .ok () st2 →
      (TimeSeriesEngine.applyAndLog true op).run st = .err .ioError st2 ∧
      (TimeSeriesEngine.applyAndLog false op).run st =
        .ok () { st2 with wal := st2.wal ++ [op] }) ∧
    (∀ (coll : String) (k : PyVal) (st st1 : DocumentEngine.DocState),
      (DocumentEngine.delete false coll k).run st = .ok true st1 →
      ∃ st2, (DocumentEngine.delete true coll k).run st = .err .ioError st2 ∧
        st1 = { st2 with
                wal := st2.wal ++ [DocumentEngine.DocOp.deleteOp coll k] }) := by
  refine ⟨?_, ?_, ?_, ?_, ?_, ?_, ?_⟩
  · intro coll key value st st1 h
    rcases KVEngine.run_kvValidate coll key st with hv | hv <;>
      by_cases hsz : value.length > 10485760 <;>
        simp [KVEngine.put, hv, hsz, KVEngine.walAppend] at h ⊢
  · intro coll key st st1 b h
    rcases KVEngine.run_kvValidate coll key st with hv | hv <;>
      simp [KVEngine.delete, hv, KVEngine.walAppend] at h ⊢
  · intro op st st2 h
    constructor <;> simp [DocumentEngine.run_docApplyAndLog, h]
  · intro op st st2 h
    constructor <;> simp [ColumnEngine.run_colApplyAndLog, h]
  · intro op st st2 h
    constructor <;> simp [GraphEngine.run_graphApplyAndLog, h]
  · intro op st st2 h
    constructor <;> simp [TimeSeriesEngine.run_tsApplyAndLog, h]
  · intro coll k st st1 h
    cases happ : (DocumentEngine.apply (.deleteOp coll k)).run st with
    | err e stE =>
      simp [DocumentEngine.delete, happ] at h
    | ok u stA =>
      cases u
      by_cases hc : (Dict.getD stA.store coll []).length <
          (Dict.getD st.store coll []).length
      · refine ⟨stA, ?_, ?_⟩
        · simp [DocumentEngine.delete, happ, hc, DocumentEngine.walAppend]
        · simp [DocumentEngine.delete, happ, hc, DocumentEngine.walAppend] at h
          exact h.symm
      · simp [DocumentEngine.delete, happ, hc] at h

/-- Witness for `c1_wal_order_by_engine` at concrete inputs. -/
theorem c1_wal_order_by_engine_witness :
    (KVEngine.put true "c" "k" [1]).run KVEngine.initState =
      .err .ioError KVEngine.initState ∧
    (DocumentEngine.applyAndLog true
        (DocumentEngine.DocOp.insertOp "c" [("_id", PyVal.vstr "a")])).run
      DocumentEngine.initState =
      .err .ioError
        ⟨[("c", [(PyVal.vstr "a", [("_id", PyVal.vstr "a")])])],
         [("c", [("_id", [(PyVal.vstr "a", [PyVal.vstr "a"])])])], []⟩ := by
  constructor
  · exact c1_wal_order_by_engine.1 "c" "k" [1] KVEngine.initState
      ⟨[("c", [("k", [1])])], [.putOp "c" "k" [1]]⟩ (by rfl)
  · exact (c1_wal_order_by_engine.2.2.1
      (DocumentEngine.DocOp.insertOp "c" [("_id", PyVal.vstr "a")])
      DocumentEngine.initState
      ⟨[("c", [(PyVal.vstr "a", [("_id", PyVal.vstr "a")])])],
       [("c", [("_id", [(PyVal.vstr "a", [PyVal.vstr "a"])])])], []⟩ (by rfl)).1

/-! ## Loop lemmas

The engines' `for`-loops are `PyM.forEach` applications whose bodies are
pure state updates guarded by element-dependent `raiseIf`s.  These lemmas
convert a successful loop run into a pure `foldl` and extract invariant
preservation. -/

theorem PyM.run_forEach_of_ok {σ α : Type} (body : α → PyM σ Unit)
    (ok? : α → Bool) (g : α → σ → σ)
    (hbody : ∀ x st, ok? x = true → (body x).run st = .ok () (g x st)) :
    ∀ (xs : List α) (st : σ), (∀ x ∈ xs, ok? x = true) →
      (PyM.forEach xs body).run st = .ok () (xs.foldl (fun s x => g x s) st) := by
  intro xs
  induction xs with
  | nil => intro st _; rfl
  | cons x rest ih =>
    intro st hall
    have hx := hall x (List.mem_cons_self x rest)
    have hrest : ∀ y ∈ rest, ok? y = true := fun y hy =>
      hall y (List.mem_cons_of_mem x hy)
    simp only [PyM.forEach_cons, PyM.run_bind, hbody x st hx]
    simpa using ih (g x st) hrest

theorem PyM.run_forEach_inv {σ α : Type} (body : α → PyM σ Unit)
    (ok? : α → Bool) (g : α → σ → σ) (bad : α → σ → PyResult σ Unit)
    (hbody : ∀ x st, (body x).run st =
      if ok? x then .ok () (g x st) else bad x st)
    (hbad : ∀ x st, ∃ e s3, bad x st = .err e s3) :
    ∀ (xs : List α) (st st2 : σ),
      (PyM.forEach xs body).run st = .ok () st2 →
      (∀ x ∈ xs, ok? x = true) ∧
      st2 = xs.foldl (fun s x => g x s) st := by
  intro xs
  induction xs with
  | nil =>
    intro st st2 h
    refine ⟨by simp, ?_⟩
    simpa [PyM.forEach, PyM.run] using (by
      cases h
      rfl : st2 = st)
  | cons x rest ih =>
    intro st st2 h
    simp only [PyM.forEach_cons, PyM.run_bind, hbody x st] at h
    by_cases hx : ok? x
    · simp only [hx, if_pos] at h
      obtain ⟨hall, hst⟩ := ih (g x st) st2 (by simpa using h)
      exact ⟨fun y hy => by
        rcases List.mem_cons.mp hy with rfl | hy2
        · exact hx
        · exact hall y hy2, by simpa using hst⟩
    · simp only [hx, Bool.false_eq_true, if_false] at h
      obtain ⟨e, s3, hb⟩ := hbad x st
      rw [hb] at h
      simp at h

theorem PyM.run_forEach_preserves {σ α : Type} (body : α → PyM σ Unit)
    (P : σ → Prop)
    (hbody : ∀ x st st2, (body x).run st = .ok () st2 → P st → P st2) :
    ∀ (xs : List α) (st st2 : σ),
      (PyM.forEach xs body).run st = .ok () st2 → P st → P st2 := by
  intro xs
  induction xs with
  | nil =>
    intro st st2 h hP
    cases h
    exact hP
  | cons x rest ih =>
    intro st st2 h hP
    simp only [PyM.forEach_cons, PyM.run_bind] at h
    cases hx : (body x).run st with
    | ok u s3 =>
      cases u
      rw [hx] at h
      exact ih s3 st2 (by simpa using h) (hbody x st s3 hx hP)
    | err e s3 => simp [hx] at h

/-! ## C10 — column `put` merges rather than replaces -/

/-- The pure effect of one iteration of the INSERT write loop
(`store[table].setdefault(col, {})[row_id] = val` followed by
`_add_to_index`). -/
def ColumnEngine.insStep (table : String) (rowId : PyVal) (cv : String × PyVal)
    (s : ColumnEngine.ColState) : ColumnEngine.ColState :=
  let s1 := { s with
    store := Dict.set s.store table
      (Dict.set (Dict.getD s.store table [])
        cv.1 (Dict.set (Dict.getD (Dict.getD s.store table []) cv.1 []) rowId cv.2)) }
  { s1 with indexes := idxAdd1 s1.indexes table cv.1 cv.2 rowId }

theorem ColumnEngine.insFold_store (table : String) (rowId : PyVal) :
    ∀ (rowData : Doc) (s0 : ColumnEngine.ColState),
      (rowData.map Prod.fst).Nodup → ∀ (col : String) (rid : PyVal),
      Dict.get? (Dict.getD (Dict.getD
          (rowData.foldl (fun s cv => ColumnEngine.insStep table rowId cv s) s0).store
          table []) col []) rid =
        if rid = rowId then
          match Dict.get? rowData col with
          | some v => some v
          | none => Dict.get? (Dict.getD (Dict.getD s0.store table []) col []) rid
        else Dict.get? (Dict.getD (Dict.getD s0.store table []) col []) rid := by
  intro rowData
  induction rowData with
  | nil =>
    intro s0 _ col rid
    by_cases hr : rid = rowId <;> simp [hr]
  | cons cv0 rest ih =>
    intro s0 hnodup col rid
    obtain ⟨c0, v0⟩ := cv0
    simp only [List.map_cons, List.nodup_cons] at hnodup
    have hstep : ∀ col2 rid2,
        Dict.get? (Dict.getD (Dict.getD
          (ColumnEngine.insStep table rowId (c0, v0) s0).store table []) col2 []) rid2 =
        if col2 = c0 ∧ rid2 = rowId then some v0
        else Dict.get? (Dict.getD (Dict.getD s0.store table []) col2 []) rid2 := by
      intro col2 rid2
      by_cases hc : col2 = c0
      · subst hc
        by_cases hr : rid2 = rowId
        · subst hr
          simp [ColumnEngine.insStep, Dict.getD]
        · simp [ColumnEngine.insStep, Dict.getD, hr,
            Dict.get?_set_ne _ _ _ _ hr]
      · simp [ColumnEngine.insStep, Dict.getD, hc,
          Dict.get?_set_ne _ _ _ _ hc]
    rw [List.foldl_cons, ih _ hnodup.2 col rid]
    by_cases hr : rid = rowId
    · subst hr
      simp only [if_pos rfl]
      by_cases hc : col = c0
      · subst hc
        have hrest : Dict.get? rest col = none :=
          Dict.get?_eq_none_of_not_mem rest col hnodup.1
        simp [hrest, hstep, Dict.get?]
      · simp [hstep, hc, Dict.get?, Ne.symm hc]
    · simp [if_neg hr, hstep, hr]

theorem ColumnEngine.insFold_idx_ub (table : String) (rowId : PyVal) :
    ∀ (rowData : Doc) (s0 : ColumnEngine.ColState) (f : String) (v rid : PyVal),
      rid ∈ getIdx
        (rowData.foldl (fun s cv => ColumnEngine.insStep table rowId cv s) s0).indexes
        table f v →
      rid ∈ getIdx s0.indexes table f v ∨ rid = rowId := by
  intro rowData
  induction rowData with
  | nil => intro s0 f v rid h; exact Or.inl h
  | cons cv0 rest ih =>
    intro s0 f v rid h
    rw [List.foldl_cons] at h
    rcases ih _ f v rid h with hm | hr
    · rcases (mem_getIdx_idxAdd1 _ _ _ _ _ _ _ _ _).mp hm with hm2 | hit
      · exact Or.inl hm2
      · exact Or.inr hit.2.2.2
    · exact Or.inr hr

theorem ColumnEngine.insFold_idx_mono (table : String) (rowId : PyVal) :
    ∀ (rowData : Doc) (s0 : ColumnEngine.ColState) (sc f : String) (v rid : PyVal),
      rid ∈ getIdx s0.indexes sc f v →
      rid ∈ getIdx
        (rowData.foldl (fun s cv => ColumnEngine.insStep table rowId cv s) s0).indexes
        sc f v := by
  intro rowData
  induction rowData with
  | nil => intro s0 sc f v rid h; exact h
  | cons cv0 rest ih =>
    intro s0 sc f v rid h
    rw [List.foldl_cons]
    exact ih _ sc f v rid ((mem_getIdx_idxAdd1 _ _ _ _ _ _ _ _ _).mpr (Or.inl h))

theorem ColumnEngine.insFold_idx_lb (table : String) (rowId : PyVal) :
    ∀ (rowData : Doc) (s0 : ColumnEngine.ColState) (col : String) (v : PyVal),
      (col, v) ∈ rowData →
      rowId ∈ getIdx
        (rowData.foldl (fun s cv => ColumnEngine.insStep table rowId cv s) s0).indexes
        table col v := by
  intro rowData
  induction rowData with
  | nil => intro s0 col v h; exact absurd h (List.not_mem_nil _)
  | cons cv0 rest ih =>
    intro s0 col v h
    rw [List.foldl_cons]
    rcases List.mem_cons.mp h with he | hm
    · subst he
      exact ColumnEngine.insFold_idx_mono table rowId rest _ table col v rowId
        ((mem_getIdx_idxAdd1 _ _ _ _ _ _ _ _ _).mpr (Or.inr ⟨rfl, rfl, rfl, rfl⟩))
    · exact ih _ col v hm

theorem getIdx_setdefault (idx : Idx3) (t sc f : String) (v : PyVal) :
    getIdx (Dict.setdefault idx t []) sc f v = getIdx idx sc f v := by
  unfold getIdx
  rw [Dict.getD_setdefault_nil]

/-- A successful `_apply` of an INSERT record decomposes into: the
`setdefault`s, an index-only stale-entry removal pass (which never grows
any index slot), and the pure column-write loop `insStep` over the row
map's entries (all of whose values must have been hashable). -/
theorem ColumnEngine.run_apply_insert (table : String) (rowId : PyVal)
    (rowData : Doc) (st st2 : ColumnEngine.ColState)
    (h : (ColumnEngine.apply (.insertOp table rowId rowData)).run st = .ok () st2) :
    rowId.hashable = true ∧
    ∃ stR : ColumnEngine.ColState,
      stR.store = Dict.setdefault st.store table [] ∧
      (∀ (f : String) (v rid : PyVal),
        rid ∈ getIdx stR.indexes table f v → rid ∈ getIdx st.indexes table f v) ∧
      st2 = rowData.foldl (fun s cv => ColumnEngine.insStep table rowId cv s) stR ∧
      (∀ cv ∈ rowData, cv.2.hashable = true) := by
  by_cases hh : rowId.hashable
  · simp only [ColumnEngine.apply, PyM.run_bind, PyM.run_modify,
      PyM.run_raiseIf, PyM.run_read, hh, Bool.not_true, Bool.false_eq_true,
      if_false] at h
    set st1 : ColumnEngine.ColState :=
      { st with
        store := Dict.setdefault st.store table [],
        indexes := Dict.setdefault st.indexes table [] } with hst1
    have hP : st1.store = Dict.setdefault st.store table [] ∧
        (∀ (f : String) (v rid : PyVal),
          rid ∈ getIdx st1.indexes table f v →
          rid ∈ getIdx st.indexes table f v) := by
      refine ⟨rfl, ?_⟩
      intro f v rid hm
      rw [hst1] at hm
      simpa [getIdx_setdefault] using hm
    have hbody : ∀ (x : String × Dict PyVal PyVal)
        (stA stB : ColumnEngine.ColState),
        ((fun colEntry => do
          let st ← PyM.read
          if Dict.hasKey (Dict.getD st.indexes table []) colEntry.1 then do
            let old := Dict.getD colEntry.2 rowId .vnone
            PyM.raiseIf (!old.hashable) .typeError
            PyM.modify (fun st =>
              { st with indexes := idxRemove1 st.indexes table colEntry.1 old rowId })
          else pure () : String × Dict PyVal PyVal → PyM ColumnEngine.ColState Unit)
            x).run stA = .ok () stB →
        (stA.store = Dict.setdefault st.store table [] ∧
          (∀ (f : String) (v rid : PyVal),
            rid ∈ getIdx stA.indexes table f v →
            rid ∈ getIdx st.indexes table f v)) →
        (stB.store = Dict.setdefault st.store table [] ∧
          (∀ (f : String) (v rid : PyVal),
            rid ∈ getIdx stB.indexes table f v →
            rid ∈ getIdx st.indexes table f v)) := by
      intro x stA stB hx hPA
      by_cases hcc : Dict.hasKey (Dict.getD stA.indexes table []) x.1
      · by_cases hhash : (Dict.getD x.2 rowId .vnone).hashable
        · simp only [PyM.run_bind, PyM.run_read, PyM.run_raiseIf,
            PyM.run_modify, hcc, if_true, hhash, Bool.not_true,
            Bool.false_eq_true, if_false] at hx
          cases hx
          refine ⟨hPA.1, ?_⟩
          intro f v rid hm
          exact hPA.2 f v rid ((mem_getIdx_idxRemove1 _ _ _ _ _ _ _ _ _).mp hm).1
        · simp [PyM.run_bind, PyM.run_read, PyM.run_raiseIf, hcc, hhash] at hx
      · simp only [PyM.run_bind, PyM.run_read, hcc, Bool.false_eq_true,
          if_false, PyM.run_pure] at hx
        cases hx
        exact hPA
    have hins : ∀ (sR : ColumnEngine.ColState),
        (PyM.forEach rowData (fun cv => do
          PyM.modify (fun st => { st with
            store := Dict.set st.store table
              (Dict.set (Dict.getD st.store table [])
                cv.1 (Dict.set (Dict.getD (Dict.getD st.store table []) cv.1 []) rowId cv.2)) })
          PyM.raiseIf (!cv.2.hashable) .typeError
          PyM.modify (fun st =>
            { st with indexes := idxAdd1 st.indexes table cv.1 cv.2 rowId }))).run sR =
          .ok () st2 →
        st2 = rowData.foldl (fun s cv => ColumnEngine.insStep table rowId cv s) sR ∧
        (∀ cv ∈ rowData, cv.2.hashable = true) := by
      intro sR hrun
      have := PyM.run_forEach_inv
        (fun cv => do
          PyM.modify (fun st => { st with
            store := Dict.set st.store table
              (Dict.set (Dict.getD st.store table [])
                cv.1 (Dict.set (Dict.getD (Dict.getD st.store table []) cv.1 []) rowId cv.2)) })
          PyM.raiseIf (!cv.2.hashable) .typeError
          PyM.modify (fun st =>
            { st with indexes := idxAdd1 st.indexes table cv.1 cv.2 rowId }))
        (fun cv => cv.2.hashable)
        (fun cv s => ColumnEngine.insStep table rowId cv s)
        (fun cv s => .err .typeError ({ s with
          store := Dict.set s.store table
            (Dict.set (Dict.getD s.store table [])
              cv.1 (Dict.set (Dict.getD (Dict.getD s.store table []) cv.1 []) rowId cv.2)) }))
        (by
          intro cv s
          by_cases hcv : cv.2.hashable <;>
            simp [PyM.run_bind, PyM.run_modify, PyM.run_raiseIf, hcv,
              ColumnEngine.insStep])
        (by
          intro cv s
          exact ⟨.typeError, _, rfl⟩)
        rowData sR st2 hrun
      exact ⟨this.2, this.1⟩
    by_cases hc : Dict.hasKey (Dict.getD (Dict.getD st1.store table []) "_id" []) rowId
    · rw [hst1] at h
      simp only [← hst1, hc, if_true, PyM.run_bind] at h
      split at h
      · next u sR hrem =>
        cases u
        have hPR := PyM.run_forEach_preserves _ _ hbody _ st1 sR hrem hP
        obtain ⟨h2, h3⟩ := hins sR h
        exact ⟨hh, sR, hPR.1, hPR.2, h2, h3⟩
      · next e sR hrem =>
        simp at h
    · rw [hst1] at h
      simp only [← hst1, hc, Bool.false_eq_true, if_false, PyM.run_bind,
        PyM.run_pure] at h
      obtain ⟨h2, h3⟩ := hins st1 h
      exact ⟨hh, st1, hP.1, hP.2, h2, h3⟩
  · simp [ColumnEngine.apply, PyM.run_bind, PyM.run_modify,
      PyM.run_raiseIf, hh] at h

theorem Dict.get?_mem {κ ν : Type} [DecidableEq κ] (d : Dict κ ν) (k : κ)
    (v : ν) (h : Dict.get? d k = some v) : (k, v) ∈ d := by
  induction d with
  | nil => simp [Dict.get?] at h
  | cons hd tl ih =>
    obtain ⟨k2, v2⟩ := hd
    by_cases h2 : k2 = k
    · subst h2
      rw [Dict.get?_cons, if_pos rfl] at h
      injection h with h
      subst h
      exact List.mem_cons_self _ _
    · rw [Dict.get?_cons, if_neg h2] at h
      exact List.mem_cons_of_mem _ (ih h)

theorem PyVal.not_isDictVal_of_hashable (v : PyVal) (h : v.hashable = true) :
    v.isDictVal = false := by
  cases v <;> simp_all [PyVal.hashable, PyVal.isDictVal]

theorem ColumnEngine.run_colValidate (table : String) (rowId : PyVal)
    (st : ColumnEngine.ColState) :
    (ColumnEngine.validateTableId table rowId).run st = .ok () st ∨
    (ColumnEngine.validateTableId table rowId).run st = .err .valueError st := by
  cases rowId with
  | vstr s =>
    by_cases h1 : table.isEmpty <;> by_cases h2 : table.length > 128 <;>
      by_cases h3 : s.isEmpty <;> by_cases h4 : s.length > 256 <;>
        simp [ColumnEngine.validateTableId, PyVal.truthy, h1, h2, h3, h4]
  | vnone =>
    by_cases h1 : table.isEmpty <;> by_cases h2 : table.length > 128 <;>
      simp [ColumnEngine.validateTableId, PyVal.truthy, h1, h2]
  | vbool b =>
    by_cases h1 : table.isEmpty <;> by_cases h2 : table.length > 128 <;>
      cases b <;>
        simp [ColumnEngine.validateTableId, PyVal.truthy, h1, h2]
  | vint n =>
    by_cases h1 : table.isEmpty <;> by_cases h2 : table.length > 128 <;>
      by_cases h3 : n = 0 <;>
        simp [ColumnEngine.validateTableId, PyVal.truthy, h1, h2, h3]
  | vlist xs =>
    by_cases h1 : table.isEmpty <;> by_cases h2 : table.length > 128 <;>
      by_cases h3 : xs.isEmpty <;>
        simp [ColumnEngine.validateTableId, PyVal.truthy, h1, h2, h3]
  | vdict kvs =>
    by_cases h1 : table.isEmpty <;> by_cases h2 : table.length > 128 <;>
      by_cases h3 : kvs.isEmpty <;>
        simp [ColumnEngine.validateTableId, PyVal.truthy, h1, h2, h3]

theorem ColumnEngine.insFold_nodup_cols (table : String) (rowId : PyVal) :
    ∀ (rowData : Doc) (s0 : ColumnEngine.ColState),
      ((Dict.getD s0.store table []).map Prod.fst).Nodup →
      ((Dict.getD
        (rowData.foldl (fun s cv => ColumnEngine.insStep table rowId cv s) s0).store
        table []).map Prod.fst).Nodup := by
  intro rowData
  induction rowData with
  | nil => intro s0 h; exact h
  | cons cv0 rest ih =>
    intro s0 h
    rw [List.foldl_cons]
    refine ih _ ?_
    have hstep : Dict.getD (ColumnEngine.insStep table rowId cv0 s0).store table [] =
        Dict.set (Dict.getD s0.store table [])
          cv0.1 (Dict.set (Dict.getD (Dict.getD s0.store table []) cv0.1 []) rowId cv0.2) := by
      simp [ColumnEngine.insStep, Dict.getD]
    rw [hstep]
    exact Dict.nodup_keys_set _ _ _ h

theorem ColumnEngine.buildRow_aux (rid : PyVal) (col : String) :
    ∀ (ts : Dict String (Dict PyVal PyVal)) (acc : Doc),
      (ts.map Prod.fst).Nodup →
      Dict.get? (ts.foldl (fun acc colEntry =>
        match Dict.get? colEntry.2 rid with
        | some v => acc ++ [(colEntry.1, v)]
        | none => acc) acc) col =
      match Dict.get? acc col with
      | some v => some v
      | none =>
        match Dict.get? ts col with
        | some cd => Dict.get? cd rid
        | none => none := by
  intro ts
  induction ts with
  | nil =>
    intro acc _
    cases h : Dict.get? acc col <;> simp [h]
  | cons ce rest ih =>
    intro acc hnodup
    obtain ⟨c0, cd0⟩ := ce
    simp only [List.map_cons, List.nodup_cons] at hnodup
    rw [List.foldl_cons]
    by_cases hc : col = c0
    · subst hc
      have hrest : Dict.get? rest col = none :=
        Dict.get?_eq_none_of_not_mem rest col hnodup.1
      cases hcd : Dict.get? cd0 rid with
      | some v0 =>
        simp only [hcd]
        rw [ih _ hnodup.2, Dict.get?_append]
        cases hacc : Dict.get? acc col <;> simp [hacc, hrest, hcd]
      | none =>
        simp only [hcd]
        rw [ih _ hnodup.2]
        cases hacc : Dict.get? acc col <;> simp [hacc, hrest, hcd]
    · cases hcd : Dict.get? cd0 rid with
      | some v0 =>
        simp only [hcd]
        rw [ih _ hnodup.2, Dict.get?_append]
        cases hacc : Dict.get? acc col <;>
          simp [hacc, Dict.get?, Ne.symm hc, hc]
      | none =>
        simp only [hcd]
        rw [ih _ hnodup.2]
        cases hacc : Dict.get? acc col <;> simp [hacc, hc, Ne.symm hc]

theorem ColumnEngine.buildRow_get? (ts : Dict String (Dict PyVal PyVal))
    (rid : PyVal) (hnodup : (ts.map Prod.fst).Nodup) (col : String) :
    Dict.get? (ColumnEngine.buildRow ts rid) col =
      match Dict.get? ts col with
      | some cd => Dict.get? cd rid
      | none => none := by
  have h := ColumnEngine.buildRow_aux rid col ts [] hnodup
  simpa [ColumnEngine.buildRow] using h

/-- C10: `put` on an already-present row id merges: columns named in the
new row map take their new values, every other column keeps its old value
for that row id, other row ids are untouched, and a subsequent `get`
returns the merged logical row (the union of surviving old columns and
newly written ones).  Hypotheses: the engine's own `_id` index invariant
(each `_id` id-set only holds its own row id), duplicate-free dict keys,
and a successful `put`. -/
theorem c10_column_put_merges (table : String) (key : PyVal) (row : Doc)
    (st st1 : ColumnEngine.ColState)
    (hput : (ColumnEngine.put false table key row).run st = .ok () st1)
    (hnodup : ((Dict.set row "_id" key).map Prod.fst).Nodup)
    (hcols : ((Dict.getD st.store table []).map Prod.fst).Nodup)
    (hidx : ∀ rid ∈ ColumnEngine.idxIds st table "_id" key, rid = key) :
    (∀ col : String,
      ColumnEngine.storedVal st1 table col key =
        match Dict.get? (Dict.set row "_id" key) col with
        | some v => some v
        | none => ColumnEngine.storedVal st table col key) ∧
    (∀ (col : String) (rid : PyVal), rid ≠ key →
      ColumnEngine.storedVal st1 table col rid =
        ColumnEngine.storedVal st table col rid) ∧
    (∃ r : Doc, ColumnEngine.get st1 table key = .ok (some r) ∧
      ∀ col : String, Dict.get? r col = ColumnEngine.storedVal st1 table col key) := by
  classical
  rcases ColumnEngine.run_colValidate table key st with hv | hv
  case inr => simp [ColumnEngine.put, PyM.run_bind, hv] at hput
  simp only [ColumnEngine.put, PyM.run_bind, hv] at hput
  rw [ColumnEngine.run_colApplyAndLog] at hput
  cases happ : (ColumnEngine.apply
      (.insertOp table key (Dict.set row "_id" key))).run st with
  | err e stE => rw [happ] at hput; simp at hput
  | ok u stA =>
    cases u
    rw [happ] at hput
    simp only [Bool.false_eq_true, if_false] at hput
    have hst1 : st1 = { stA with
        wal := stA.wal ++ [ColumnEngine.ColOp.insertOp table key
          (Dict.set row "_id" key)] } := by
      cases hput
      rfl
    obtain ⟨hkeyhash, stR, hRstore, hRidx, hfold, hhash⟩ :=
      ColumnEngine.run_apply_insert table key (Dict.set row "_id" key) st stA happ
    have hsetTbl : Dict.getD (Dict.getD stR.store table []) =
        Dict.getD (Dict.getD st.store table []) := by
      rw [hRstore, Dict.getD_setdefault_nil]
    have hstore1 : st1.store = stA.store := by rw [hst1]
    have hidx1 : st1.indexes = stA.indexes := by rw [hst1]
    have hsv : ∀ (col : String) (rid : PyVal),
        ColumnEngine.storedVal st1 table col rid =
          if rid = key then
            match Dict.get? (Dict.set row "_id" key) col with
            | some v => some v
            | none => ColumnEngine.storedVal st table col rid
          else ColumnEngine.storedVal st table col rid := by
      intro col rid
      unfold ColumnEngine.storedVal
      rw [hstore1, hfold,
        ColumnEngine.insFold_store table key (Dict.set row "_id" key) stR hnodup col rid]
      rw [hRstore, Dict.getD_setdefault_nil]
    refine ⟨?_, ?_, ?_⟩
    · intro col
      have h := hsv col key
      simpa using h
    · intro col rid hne
      have h := hsv col rid
      simpa [hne] using h
    · -- the `get` path
      have hslot : ∀ rid, rid ∈ getIdx st1.indexes table "_id" key → rid = key := by
        intro rid hm
        rw [hidx1, hfold] at hm
        rcases ColumnEngine.insFold_idx_ub table key _ stR "_id" key rid hm with hm2 | he
        · exact hidx rid (hRidx "_id" key rid hm2)
        · exact he
      have hmemkey : key ∈ getIdx st1.indexes table "_id" key := by
        rw [hidx1, hfold]
        exact ColumnEngine.insFold_idx_lb table key _ stR "_id" key
          (Dict.get?_mem _ _ _ (Dict.get?_set_self row "_id" key))
      have hslotIds : ColumnEngine.idxIds st1 table "_id" key =
          getIdx st1.indexes table "_id" key := rfl
      have hdict : key.isDictVal = false :=
        PyVal.not_isDictVal_of_hashable key hkeyhash
      have hfilter : ColumnEngine.filterRowIds st1 table [("_id", key)] =
          .ok (ColumnEngine.idxIds st1 table "_id" key) := by
        simp [ColumnEngine.filterRowIds, hdict, hkeyhash]
      have hnodup1 : ((Dict.getD st1.store table []).map Prod.fst).Nodup := by
        rw [hstore1, hfold]
        refine ColumnEngine.insFold_nodup_cols table key _ stR ?_
        rw [hRstore, Dict.getD_setdefault_nil]
        exact hcols
      cases hslotCase : ColumnEngine.idxIds st1 table "_id" key with
      | nil =>
        rw [← hslotIds, hslotCase] at hmemkey
        exact absurd hmemkey (List.not_mem_nil key)
      | cons rid0 rest =>
        have hr0 : rid0 = key := by
          apply hslot
          rw [← hslotIds, hslotCase]
          exact List.mem_cons_self _ _
        refine ⟨ColumnEngine.buildRow (Dict.getD st1.store table []) key, ?_, ?_⟩
        · simp only [ColumnEngine.get, ColumnEngine.findOne, hfilter,
            hslotCase, exceptBind_ok, hr0]
          rfl
        · intro col
          rw [ColumnEngine.buildRow_get? _ _ hnodup1 col]
          unfold ColumnEngine.storedVal
          simp only [Dict.getD]
          cases hts : Dict.get? (Option.getD (Dict.get? st1.store table) []) col <;>
            simp [hts]

/-- Witness for `c10_column_put_merges`: overwrite row `r` (holding
column `a`) with a row map naming only column `b`; the merged row keeps
`a = 1` and gains `b = 2`. -/
theorem c10_column_put_merges_witness :
    ∃ st1, (ColumnEngine.put false "t" (PyVal.vstr "r") [("b", PyVal.vint 2)]).run
        ⟨[("t", [("a", [(PyVal.vstr "r", PyVal.vint 1)]),
                 ("_id", [(PyVal.vstr "r", PyVal.vstr "r")])])],
         [("t", [("a", [(PyVal.vint 1, [PyVal.vstr "r"])]),
                 ("_id", [(PyVal.vstr "r", [PyVal.vstr "r"])])])], []⟩ =
        .ok () st1 ∧
      ColumnEngine.storedVal st1 "t" "a" (PyVal.vstr "r") = some (PyVal.vint 1) ∧
      ColumnEngine.storedVal st1 "t" "b" (PyVal.vstr "r") = some (PyVal.vint 2) := by
  refine ⟨_, rfl, ?_, ?_⟩
  · have h := (c10_column_put_merges "t" (PyVal.vstr "r") [("b", PyVal.vint 2)]
      ⟨[("t", [("a", [(PyVal.vstr "r", PyVal.vint 1)]),
               ("_id", [(PyVal.vstr "r", PyVal.vstr "r")])])],
       [("t", [("a", [(PyVal.vint 1, [PyVal.vstr "r"])]),
               ("_id", [(PyVal.vstr "r", [PyVal.vstr "r"])])])], []⟩
      _ rfl (by decide) (by decide) (by decide)).1 "a"
    simpa using h
  · have h := (c10_column_put_merges "t" (PyVal.vstr "r") [("b", PyVal.vint 2)]
      ⟨[("t", [("a", [(PyVal.vstr "r", PyVal.vint 1)]),
               ("_id", [(PyVal.vstr "r", PyVal.vstr "r")])])],
       [("t", [("a", [(PyVal.vint 1, [PyVal.vstr "r"])]),
               ("_id", [(PyVal.vstr "r", [PyVal.vstr "r"])])])], []⟩
      _ rfl (by decide) (by decide) (by decide)).1 "b"
    simpa using h

/-! ## C6 — update with arbitrary filters -/

theorem Dict.mem_set {κ ν : Type} [DecidableEq κ] (d : Dict κ ν) (k : κ)
    (v : ν) : ∀ kv ∈ Dict.set d k v, kv = (k, v) ∨ kv ∈ d := by
  induction d with
  | nil =>
    intro kv h
    simp [Dict.set] at h
    left
    exact h
  | cons hd tl ih =>
    intro kv h
    obtain ⟨k2, v2⟩ := hd
    by_cases h2 : k2 = k
    · simp only [Dict.set, if_pos h2] at h
      rcases List.mem_cons.mp h with rfl | h3
      · left; rfl
      · right; exact List.mem_cons_of_mem _ h3
    · simp only [Dict.set, if_neg h2] at h
      rcases List.mem_cons.mp h with rfl | h3
      · right; exact List.mem_cons_self _ _
      · rcases ih kv h3 with h4 | h4
        · left; exact h4
        · right; exact List.mem_cons_of_mem _ h4

/-- `doc.update(changes['$set'])`: write every `$set` pair into the
document dict in order. -/
def DocumentEngine.applySet (setKvs d : Doc) : Doc :=
  setKvs.foldl (fun d kv => Dict.set d kv.1 kv.2) d

/-- Whether `_match(doc, filt)` returns `True` (as opposed to returning
`False` or raising). -/
def DocumentEngine.matchedB (filt : Doc) (entry : PyVal × Doc) : Bool :=
  match matchDoc entry.2 filt with
  | .ok true => true
  | _ => false

/-- Conditions under which one UPDATE write-loop iteration cannot raise:
matching does not raise, and on a match both the old document's values
and the `$set`-updated document's values are hashable (for the index
maintenance). -/
def DocumentEngine.updOk (filt setKvs : Doc) (entry : PyVal × Doc) : Bool :=
  match matchDoc entry.2 filt with
  | .ok true => entry.2.all (fun fv => fv.2.hashable) &&
      (DocumentEngine.applySet setKvs entry.2).all (fun fv => fv.2.hashable)
  | .ok false => true
  | .error _ => false

/-- The pure effect of one UPDATE write-loop iteration: on a match,
store the `$set`-updated document and swap its index entries. -/
def DocumentEngine.updStep (coll : String) (filt setKvs : Doc)
    (entry : PyVal × Doc) (s : DocumentEngine.DocState) :
    DocumentEngine.DocState :=
  if DocumentEngine.matchedB filt entry then
    let newDoc := DocumentEngine.applySet setKvs entry.2
    let s1 := { s with
      store := DocumentEngine.storeSet s.store coll entry.1 newDoc }
    let s2 := entry.2.foldl (fun s fv =>
      { s with indexes := idxRemove1 s.indexes coll fv.1 fv.2 entry.1 }) s1
    newDoc.foldl (fun s fv =>
      { s with indexes := idxAdd1 s.indexes coll fv.1 fv.2 entry.1 }) s2
  else s

theorem DocumentEngine.applySet_hashable :
    ∀ (setKvs d : Doc),
      (∀ fv ∈ d, fv.2.hashable = true) →
      (∀ kv ∈ setKvs, kv.2.hashable = true) →
      ∀ fv ∈ DocumentEngine.applySet setKvs d, fv.2.hashable = true := by
  intro setKvs
  induction setKvs with
  | nil => intro d hd _ fv hfv; exact hd fv hfv
  | cons kv rest ih =>
    intro d hd hs fv hfv
    have hstep : DocumentEngine.applySet (kv :: rest) d =
        DocumentEngine.applySet rest (Dict.set d kv.1 kv.2) := rfl
    rw [hstep] at hfv
    refine ih (Dict.set d kv.1 kv.2) ?_
      (fun kv2 h2 => hs kv2 (List.mem_cons_of_mem _ h2)) fv hfv
    intro fv2 hfv2
    rcases Dict.mem_set d kv.1 kv.2 fv2 hfv2 with rfl | h3
    · exact hs kv (List.mem_cons_self _ _)
    · exact hd fv2 h3

theorem DocumentEngine.run_removeFromIndex (coll : String) (key : PyVal)
    (doc : Doc) (st : DocumentEngine.DocState)
    (h : ∀ fv ∈ doc, fv.2.hashable = true) :
    (DocumentEngine.removeFromIndex coll key doc).run st =
      .ok () (doc.foldl (fun s fv =>
        { s with indexes := idxRemove1 s.indexes coll fv.1 fv.2 key }) st) := by
  unfold DocumentEngine.removeFromIndex
  refine PyM.run_forEach_of_ok _ (fun fv => fv.2.hashable)
    (fun fv s => { s with indexes := idxRemove1 s.indexes coll fv.1 fv.2 key })
    ?_ doc st h
  intro fv s hfv
  simp only at hfv
  simp [PyM.run_bind, PyM.run_raiseIf, PyM.run_modify, hfv]

theorem DocumentEngine.run_addToIndex (coll : String) (key : PyVal)
    (doc : Doc) (st : DocumentEngine.DocState)
    (h : ∀ fv ∈ doc, fv.2.hashable = true) :
    (DocumentEngine.addToIndex coll key doc).run st =
      .ok () (doc.foldl (fun s fv =>
        { s with indexes := idxAdd1 s.indexes coll fv.1 fv.2 key }) st) := by
  unfold DocumentEngine.addToIndex
  refine PyM.run_forEach_of_ok _ (fun fv => fv.2.hashable)
    (fun fv s => { s with indexes := idxAdd1 s.indexes coll fv.1 fv.2 key })
    ?_ doc st h
  intro fv s hfv
  simp only at hfv
  simp [PyM.run_bind, PyM.run_raiseIf, PyM.run_modify, hfv]

theorem DocumentEngine.rmFold_store (coll : String) (key : PyVal) :
    ∀ (xs : Doc) (s : DocumentEngine.DocState),
      (xs.foldl (fun s fv =>
        { s with indexes := idxRemove1 s.indexes coll fv.1 fv.2 key }) s).store =
      s.store := by
  intro xs
  induction xs with
  | nil => intro s; rfl
  | cons x rest ih =>
    intro s
    rw [List.foldl_cons]
    exact ih _

theorem DocumentEngine.addFold_store (coll : String) (key : PyVal) :
    ∀ (xs : Doc) (s : DocumentEngine.DocState),
      (xs.foldl (fun s fv =>
        { s with indexes := idxAdd1 s.indexes coll fv.1 fv.2 key }) s).store =
      s.store := by
  intro xs
  induction xs with
  | nil => intro s; rfl
  | cons x rest ih =>
    intro s
    rw [List.foldl_cons]
    exact ih _

theorem DocumentEngine.updStep_store (coll : String) (filt setKvs : Doc)
    (entry : PyVal × Doc) (s : DocumentEngine.DocState) :
    (DocumentEngine.updStep coll filt setKvs entry s).store =
      if DocumentEngine.matchedB filt entry then
        DocumentEngine.storeSet s.store coll entry.1
          (DocumentEngine.applySet setKvs entry.2)
      else s.store := by
  by_cases hm : DocumentEngine.matchedB filt entry
  · simp only [DocumentEngine.updStep, hm, if_true,
      DocumentEngine.addFold_store, DocumentEngine.rmFold_store]
  · simp [DocumentEngine.updStep, hm]

theorem DocumentEngine.getD_storeSet_self
    (store : Dict String (Dict PyVal Doc)) (coll : String) (k : PyVal)
    (d : Doc) :
    Dict.getD (DocumentEngine.storeSet store coll k d) coll [] =
      Dict.set (Dict.getD store coll []) k d := by
  unfold DocumentEngine.storeSet
  simp [Dict.getD, Dict.get?_set_self]

theorem DocumentEngine.updFold_store (coll : String) (filt setKvs : Doc) :
    ∀ (snap : Dict PyVal Doc) (s0 : DocumentEngine.DocState) (k : PyVal),
      (snap.map Prod.fst).Nodup →
      Dict.get? (Dict.getD
          (snap.foldl (fun s e =>
            DocumentEngine.updStep coll filt setKvs e s) s0).store coll []) k =
        match Dict.get? snap k with
        | some d =>
          if DocumentEngine.matchedB filt (k, d) then
            some (DocumentEngine.applySet setKvs d)
          else Dict.get? (Dict.getD s0.store coll []) k
        | none => Dict.get? (Dict.getD s0.store coll []) k := by
  intro snap
  induction snap with
  | nil =>
    intro s0 k _
    simp [Dict.get?]
  | cons e rest ih =>
    intro s0 k hnd
    obtain ⟨k0, d0⟩ := e
    simp only [List.map_cons, List.nodup_cons] at hnd
    rw [List.foldl_cons, ih _ k hnd.2]
    have hstep : Dict.getD
        (DocumentEngine.updStep coll filt setKvs (k0, d0) s0).store coll [] =
        if DocumentEngine.matchedB filt (k0, d0) then
          Dict.set (Dict.getD s0.store coll []) k0
            (DocumentEngine.applySet setKvs d0)
        else Dict.getD s0.store coll [] := by
      rw [DocumentEngine.updStep_store]
      by_cases hm : DocumentEngine.matchedB filt (k0, d0)
      · simp [hm, DocumentEngine.getD_storeSet_self]
      · simp [hm]
    by_cases hk : k0 = k
    · subst hk
      have hrest : Dict.get? rest k0 = none :=
        Dict.get?_eq_none_of_not_mem rest k0 hnd.1
      rw [hrest, hstep]
      by_cases hm : DocumentEngine.matchedB filt (k0, d0) <;>
        simp [hm, Dict.get?_cons]
    · have hbase : Dict.get? (Dict.getD
          (DocumentEngine.updStep coll filt setKvs (k0, d0) s0).store coll []) k =
          Dict.get? (Dict.getD s0.store coll []) k := by
        rw [hstep]
        by_cases hm : DocumentEngine.matchedB filt (k0, d0) <;>
          simp [hm, Dict.get?_set_ne _ _ _ _ (Ne.symm hk)]
      rw [hbase]
      cases hr : Dict.get? rest k <;> simp [Dict.get?_cons, hk, hr]

theorem DocumentEngine.filterExc_matchedB (filt : Doc) :
    ∀ snap : Dict PyVal Doc,
      (∀ entry ∈ snap, ∃ b, matchDoc entry.2 filt = .ok b) →
      filterExc (fun entry => matchDoc entry.2 filt) snap =
        .ok (snap.filter (DocumentEngine.matchedB filt)) := by
  intro snap
  induction snap with
  | nil => intro _; rfl
  | cons e rest ih =>
    intro h
    obtain ⟨b, hb⟩ := h e (List.mem_cons_self _ _)
    have hrest := ih (fun x hx => h x (List.mem_cons_of_mem _ hx))
    cases b <;>
      simp [filterExc, hb, hrest, DocumentEngine.matchedB, List.filter_cons]

theorem DocumentEngine.countExc_matchedB (filt : Doc)
    (snap : Dict PyVal Doc)
    (h : ∀ entry ∈ snap, ∃ b, matchDoc entry.2 filt = .ok b) :
    countExc (fun entry => matchDoc entry.2 filt) snap =
      .ok ((snap.filter (DocumentEngine.matchedB filt)).length) := by
  simp [countExc, DocumentEngine.filterExc_matchedB filt snap h]

theorem DocumentEngine.run_updBody (coll : String) (filt setKvs : Doc)
    (entry : PyVal × Doc) (st : DocumentEngine.DocState)
    (h : DocumentEngine.updOk filt setKvs entry = true) :
    ((do
        let b ← liftExc (matchDoc entry.2 filt)
        if b then do
          let newDoc := setKvs.foldl (fun d kv => Dict.set d kv.1 kv.2) entry.2
          PyM.modify (fun st => { st with
            store := DocumentEngine.storeSet st.store coll entry.1 newDoc })
          DocumentEngine.removeFromIndex coll entry.1 entry.2
          DocumentEngine.addToIndex coll entry.1 newDoc
        else pure ()) : PyM DocumentEngine.DocState Unit).run st =
      .ok () (DocumentEngine.updStep coll filt setKvs entry st) := by
  cases hm : matchDoc entry.2 filt with
  | error e => simp [DocumentEngine.updOk, hm] at h
  | ok b =>
    cases b with
    | false =>
      simp [PyM.run_bind, hm, DocumentEngine.updStep, DocumentEngine.matchedB]
    | true =>
      simp only [DocumentEngine.updOk, hm, Bool.and_eq_true,
        List.all_eq_true] at h
      obtain ⟨h1, h2⟩ := h
      have hrm : ∀ s : DocumentEngine.DocState,
          (DocumentEngine.removeFromIndex coll entry.1 entry.2).run s =
            .ok () (entry.2.foldl (fun s fv =>
              { s with
                indexes := idxRemove1 s.indexes coll fv.1 fv.2 entry.1 }) s) :=
        fun s => DocumentEngine.run_removeFromIndex coll entry.1 entry.2 s
          (fun fv hfv => h1 fv hfv)
      have hadd : ∀ s : DocumentEngine.DocState,
          (DocumentEngine.addToIndex coll entry.1
            (setKvs.foldl (fun d kv => Dict.set d kv.1 kv.2) entry.2)).run s =
            .ok () ((setKvs.foldl (fun d kv => Dict.set d kv.1 kv.2)
                entry.2).foldl
              (fun s fv =>
                { s with
                  indexes := idxAdd1 s.indexes coll fv.1 fv.2 entry.1 }) s) :=
        fun s => DocumentEngine.run_addToIndex coll entry.1 _ s
          (fun fv hfv => h2 fv hfv)
      simp only [PyM.run_bind, hm, run_liftExc_ok, if_true, PyM.run_modify,
        hrm, hadd]
      simp [DocumentEngine.updStep, DocumentEngine.matchedB, hm,
        DocumentEngine.applySet]

/-- C6 counterexample: `update` validates `filt.get('_id')`, so updating
with a filter that names no `_id` — here `{"age": 30}` against a stored,
matching document/row — raises `ValueError` and updates nothing, in both
the document and the column engine. -/
theorem c6_update_without_id_counterexample :
    (DocumentEngine.update false "c" [("age", PyVal.vint 30)]
        [("$set", PyVal.vdict [("age", PyVal.vint 31)])]).run
      ⟨[("c", [(PyVal.vstr "d1",
          [("_id", PyVal.vstr "d1"), ("age", PyVal.vint 30)])])], [], []⟩ =
      .err .valueError
        ⟨[("c", [(PyVal.vstr "d1",
            [("_id", PyVal.vstr "d1"), ("age", PyVal.vint 30)])])], [], []⟩ ∧
    (ColumnEngine.update false "t" [("age", PyVal.vint 30)]
        [("age", PyVal.vint 31)]).run
      ⟨[("t", [("age", [(PyVal.vstr "r", PyVal.vint 30)]),
               ("_id", [(PyVal.vstr "r", PyVal.vstr "r")])])], [], []⟩ =
      .err .valueError
        ⟨[("t", [("age", [(PyVal.vstr "r", PyVal.vint 30)]),
                 ("_id", [(PyVal.vstr "r", PyVal.vstr "r")])])], [], []⟩ := by
  exact ⟨rfl, rfl⟩

/-- C6 amended: both engines' `update` first run
`_validate_*_id(.., filt.get('_id'))`, so a filter whose `_id` entry is
missing or falsy raises `ValueError` with the state unchanged.  When the
filter does carry a valid truthy `_id` (and the collection name is
valid), and matching raises no error, document-engine `update` returns
the number of stored documents matching the filter and applies the
`$set` changes to exactly the matched documents, leaving every other
document unchanged. -/
theorem c6_update_requires_id (coll : String) (filt changes setKvs : Doc)
    (st : DocumentEngine.DocState) (cst : ColumnEngine.ColState) :
    ((Dict.getD filt "_id" PyVal.vnone).truthy = false →
      (DocumentEngine.update false coll filt changes).run st =
        .err .valueError st ∧
      (ColumnEngine.update false coll filt changes).run cst =
        .err .valueError cst) ∧
    ((DocumentEngine.validateCollectionId coll
        (Dict.getD filt "_id" PyVal.vnone)).run st = .ok () st →
     Dict.get? changes "$set" = some (.vdict setKvs) →
     (∀ entry ∈ Dict.getD st.store coll [],
        ∃ b, matchDoc entry.2 filt = .ok b) →
     (∀ entry ∈ Dict.getD st.store coll [],
        ∀ fv ∈ entry.2, fv.2.hashable = true) →
     (∀ kv ∈ setKvs, kv.2.hashable = true) →
     ((Dict.getD st.store coll []).map Prod.fst).Nodup →
     ∃ st2, (DocumentEngine.update false coll filt changes).run st =
         .ok (((Dict.getD st.store coll []).filter
           (DocumentEngine.matchedB filt)).length) st2 ∧
       ∀ k : PyVal, DocumentEngine.storedDoc st2 coll k =
         match Dict.get? (Dict.getD st.store coll []) k with
         | some d => some (if DocumentEngine.matchedB filt (k, d) then
             DocumentEngine.applySet setKvs d else d)
         | none => none) := by
  constructor
  · intro hid
    constructor
    · have hv : (DocumentEngine.validateCollectionId coll
          (Dict.getD filt "_id" PyVal.vnone)).run st = .err .valueError st := by
        by_cases h1 : coll.isEmpty <;> by_cases h2 : coll.length > 128 <;>
          simp [DocumentEngine.validateCollectionId, h1, h2, hid]
      simp [DocumentEngine.update, PyM.run_bind, hv]
    · have hv : (ColumnEngine.validateTableId coll
          (Dict.getD filt "_id" PyVal.vnone)).run cst = .err .valueError cst := by
        by_cases h1 : coll.isEmpty <;> by_cases h2 : coll.length > 128 <;>
          simp [ColumnEngine.validateTableId, h1, h2, hid]
      simp [ColumnEngine.update, PyM.run_bind, hv]
  · intro hv hset hmatch hhashdocs hhashset hnodup
    have hok : ∀ x ∈ Dict.getD st.store coll [],
        DocumentEngine.updOk filt setKvs x = true := by
      intro x hx
      obtain ⟨b, hb⟩ := hmatch x hx
      cases b with
      | false => simp [DocumentEngine.updOk, hb]
      | true =>
        have hdx := hhashdocs x hx
        have hax := DocumentEngine.applySet_hashable setKvs x.2 hdx hhashset
        simp only [DocumentEngine.updOk, hb, Bool.and_eq_true,
          List.all_eq_true]
        exact ⟨fun fv hfv => hdx fv hfv, fun fv hfv => hax fv hfv⟩
    simp only [DocumentEngine.update, PyM.run_bind, hv, PyM.run_read]
    rw [DocumentEngine.countExc_matchedB filt _ hmatch]
    simp only [run_liftExc_ok]
    by_cases hn : ((Dict.getD st.store coll []).filter
        (DocumentEngine.matchedB filt)).length = 0
    · rw [hn]
      simp only [ne_eq, not_true_eq_false, if_false, PyM.run_pure]
      have hnone : ∀ x ∈ Dict.getD st.store coll [],
          DocumentEngine.matchedB filt x = false := by
        intro x hx
        by_contra hmx
        have hxmem : x ∈ (Dict.getD st.store coll []).filter
            (DocumentEngine.matchedB filt) :=
          List.mem_filter.mpr ⟨hx, by simpa using hmx⟩
        rw [List.length_eq_zero.mp hn] at hxmem
        exact absurd hxmem (List.not_mem_nil x)
      refine ⟨st, rfl, ?_⟩
      intro k
      unfold DocumentEngine.storedDoc
      cases hg : Dict.get? (Dict.getD st.store coll []) k with
      | none => simp
      | some d =>
        have hd := Dict.get?_mem _ _ _ hg
        have hm := hnone (k, d) hd
        simp [hm]
    · simp only [ne_eq, hn, not_false_eq_true, if_true, PyM.run_bind]
      rw [DocumentEngine.run_docApplyAndLog]
      have happ : (DocumentEngine.apply
          (.updateOp coll filt changes)).run st =
          .ok () ((Dict.getD st.store coll []).foldl
            (fun s e => DocumentEngine.updStep coll filt setKvs e s)
            { st with
              store := Dict.setdefault st.store coll [],
              indexes := Dict.setdefault st.indexes coll [] }) := by
        simp only [DocumentEngine.apply, PyM.run_bind, PyM.run_modify,
          hset, PyM.run_read]
        rw [Dict.getD_setdefault_nil]
        exact PyM.run_forEach_of_ok _ (DocumentEngine.updOk filt setKvs)
          (DocumentEngine.updStep coll filt setKvs)
          (fun x s hx => DocumentEngine.run_updBody coll filt setKvs x s hx)
          (Dict.getD st.store coll []) _ hok
      rw [happ]
      simp only [Bool.false_eq_true, if_false, PyM.run_pure]
      refine ⟨_, rfl, ?_⟩
      intro k
      have hfold := DocumentEngine.updFold_store coll filt setKvs
        (Dict.getD st.store coll [])
        { st with
          store := Dict.setdefault st.store coll [],
          indexes := Dict.setdefault st.indexes coll [] } k hnodup
      simp only [Dict.getD_setdefault_nil] at hfold
      have hsd : DocumentEngine.storedDoc
          { (Dict.getD st.store coll []).foldl
              (fun s e => DocumentEngine.updStep coll filt setKvs e s)
              { st with
                store := Dict.setdefault st.store coll [],
                indexes := Dict.setdefault st.indexes coll [] } with
            wal := ((Dict.getD st.store coll []).foldl
              (fun s e => DocumentEngine.updStep coll filt setKvs e s)
              { st with
                store := Dict.setdefault st.store coll [],
                indexes := Dict.setdefault st.indexes coll [] }).wal ++
              [DocumentEngine.DocOp.updateOp coll filt changes] } coll k =
          Dict.get? (Dict.getD
            ((Dict.getD st.store coll []).foldl
              (fun s e => DocumentEngine.updStep coll filt setKvs e s)
              { st with
                store := Dict.setdefault st.store coll [],
                indexes := Dict.setdefault st.indexes coll [] }).store
            coll []) k := rfl
      rw [hsd, hfold]
      cases hg : Dict.get? (Dict.getD st.store coll []) k with
      | none => simp
      | some d =>
        by_cases hm : DocumentEngine.matchedB filt (k, d) <;> simp [hg, hm]

/-- Witness for `c6_update_requires_id`: a filter with no `_id` raises
`ValueError` on a fresh engine, while `update` with `{"_id": "d1"}` and
`{"$set": {"age": 31}}` on a store holding one matching document
returns 1 and stores the updated document. -/
theorem c6_update_requires_id_witness :
    ((DocumentEngine.update false "c" [("age", PyVal.vint 30)]
        [("$set", PyVal.vdict [("age", PyVal.vint 31)])]).run
        DocumentEngine.initState =
      .err .valueError DocumentEngine.initState) ∧
    ∃ st2, (DocumentEngine.update false "c" [("_id", PyVal.vstr "d1")]
        [("$set", PyVal.vdict [("age", PyVal.vint 31)])]).run
        ⟨[("c", [(PyVal.vstr "d1",
            [("_id", PyVal.vstr "d1"), ("age", PyVal.vint 30)])])], [], []⟩ =
      .ok 1 st2 ∧
      DocumentEngine.storedDoc st2 "c" (PyVal.vstr "d1") =
        some [("_id", PyVal.vstr "d1"), ("age", PyVal.vint 31)] := by
  constructor
  · exact ((c6_update_requires_id "c" [("age", PyVal.vint 30)]
      [("$set", PyVal.vdict [("age", PyVal.vint 31)])] []
      DocumentEngine.initState ColumnEngine.initState).1 (by decide)).1
  · obtain ⟨st2, hrun, hchar⟩ := (c6_update_requires_id "c"
      [("_id", PyVal.vstr "d1")]
      [("$set", PyVal.vdict [("age", PyVal.vint 31)])]
      [("age", PyVal.vint 31)]
      ⟨[("c", [(PyVal.vstr "d1",
          [("_id", PyVal.vstr "d1"), ("age", PyVal.vint 30)])])], [], []⟩
      ColumnEngine.initState).2
      (by decide) (by decide)
      (by
        intro entry hentry
        have he : entry = (PyVal.vstr "d1",
            [("_id", PyVal.vstr "d1"), ("age", PyVal.vint 30)]) := by
          simpa [Dict.getD] using hentry
        subst he
        exact ⟨true, rfl⟩)
      (by decide) (by decide) (by decide)
    exact ⟨st2, hrun, hchar (PyVal.vstr "d1")⟩

/-! ## C2 — index exactness -/

theorem Dict.get?_eq_of_mem_nodup {κ ν : Type} [DecidableEq κ] :
    ∀ (d : Dict κ ν), (d.map Prod.fst).Nodup →
      ∀ kv ∈ d, Dict.get? d kv.1 = some kv.2 := by
  intro d
  induction d with
  | nil => intro _ kv h; exact absurd h (List.not_mem_nil kv)
  | cons hd tl ih =>
    intro hnd kv h
    obtain ⟨k2, v2⟩ := hd
    simp only [List.map_cons, List.nodup_cons] at hnd
    rcases List.mem_cons.mp h with rfl | h2
    · simp [Dict.get?_cons]
    · have hne : k2 ≠ kv.1 := by
        intro he
        exact hnd.1 (he ▸ List.mem_map_of_mem Prod.fst h2)
      simp only [Dict.get?_cons, if_neg hne]
      exact ih hnd.2 kv h2

theorem Dict.nodup_keys_erase {κ ν : Type} [DecidableEq κ]
    (d : Dict κ ν) (k : κ) (h : (d.map Prod.fst).Nodup) :
    (((Dict.erase d k).map Prod.fst) : List κ).Nodup := by
  have hsub : List.Sublist (Dict.erase d k) d := List.filter_sublist d
  exact List.Nodup.sublist (List.Sublist.map Prod.fst hsub) h

theorem DocumentEngine.rmFold_indexes (coll : String) (key : PyVal) :
    ∀ (xs : Doc) (s : DocumentEngine.DocState),
      (xs.foldl (fun s fv =>
        { s with indexes := idxRemove1 s.indexes coll fv.1 fv.2 key }) s).indexes =
      xs.foldl (fun ix fv => idxRemove1 ix coll fv.1 fv.2 key) s.indexes := by
  intro xs
  induction xs with
  | nil => intro s; rfl
  | cons x rest ih =>
    intro s
    rw [List.foldl_cons, List.foldl_cons, ih]

theorem DocumentEngine.addFold_indexes (coll : String) (key : PyVal) :
    ∀ (xs : Doc) (s : DocumentEngine.DocState),
      (xs.foldl (fun s fv =>
        { s with indexes := idxAdd1 s.indexes coll fv.1 fv.2 key }) s).indexes =
      xs.foldl (fun ix fv => idxAdd1 ix coll fv.1 fv.2 key) s.indexes := by
  intro xs
  induction xs with
  | nil => intro s; rfl
  | cons x rest ih =>
    intro s
    rw [List.foldl_cons, List.foldl_cons, ih]

theorem mem_rmFoldIdx (coll : String) (key : PyVal) :
    ∀ (xs : Doc) (ix : Idx3) (c f : String) (v rid : PyVal),
      rid ∈ getIdx (xs.foldl
          (fun ix fv => idxRemove1 ix coll fv.1 fv.2 key) ix) c f v ↔
        rid ∈ getIdx ix c f v ∧ ¬(c = coll ∧ rid = key ∧ (f, v) ∈ xs) := by
  intro xs
  induction xs with
  | nil =>
    intro ix c f v rid
    simp
  | cons x rest ih =>
    intro ix c f v rid
    rw [List.foldl_cons, ih, mem_getIdx_idxRemove1]
    constructor
    · rintro ⟨⟨h1, h2⟩, h3⟩
      refine ⟨h1, ?_⟩
      rintro ⟨hc, hk, hm⟩
      rcases List.mem_cons.mp hm with hm1 | hm2
      · refine h2 ⟨hc, ?_, ?_, hk⟩
        · rw [← hm1]
        · rw [← hm1]
      · exact h3 ⟨hc, hk, hm2⟩
    · rintro ⟨h1, h2⟩
      refine ⟨⟨h1, ?_⟩, ?_⟩
      · rintro ⟨hc, hf, hv, hk⟩
        refine h2 ⟨hc, hk, ?_⟩
        rw [hf, hv]
        exact List.mem_cons_self _ _
      · rintro ⟨hc, hk, hm⟩
        exact h2 ⟨hc, hk, List.mem_cons_of_mem _ hm⟩

theorem mem_addFoldIdx (coll : String) (key : PyVal) :
    ∀ (xs : Doc) (ix : Idx3) (c f : String) (v rid : PyVal),
      rid ∈ getIdx (xs.foldl
          (fun ix fv => idxAdd1 ix coll fv.1 fv.2 key) ix) c f v ↔
        rid ∈ getIdx ix c f v ∨ (c = coll ∧ rid = key ∧ (f, v) ∈ xs) := by
  intro xs
  induction xs with
  | nil =>
    intro ix c f v rid
    simp
  | cons x rest ih =>
    intro ix c f v rid
    rw [List.foldl_cons, ih, mem_getIdx_idxAdd1]
    constructor
    · rintro (⟨h1 | ⟨hc, hf, hv, hk⟩⟩ | ⟨hc, hk, hm⟩)
      · exact Or.inl h1
      · refine Or.inr ⟨hc, hk, ?_⟩
        rw [hf, hv]
        exact List.mem_cons_self _ _
      · exact Or.inr ⟨hc, hk, List.mem_cons_of_mem _ hm⟩
    · rintro (h1 | ⟨hc, hk, hm⟩)
      · exact Or.inl (Or.inl h1)
      · rcases List.mem_cons.mp hm with hm1 | hm2
        · refine Or.inl (Or.inr ⟨hc, ?_, ?_, hk⟩)
          · rw [← hm1]
          · rw [← hm1]
        · exact Or.inr ⟨hc, hk, hm2⟩

/-- The document engine's data invariant: the secondary index is an
exact view of the primary store (a `(field, value, id)` triple is
indexed iff the stored document with that id holds that value at that
field), every stored document has duplicate-free keys and hashable
values (it came from a Python dict and was indexed), and every
collection's key list is duplicate-free. -/
def DocumentEngine.wfState (st : DocumentEngine.DocState) : Prop :=
  (∀ (coll f : String) (v id : PyVal),
    id ∈ DocumentEngine.idxIds st coll f v ↔
      ∃ d, DocumentEngine.storedDoc st coll id = some d ∧
        Dict.get? d f = some v) ∧
  (∀ (coll : String) (id : PyVal) (d : Doc),
    DocumentEngine.storedDoc st coll id = some d →
      (d.map Prod.fst).Nodup ∧ ∀ fv ∈ d, fv.2.hashable = true) ∧
  (∀ coll : String, ((Dict.getD st.store coll []).map Prod.fst).Nodup)

/-- Static well-formedness of a WAL record: a document built from a
Python dict has duplicate-free keys.  (All other preconditions — value
hashability, error-free matching, a dict-valued `$set` — are forced by
the success of the replay itself.) -/
def DocumentEngine.opWF : DocumentEngine.DocOp → Prop
  | .insertOp _ doc => (doc.map Prod.fst).Nodup
  | .updateOp _ _ _ => True
  | .deleteOp _ _ => True

theorem DocumentEngine.wf_init : DocumentEngine.wfState DocumentEngine.initState := by
  refine ⟨?_, ?_, ?_⟩
  · intro coll f v id
    simp [DocumentEngine.idxIds, DocumentEngine.storedDoc,
      DocumentEngine.initState, Dict.getD, Dict.get?]
  · intro coll id d h
    simp [DocumentEngine.storedDoc, DocumentEngine.initState, Dict.getD,
      Dict.get?] at h
  · intro coll
    simp [DocumentEngine.initState, Dict.getD, Dict.get?]

theorem DocumentEngine.wf_setdefault (st : DocumentEngine.DocState)
    (coll : String) (hwf : DocumentEngine.wfState st) :
    DocumentEngine.wfState { st with
      store := Dict.setdefault st.store coll [],
      indexes := Dict.setdefault st.indexes coll [] } := by
  obtain ⟨h1, h2, h3⟩ := hwf
  refine ⟨?_, ?_, ?_⟩
  · intro c f v id
    have := h1 c f v id
    simpa [DocumentEngine.idxIds, DocumentEngine.storedDoc,
      Dict.getD_setdefault_nil] using this
  · intro c id d h
    refine h2 c id d ?_
    simpa [DocumentEngine.storedDoc, Dict.getD_setdefault_nil] using h
  · intro c
    have := h3 c
    simpa [Dict.getD_setdefault_nil] using this

/-- The heart of index exactness: one write (overwrite, fresh insert, or
deletion) at `(coll, key)` — described by the old and new stored values,
a pointwise store characterization and an index-membership
characterization — preserves the invariant. -/
theorem DocumentEngine.wf_writeAt (st st2 : DocumentEngine.DocState)
    (coll : String) (key : PyVal) (oldOpt newOpt : Option Doc)
    (hwf : DocumentEngine.wfState st)
    (hold : DocumentEngine.storedDoc st coll key = oldOpt)
    (hnd : ((newOpt.getD []).map Prod.fst).Nodup)
    (hhash : ∀ fv ∈ newOpt.getD [], fv.2.hashable = true)
    (hstoreK : DocumentEngine.storedDoc st2 coll key = newOpt)
    (hstoreO : ∀ (c : String) (id : PyVal), ¬(c = coll ∧ id = key) →
      DocumentEngine.storedDoc st2 c id = DocumentEngine.storedDoc st c id)
    (hidx : ∀ (c f : String) (v id : PyVal),
      id ∈ DocumentEngine.idxIds st2 c f v ↔
        ((id ∈ DocumentEngine.idxIds st c f v ∧
            ¬(c = coll ∧ id = key ∧ (f, v) ∈ oldOpt.getD [])) ∨
          (c = coll ∧ id = key ∧ (f, v) ∈ newOpt.getD [])))
    (hnodup2 : ∀ c : String,
      ((Dict.getD st2.store c []).map Prod.fst).Nodup) :
    DocumentEngine.wfState st2 := by
  obtain ⟨h1, h2, h3⟩ := hwf
  refine ⟨?_, ?_, hnodup2⟩
  · intro c f v id
    rw [hidx]
    by_cases hck : c = coll ∧ id = key
    · obtain ⟨hc, hk⟩ := hck
      subst hc
      subst hk
      have hfirst : ∀ hmem : id ∈ DocumentEngine.idxIds st c f v,
          (f, v) ∈ oldOpt.getD [] := by
        intro hmem
        obtain ⟨d, hd, hdf⟩ := (h1 c f v id).mp hmem
        rw [hold] at hd
        cases oldOpt with
        | none => exact absurd hd (by simp)
        | some old =>
          have hde : old = d := by
            injection hd with hx
          subst hde
          simpa using Dict.get?_mem _ _ _ hdf
      constructor
      · rintro (⟨hmem, hnot⟩ | ⟨_, _, hm⟩)
        · exact absurd ⟨rfl, rfl, hfirst hmem⟩ hnot
        · cases newOpt with
          | none => exact absurd hm (by simp)
          | some newd =>
            simp only [Option.getD_some] at hm
            refine ⟨newd, hstoreK, ?_⟩
            have := Dict.get?_eq_of_mem_nodup newd (by simpa using hnd)
              (f, v) hm
            simpa using this
      · rintro ⟨d, hd, hdf⟩
        rw [hstoreK] at hd
        cases newOpt with
        | none => exact absurd hd (by simp)
        | some newd =>
          have hdnew : d = newd := by
            injection hd with hx
            exact hx.symm
          subst hdnew
          refine Or.inr ⟨rfl, rfl, ?_⟩
          simpa using Dict.get?_mem _ _ _ hdf
    · have hnotold : ¬(c = coll ∧ id = key ∧ (f, v) ∈ oldOpt.getD []) := by
        rintro ⟨hc, hk, _⟩
        exact hck ⟨hc, hk⟩
      rw [hstoreO c id hck]
      constructor
      · rintro (⟨hm, _⟩ | ⟨hc, hk, _⟩)
        · exact (h1 c f v id).mp hm
        · exact absurd ⟨hc, hk⟩ hck
      · intro hex
        exact Or.inl ⟨(h1 c f v id).mpr hex, hnotold⟩
  · intro c id d hd
    by_cases hck : c = coll ∧ id = key
    · obtain ⟨hc, hk⟩ := hck
      subst hc
      subst hk
      rw [hstoreK] at hd
      cases newOpt with
      | none => simp at hd
      | some newd =>
        have hde : d = newd := by
          injection hd with hx
          exact hx.symm
        subst hde
        exact ⟨by simpa using hnd, by simpa using hhash⟩
    · rw [hstoreO c id hck] at hd
      exact h2 c id d hd

theorem Dict.getD_set_self {κ ν : Type} [DecidableEq κ] (d : Dict κ ν)
    (k : κ) (v dflt : ν) : Dict.getD (Dict.set d k v) k dflt = v := by
  simp [Dict.getD, Dict.get?_set_self]

theorem Dict.getD_set_ne {κ ν : Type} [DecidableEq κ] (d : Dict κ ν)
    (k k2 : κ) (v dflt : ν) (h : k2 ≠ k) :
    Dict.getD (Dict.set d k v) k2 dflt = Dict.getD d k2 dflt := by
  simp [Dict.getD, Dict.get?_set_ne _ _ _ _ h]

theorem DocumentEngine.getD_storeSet_other
    (store : Dict String (Dict PyVal Doc)) (coll c : String) (k : PyVal)
    (d : Doc) (hc : c ≠ coll) :
    Dict.getD (DocumentEngine.storeSet store coll k d) c [] =
      Dict.getD store c [] := by
  unfold DocumentEngine.storeSet
  exact Dict.getD_set_ne _ _ _ _ _ hc

theorem DocumentEngine.applySet_nodup :
    ∀ (setKvs d : Doc), (d.map Prod.fst).Nodup →
      ((DocumentEngine.applySet setKvs d).map Prod.fst).Nodup := by
  intro setKvs
  induction setKvs with
  | nil => intro d h; exact h
  | cons kv rest ih =>
    intro d h
    have hstep : DocumentEngine.applySet (kv :: rest) d =
        DocumentEngine.applySet rest (Dict.set d kv.1 kv.2) := rfl
    rw [hstep]
    exact ih _ (Dict.nodup_keys_set d kv.1 kv.2 h)

theorem DocumentEngine.removeFromIndex_hash_of_ok (coll : String)
    (key : PyVal) (doc : Doc) (st st2 : DocumentEngine.DocState)
    (h : (DocumentEngine.removeFromIndex coll key doc).run st = .ok () st2) :
    ∀ fv ∈ doc, fv.2.hashable = true := by
  unfold DocumentEngine.removeFromIndex at h
  have hinv := PyM.run_forEach_inv _ (fun fv : String × PyVal => fv.2.hashable)
    (fun fv s => { s with indexes := idxRemove1 s.indexes coll fv.1 fv.2 key })
    (fun fv s => .err .typeError s)
    (by
      intro fv s
      by_cases hfv : fv.2.hashable <;>
        simp [PyM.run_bind, PyM.run_raiseIf, PyM.run_modify, hfv])
    (by
      intro fv s
      exact ⟨.typeError, s, rfl⟩)
    doc st st2 h
  exact hinv.1

theorem DocumentEngine.addToIndex_hash_of_ok (coll : String)
    (key : PyVal) (doc : Doc) (st st2 : DocumentEngine.DocState)
    (h : (DocumentEngine.addToIndex coll key doc).run st = .ok () st2) :
    ∀ fv ∈ doc, fv.2.hashable = true := by
  unfold DocumentEngine.addToIndex at h
  have hinv := PyM.run_forEach_inv _ (fun fv : String × PyVal => fv.2.hashable)
    (fun fv s => { s with indexes := idxAdd1 s.indexes coll fv.1 fv.2 key })
    (fun fv s => .err .typeError s)
    (by
      intro fv s
      by_cases hfv : fv.2.hashable <;>
        simp [PyM.run_bind, PyM.run_raiseIf, PyM.run_modify, hfv])
    (by
      intro fv s
      exact ⟨.typeError, s, rfl⟩)
    doc st st2 h
  exact hinv.1

/-- One iteration of the UPDATE write loop, named (identical to the
lambda in `apply`). -/
def DocumentEngine.updBody (coll : String) (filt setKvs : Doc)
    (entry : PyVal × Doc) : PyM DocumentEngine.DocState Unit := do
  let b ← liftExc (matchDoc entry.2 filt)
  if b then do
    let newDoc := setKvs.foldl (fun d kv => Dict.set d kv.1 kv.2) entry.2
    PyM.modify (fun st => { st with
      store := DocumentEngine.storeSet st.store coll entry.1 newDoc })
    DocumentEngine.removeFromIndex coll entry.1 entry.2
    DocumentEngine.addToIndex coll entry.1 newDoc
  else pure ()

theorem DocumentEngine.updBody_run_ok (coll : String) (filt setKvs : Doc)
    (entry : PyVal × Doc) (st : DocumentEngine.DocState)
    (h : DocumentEngine.updOk filt setKvs entry = true) :
    (DocumentEngine.updBody coll filt setKvs entry).run st =
      .ok () (DocumentEngine.updStep coll filt setKvs entry st) :=
  DocumentEngine.run_updBody coll filt setKvs entry st h

theorem DocumentEngine.updBody_run_err (coll : String) (filt setKvs : Doc)
    (entry : PyVal × Doc)
    (h : DocumentEngine.updOk filt setKvs entry = false) :
    ∀ st : DocumentEngine.DocState, ∃ e s3,
      (DocumentEngine.updBody coll filt setKvs entry).run st = .err e s3 := by
  intro st
  cases hmd : matchDoc entry.2 filt with
  | error e =>
    exact ⟨e, st, by simp [DocumentEngine.updBody, PyM.run_bind, hmd]⟩
  | ok b =>
    cases b with
    | false => simp [DocumentEngine.updOk, hmd] at h
    | true =>
      simp only [DocumentEngine.updOk, hmd] at h
      simp only [DocumentEngine.updBody, PyM.run_bind, hmd, run_liftExc_ok,
        if_true, PyM.run_modify]
      cases hrm : (DocumentEngine.removeFromIndex coll entry.1 entry.2).run
          { st with
            store := DocumentEngine.storeSet st.store coll entry.1
                (setKvs.foldl (fun d kv => Dict.set d kv.1 kv.2) entry.2) } with
      | err e s3 => exact ⟨e, s3, by simp [hrm]⟩
      | ok u s3 =>
        cases u
        have hall1 := DocumentEngine.removeFromIndex_hash_of_ok _ _ _ _ _ hrm
        cases hadd : (DocumentEngine.addToIndex coll entry.1
            (setKvs.foldl (fun d kv => Dict.set d kv.1 kv.2) entry.2)).run
            s3 with
        | err e s4 => exact ⟨e, s4, by simp [hrm, hadd]⟩
        | ok u2 s4 =>
          exfalso
          have hall2 := DocumentEngine.addToIndex_hash_of_ok _ _ _ _ _ hadd
          have h1b : (entry.2.all fun fv => fv.2.hashable) = true :=
            List.all_eq_true.mpr (fun fv hfv => hall1 fv hfv)
          have h2b : ((DocumentEngine.applySet setKvs entry.2).all
              fun fv => fv.2.hashable) = true :=
            List.all_eq_true.mpr (fun fv hfv => hall2 fv hfv)
          rw [h1b, h2b] at h
          simp at h

theorem DocumentEngine.updStep_indexes (coll : String) (filt setKvs : Doc)
    (entry : PyVal × Doc) (s : DocumentEngine.DocState) :
    (DocumentEngine.updStep coll filt setKvs entry s).indexes =
      if DocumentEngine.matchedB filt entry then
        (DocumentEngine.applySet setKvs entry.2).foldl
          (fun ix fv => idxAdd1 ix coll fv.1 fv.2 entry.1)
          (entry.2.foldl (fun ix fv => idxRemove1 ix coll fv.1 fv.2 entry.1)
            s.indexes)
      else s.indexes := by
  by_cases hm : DocumentEngine.matchedB filt entry
  · simp only [DocumentEngine.updStep, hm, if_true,
      DocumentEngine.addFold_indexes, DocumentEngine.rmFold_indexes]
  · simp [DocumentEngine.updStep, hm]

theorem DocumentEngine.wf_updStep (coll : String) (filt setKvs : Doc)
    (entry : PyVal × Doc) (s : DocumentEngine.DocState)
    (hwf : DocumentEngine.wfState s)
    (hstored : DocumentEngine.storedDoc s coll entry.1 = some entry.2)
    (hok : DocumentEngine.updOk filt setKvs entry = true) :
    DocumentEngine.wfState (DocumentEngine.updStep coll filt setKvs entry s) := by
  by_cases hm : DocumentEngine.matchedB filt entry
  case neg =>
    simpa [DocumentEngine.updStep, hm] using hwf
  case pos =>
    have hmd : matchDoc entry.2 filt = .ok true := by
      unfold DocumentEngine.matchedB at hm
      cases h' : matchDoc entry.2 filt with
      | error e => rw [h'] at hm; simp at hm
      | ok b =>
        cases b with
        | true => rfl
        | false => rw [h'] at hm; simp at hm
    have hok2 := hok
    unfold DocumentEngine.updOk at hok2
    rw [hmd, Bool.and_eq_true, List.all_eq_true, List.all_eq_true] at hok2
    obtain ⟨hhold, hhnew⟩ := hok2
    obtain ⟨h1, h2, h3⟩ := hwf
    have hondup := (h2 coll entry.1 entry.2 hstored).1
    have hstore := DocumentEngine.updStep_store coll filt setKvs entry s
    rw [if_pos hm] at hstore
    have hix := DocumentEngine.updStep_indexes coll filt setKvs entry s
    rw [if_pos hm] at hix
    refine DocumentEngine.wf_writeAt s _ coll entry.1 (some entry.2)
      (some (DocumentEngine.applySet setKvs entry.2)) ⟨h1, h2, h3⟩ hstored
      ?_ ?_ ?_ ?_ ?_ ?_
    · simpa using DocumentEngine.applySet_nodup setKvs entry.2 hondup
    · simpa using fun fv hfv => hhnew fv hfv
    · unfold DocumentEngine.storedDoc
      rw [hstore, DocumentEngine.getD_storeSet_self, Dict.get?_set_self]
    · intro c id hcid
      unfold DocumentEngine.storedDoc
      rw [hstore]
      by_cases hc : c = coll
      · subst hc
        have hid : id ≠ entry.1 := fun hx => hcid ⟨rfl, hx⟩
        rw [DocumentEngine.getD_storeSet_self, Dict.get?_set_ne _ _ _ _ hid]
      · rw [DocumentEngine.getD_storeSet_other _ _ _ _ _ hc]
    · intro c f v id
      show id ∈ getIdx
        (DocumentEngine.updStep coll filt setKvs entry s).indexes c f v ↔ _
      rw [hix, mem_addFoldIdx, mem_rmFoldIdx]
      simp only [Option.getD_some]
      exact Iff.rfl
    · intro c
      rw [hstore]
      by_cases hc : c = coll
      · subst hc
        rw [DocumentEngine.getD_storeSet_self]
        exact Dict.nodup_keys_set _ _ _ (h3 c)
      · rw [DocumentEngine.getD_storeSet_other _ _ _ _ _ hc]
        exact h3 c

theorem DocumentEngine.updFold_wf (coll : String) (filt setKvs : Doc) :
    ∀ (entries : List (PyVal × Doc)) (s : DocumentEngine.DocState),
      DocumentEngine.wfState s →
      (∀ e ∈ entries, DocumentEngine.storedDoc s coll e.1 = some e.2) →
      ((entries.map Prod.fst).Nodup) →
      (∀ e ∈ entries, DocumentEngine.updOk filt setKvs e = true) →
      DocumentEngine.wfState (entries.foldl
        (fun s e => DocumentEngine.updStep coll filt setKvs e s) s) := by
  intro entries
  induction entries with
  | nil => intro s hwf _ _ _; exact hwf
  | cons e rest ih =>
    intro s hwf hstored hnd hok
    rw [List.foldl_cons]
    simp only [List.map_cons, List.nodup_cons] at hnd
    refine ih _ (DocumentEngine.wf_updStep coll filt setKvs e s hwf
      (hstored e (List.mem_cons_self _ _)) (hok e (List.mem_cons_self _ _)))
      ?_ hnd.2 (fun x hx => hok x (List.mem_cons_of_mem _ hx))
    intro e2 he2
    have hne : e2.1 ≠ e.1 := by
      intro hx
      exact hnd.1 (hx ▸ List.mem_map_of_mem Prod.fst he2)
    rw [← hstored e2 (List.mem_cons_of_mem _ he2)]
    unfold DocumentEngine.storedDoc
    rw [DocumentEngine.updStep_store]
    by_cases hmm : DocumentEngine.matchedB filt e
    · rw [if_pos hmm, DocumentEngine.getD_storeSet_self,
        Dict.get?_set_ne _ _ _ _ hne]
    · rw [if_neg hmm]

theorem DocumentEngine.idxIds_getIdx (s : DocumentEngine.DocState)
    (c f : String) (v : PyVal) :
    DocumentEngine.idxIds s c f v = getIdx s.indexes c f v := rfl

theorem DocumentEngine.wf_apply_insert (coll : String) (doc : Doc)
    (st st2 : DocumentEngine.DocState)
    (hnd : (doc.map Prod.fst).Nodup)
    (hwf : DocumentEngine.wfState st)
    (h : (DocumentEngine.apply (.insertOp coll doc)).run st = .ok () st2) :
    DocumentEngine.wfState st2 := by
  have hwf1 := DocumentEngine.wf_setdefault st coll hwf
  simp only [DocumentEngine.apply, PyM.run_bind, PyM.run_modify] at h
  set st1 : DocumentEngine.DocState := { st with
    store := Dict.setdefault st.store coll [],
    indexes := Dict.setdefault st.indexes coll [] } with hst1
  set k0 : PyVal := Dict.getD doc "_id" PyVal.vnone with hk0
  by_cases hkey : k0 = PyVal.vnone
  · rw [if_pos hkey] at h
    simp only [PyM.run_pure, PyResult.ok.injEq, true_and] at h
    rw [← h]
    exact hwf1
  · rw [if_neg hkey] at h
    by_cases hh : k0.hashable
    case neg =>
      simp [PyM.run_bind, PyM.run_raiseIf, hh] at h
    case pos =>
      simp only [PyM.run_bind, PyM.run_raiseIf, hh, Bool.not_true,
        Bool.false_eq_true, if_false, PyM.run_read] at h
      cases hlook : Dict.get? (Dict.getD st1.store coll []) k0 with
      | some old =>
        have holdfacts := hwf1.2.1 coll k0 old hlook
        have hrm := DocumentEngine.run_removeFromIndex coll k0 old st1
          (fun fv hfv => holdfacts.2 fv hfv)
        rw [hlook] at h
        simp only [hrm, PyM.run_bind, PyM.run_modify] at h
        have hdhash := DocumentEngine.addToIndex_hash_of_ok _ _ _ _ _ h
        have hadd : ∀ s : DocumentEngine.DocState,
            (DocumentEngine.addToIndex coll k0 doc).run s =
              .ok () (doc.foldl (fun s fv =>
                { s with indexes := idxAdd1 s.indexes coll fv.1 fv.2 k0 }) s) :=
          fun s => DocumentEngine.run_addToIndex coll k0 doc s hdhash
        rw [hadd] at h
        cases h
        refine DocumentEngine.wf_writeAt st1 _ coll k0 (some old) (some doc)
          hwf1 hlook ?_ ?_ ?_ ?_ ?_ ?_
        · simpa using hnd
        · simpa using fun fv hfv => hdhash fv hfv
        · unfold DocumentEngine.storedDoc
          simp only [DocumentEngine.addFold_store, DocumentEngine.rmFold_store,
            DocumentEngine.getD_storeSet_self, Dict.get?_set_self]
        · intro c id hcid
          unfold DocumentEngine.storedDoc
          simp only [DocumentEngine.addFold_store, DocumentEngine.rmFold_store]
          by_cases hc : c = coll
          · subst hc
            have hid : id ≠ k0 := fun hx => hcid ⟨rfl, hx⟩
            rw [DocumentEngine.getD_storeSet_self,
              Dict.get?_set_ne _ _ _ _ hid]
          · rw [DocumentEngine.getD_storeSet_other _ _ _ _ _ hc]
        · intro c f v id
          rw [DocumentEngine.idxIds_getIdx, DocumentEngine.idxIds_getIdx]
          simp only [DocumentEngine.addFold_indexes,
            DocumentEngine.rmFold_indexes]
          rw [mem_addFoldIdx, mem_rmFoldIdx]
          simp only [Option.getD_some]
        · intro c
          simp only [DocumentEngine.addFold_store, DocumentEngine.rmFold_store]
          by_cases hc : c = coll
          · subst hc
            rw [DocumentEngine.getD_storeSet_self]
            exact Dict.nodup_keys_set _ _ _ (hwf1.2.2 c)
          · rw [DocumentEngine.getD_storeSet_other _ _ _ _ _ hc]
            exact hwf1.2.2 c
      | none =>
        rw [hlook] at h
        simp only [PyM.run_bind, PyM.run_pure, PyM.run_modify] at h
        have hdhash := DocumentEngine.addToIndex_hash_of_ok _ _ _ _ _ h
        have hadd : ∀ s : DocumentEngine.DocState,
            (DocumentEngine.addToIndex coll k0 doc).run s =
              .ok () (doc.foldl (fun s fv =>
                { s with indexes := idxAdd1 s.indexes coll fv.1 fv.2 k0 }) s) :=
          fun s => DocumentEngine.run_addToIndex coll k0 doc s hdhash
        rw [hadd] at h
        cases h
        refine DocumentEngine.wf_writeAt st1 _ coll k0 none (some doc)
          hwf1 hlook ?_ ?_ ?_ ?_ ?_ ?_
        · simpa using hnd
        · simpa using fun fv hfv => hdhash fv hfv
        · unfold DocumentEngine.storedDoc
          simp only [DocumentEngine.addFold_store,
            DocumentEngine.getD_storeSet_self, Dict.get?_set_self]
        · intro c id hcid
          unfold DocumentEngine.storedDoc
          simp only [DocumentEngine.addFold_store]
          by_cases hc : c = coll
          · subst hc
            have hid : id ≠ k0 := fun hx => hcid ⟨rfl, hx⟩
            rw [DocumentEngine.getD_storeSet_self,
              Dict.get?_set_ne _ _ _ _ hid]
          · rw [DocumentEngine.getD_storeSet_other _ _ _ _ _ hc]
        · intro c f v id
          rw [DocumentEngine.idxIds_getIdx, DocumentEngine.idxIds_getIdx]
          simp only [DocumentEngine.addFold_indexes]
          rw [mem_addFoldIdx]
          simp
        · intro c
          simp only [DocumentEngine.addFold_store]
          by_cases hc : c = coll
          · subst hc
            rw [DocumentEngine.getD_storeSet_self]
            exact Dict.nodup_keys_set _ _ _ (hwf1.2.2 c)
          · rw [DocumentEngine.getD_storeSet_other _ _ _ _ _ hc]
            exact hwf1.2.2 c

theorem DocumentEngine.wf_apply_update (coll : String) (filt changes : Doc)
    (st st2 : DocumentEngine.DocState)
    (hwf : DocumentEngine.wfState st)
    (h : (DocumentEngine.apply (.updateOp coll filt changes)).run st =
      .ok () st2) :
    DocumentEngine.wfState st2 := by
  have hwf1 := DocumentEngine.wf_setdefault st coll hwf
  simp only [DocumentEngine.apply, PyM.run_bind, PyM.run_modify] at h
  set st1 : DocumentEngine.DocState := { st with
    store := Dict.setdefault st.store coll [],
    indexes := Dict.setdefault st.indexes coll [] } with hst1
  cases hset : Dict.get? changes "$set" with
  | none =>
    rw [hset] at h
    simp only [PyM.run_pure, PyResult.ok.injEq, true_and] at h
    rw [← h]
    exact hwf1
  | some sv =>
    cases sv with
    | vdict setKvs =>
      rw [hset] at h
      simp only [PyM.run_bind, PyM.run_read] at h
      have hinv := PyM.run_forEach_inv _
        (DocumentEngine.updOk filt setKvs)
        (DocumentEngine.updStep coll filt setKvs)
        (fun x s => if DocumentEngine.updOk filt setKvs x = true then
            PyResult.err PyErr.typeError s
          else (DocumentEngine.updBody coll filt setKvs x).run s)
        (by
          intro x s
          by_cases hx : DocumentEngine.updOk filt setKvs x
          · simp only [hx, if_true]
            exact DocumentEngine.updBody_run_ok coll filt setKvs x s hx
          · simp only [hx, Bool.false_eq_true, if_false]
            rfl)
        (by
          intro x s
          by_cases hx : DocumentEngine.updOk filt setKvs x
          · exact ⟨.typeError, s, by simp [hx]⟩
          · obtain ⟨e, s3, he⟩ := DocumentEngine.updBody_run_err coll filt
              setKvs x (Bool.eq_false_iff.mpr hx) s
            exact ⟨e, s3, by simp [hx, he]⟩)
        (Dict.getD st1.store coll []) st1 st2 h
      obtain ⟨hok, hfold⟩ := hinv
      subst hfold
      refine DocumentEngine.updFold_wf coll filt setKvs _ st1 hwf1 ?_
        (hwf1.2.2 coll) hok
      intro e he
      exact Dict.get?_eq_of_mem_nodup _ (hwf1.2.2 coll) e he
    | vnone => rw [hset] at h; simp [PyM.run_throw] at h
    | vbool b => rw [hset] at h; simp [PyM.run_throw] at h
    | vint n => rw [hset] at h; simp [PyM.run_throw] at h
    | vstr s2 => rw [hset] at h; simp [PyM.run_throw] at h
    | vlist xs => rw [hset] at h; simp [PyM.run_throw] at h

theorem filterExc_sublist {α : Type} (p : α → Except PyErr Bool) :
    ∀ (xs ys : List α), filterExc p xs = .ok ys → List.Sublist ys xs := by
  intro xs
  induction xs with
  | nil =>
    intro ys h
    simp only [filterExc, Except.ok.injEq] at h
    rw [← h]
  | cons x rest ih =>
    intro ys h
    simp only [filterExc] at h
    cases hb : p x with
    | error e => rw [hb] at h; simp at h
    | ok b =>
      rw [hb] at h
      cases hrest : filterExc p rest with
      | error e => rw [hrest] at h; simp at h
      | ok zs =>
        rw [hrest] at h
        simp only [exceptBind_ok, Except.ok.injEq] at h
        rw [← h]
        cases b with
        | true =>
          simp only [if_true]
          exact List.Sublist.cons₂ x (ih zs hrest)
        | false =>
          simp only [Bool.false_eq_true, if_false]
          exact List.Sublist.cons x (ih zs hrest)

theorem run_liftExc_ok_inv {α : Type} (x : Except PyErr α) (st st2 : σ)
    (a : α) (h : (liftExc (σ := σ) x).run st = .ok a st2) :
    x = .ok a ∧ st2 = st := by
  cases x with
  | ok b =>
    simp only [run_liftExc_ok, PyResult.ok.injEq] at h
    exact ⟨by rw [h.1], h.2.symm⟩
  | error e => simp at h

theorem DocumentEngine.wf_delete_loop (coll : String) :
    ∀ (entries : List (PyVal × Doc)) (s s2 : DocumentEngine.DocState),
      DocumentEngine.wfState s →
      (∀ e ∈ entries, DocumentEngine.storedDoc s coll e.1 = some e.2) →
      ((entries.map Prod.fst).Nodup) →
      (PyM.forEach entries (fun entry => do
        let st ← PyM.read
        match Dict.get? (Dict.getD st.store coll []) entry.1 with
        | some old => DocumentEngine.removeFromIndex coll entry.1 old
        | none => PyM.throw .keyError
        PyM.modify (fun st => { st with
          store := Dict.set st.store coll
            (Dict.erase (Dict.getD st.store coll []) entry.1) }))).run s =
        .ok () s2 →
      DocumentEngine.wfState s2 := by
  intro entries
  induction entries with
  | nil =>
    intro s s2 hwf _ _ h
    simp only [PyM.forEach_nil, PyM.run_pure, PyResult.ok.injEq,
      true_and] at h
    rw [← h]
    exact hwf
  | cons e rest ih =>
    intro s s2 hwf hstored hnd h
    simp only [PyM.forEach_cons, PyM.run_bind, PyM.run_read] at h
    have hlook : Dict.get? (Dict.getD s.store coll []) e.1 = some e.2 :=
      hstored e (List.mem_cons_self _ _)
    rw [hlook] at h
    have hefacts := hwf.2.1 coll e.1 e.2 (hstored e (List.mem_cons_self _ _))
    have hrm := DocumentEngine.run_removeFromIndex coll e.1 e.2 s
      (fun fv hfv => hefacts.2 fv hfv)
    simp only [hrm, PyM.run_bind, PyM.run_modify] at h
    simp only [List.map_cons, List.nodup_cons] at hnd
    refine ih _ s2 ?_ ?_ hnd.2 h
    · refine DocumentEngine.wf_writeAt s _ coll e.1 (some e.2) none hwf
        (hstored e (List.mem_cons_self _ _)) (by simp) (by simp) ?_ ?_ ?_ ?_
      · unfold DocumentEngine.storedDoc
        simp only [DocumentEngine.rmFold_store, Dict.getD_set_self]
        exact Dict.get?_erase_self _ _
      · intro c id hcid
        unfold DocumentEngine.storedDoc
        simp only [DocumentEngine.rmFold_store]
        by_cases hc : c = coll
        · subst hc
          have hid : id ≠ e.1 := fun hx => hcid ⟨rfl, hx⟩
          rw [Dict.getD_set_self]
          exact Dict.get?_erase_ne _ _ _ hid
        · rw [Dict.getD_set_ne _ _ _ _ _ hc]
      · intro c f v id
        rw [DocumentEngine.idxIds_getIdx, DocumentEngine.idxIds_getIdx]
        simp only [DocumentEngine.rmFold_indexes]
        rw [mem_rmFoldIdx]
        simp
      · intro c
        simp only [DocumentEngine.rmFold_store]
        by_cases hc : c = coll
        · subst hc
          rw [Dict.getD_set_self]
          exact Dict.nodup_keys_erase _ _ (hwf.2.2 c)
        · rw [Dict.getD_set_ne _ _ _ _ _ hc]
          exact hwf.2.2 c
    · intro e2 he2
      have hne : e2.1 ≠ e.1 := fun hx =>
        hnd.1 (hx ▸ List.mem_map_of_mem Prod.fst he2)
      rw [← hstored e2 (List.mem_cons_of_mem _ he2)]
      unfold DocumentEngine.storedDoc
      simp only [DocumentEngine.rmFold_store]
      rw [Dict.getD_set_self]
      exact Dict.get?_erase_ne _ _ _ hne

theorem DocumentEngine.wf_delete_core (coll : String)
    (p : PyVal × Doc → Except PyErr Bool)
    (st1 st2 : DocumentEngine.DocState) (toRemove : List (PyVal × Doc))
    (hwf1 : DocumentEngine.wfState st1)
    (hfe : filterExc p (Dict.getD st1.store coll []) = .ok toRemove)
    (h : (PyM.forEach toRemove (fun entry => do
        let st ← PyM.read
        match Dict.get? (Dict.getD st.store coll []) entry.1 with
        | some old => DocumentEngine.removeFromIndex coll entry.1 old
        | none => PyM.throw .keyError
        PyM.modify (fun st => { st with
          store := Dict.set st.store coll
            (Dict.erase (Dict.getD st.store coll []) entry.1) }))).run st1 =
      .ok () st2) :
    DocumentEngine.wfState st2 := by
  have hsub := filterExc_sublist p _ _ hfe
  refine DocumentEngine.wf_delete_loop coll toRemove st1 st2 hwf1 ?_ ?_ h
  · intro e he
    exact Dict.get?_eq_of_mem_nodup _ (hwf1.2.2 coll) e (hsub.subset he)
  · exact List.Nodup.sublist (List.Sublist.map Prod.fst hsub) (hwf1.2.2 coll)

theorem DocumentEngine.wf_apply_delete (coll : String) (keyOrFilt : PyVal)
    (st st2 : DocumentEngine.DocState)
    (hwf : DocumentEngine.wfState st)
    (h : (DocumentEngine.apply (.deleteOp coll keyOrFilt)).run st =
      .ok () st2) :
    DocumentEngine.wfState st2 := by
  have hwf1 := DocumentEngine.wf_setdefault st coll hwf
  simp only [DocumentEngine.apply, PyM.run_bind, PyM.run_modify,
    PyM.run_read] at h
  set st1 : DocumentEngine.DocState := { st with
    store := Dict.setdefault st.store coll [],
    indexes := Dict.setdefault st.indexes coll [] } with hst1
  split at h
  · next a s' heq =>
    obtain ⟨hfe, hs⟩ := run_liftExc_ok_inv _ _ _ _ heq
    subst hs
    exact DocumentEngine.wf_delete_core coll _ st1 st2 a hwf1 hfe h
  · next e s' heq =>
    simp at h

theorem DocumentEngine.wf_apply (op : DocumentEngine.DocOp)
    (st st2 : DocumentEngine.DocState)
    (hwf : DocumentEngine.wfState st) (hop : DocumentEngine.opWF op)
    (h : (DocumentEngine.apply op).run st = .ok () st2) :
    DocumentEngine.wfState st2 := by
  cases op with
  | insertOp coll doc =>
    exact DocumentEngine.wf_apply_insert coll doc st st2 hop hwf h
  | updateOp coll filt changes =>
    exact DocumentEngine.wf_apply_update coll filt changes st st2 hwf h
  | deleteOp coll keyOrFilt =>
    exact DocumentEngine.wf_apply_delete coll keyOrFilt st st2 hwf h

theorem DocumentEngine.wf_ops :
    ∀ (ops : List DocumentEngine.DocOp)
      (st st2 : DocumentEngine.DocState),
      DocumentEngine.wfState st →
      (∀ op ∈ ops, DocumentEngine.opWF op) →
      (PyM.forEach ops DocumentEngine.apply).run st = .ok () st2 →
      DocumentEngine.wfState st2 := by
  intro ops
  induction ops with
  | nil =>
    intro st st2 hwf _ h
    simp only [PyM.forEach_nil, PyM.run_pure, PyResult.ok.injEq,
      true_and] at h
    rw [← h]
    exact hwf
  | cons op rest ih =>
    intro st st2 hwf hops h
    simp only [PyM.forEach_cons, PyM.run_bind] at h
    cases hop : (DocumentEngine.apply op).run st with
    | ok u s3 =>
      cases u
      rw [hop] at h
      simp only at h
      exact ih s3 st2
        (DocumentEngine.wf_apply op st s3 hwf
          (hops op (List.mem_cons_self _ _)) hop)
        (fun x hx => hops x (List.mem_cons_of_mem _ hx)) h
    | err e s3 =>
      rw [hop] at h
      simp at h

/-- C2 counterexample (column engine): `put {a:1}` then `put {b:2}` on
the same row.  The overwrite's stale-entry pass drops the index entry of
**every** currently stored column for that row id — including column
`a`, which the merge then keeps in the primary store — so the retained
fact `(a, 1, "r")` is left with no index entry: the index is not an
exact view of the primary state. -/
theorem c2_column_overwrite_counterexample :
    ∃ st1 st2 : ColumnEngine.ColState,
      (ColumnEngine.put false "t" (PyVal.vstr "r")
        [("a", PyVal.vint 1)]).run ColumnEngine.initState = .ok () st1 ∧
      (ColumnEngine.put false "t" (PyVal.vstr "r")
        [("b", PyVal.vint 2)]).run st1 = .ok () st2 ∧
      ColumnEngine.storedVal st2 "t" "a" (PyVal.vstr "r") =
        some (PyVal.vint 1) ∧
      (PyVal.vstr "r") ∉ ColumnEngine.idxIds st2 "t" "a" (PyVal.vint 1) := by
  refine ⟨_, _, rfl, rfl, ?_, ?_⟩
  · rfl
  · decide

/-- C2 amended: the exactness claim holds for the **document** engine:
after any successfully replayed sequence of INSERT / UPDATE / DELETE
records (each built from a Python dict, hence with duplicate-free keys)
starting from a fresh engine, a `(field, value, id)` triple is in the
secondary index iff the stored document with that id holds that value
at that field.  (The column engine violates exactness on overwrite —
see the counterexample — because its stale-entry pass also deletes the
index entries of columns the merge retains.) -/
theorem c2_document_index_exact (ops : List DocumentEngine.DocOp)
    (st2 : DocumentEngine.DocState)
    (hops : ∀ op ∈ ops, DocumentEngine.opWF op)
    (hrun : (PyM.forEach ops DocumentEngine.apply).run
      DocumentEngine.initState = .ok () st2) :
    ∀ (coll f : String) (v id : PyVal),
      id ∈ DocumentEngine.idxIds st2 coll f v ↔
        ∃ d, DocumentEngine.storedDoc st2 coll id = some d ∧
          Dict.get? d f = some v :=
  (DocumentEngine.wf_ops ops DocumentEngine.initState st2
    DocumentEngine.wf_init hops hrun).1

/-- Witness for `c2_document_index_exact`: insert `{_id: a, x: 1}` then
overwrite with `{_id: a, x: 2}`; exactness holds at the slot
`(x, 2, a)` of the final state. -/
theorem c2_document_index_exact_witness :
    ∃ st2, (PyM.forEach
        [DocumentEngine.DocOp.insertOp "c"
          [("_id", PyVal.vstr "a"), ("x", PyVal.vint 1)],
         DocumentEngine.DocOp.insertOp "c"
          [("_id", PyVal.vstr "a"), ("x", PyVal.vint 2)]]
        DocumentEngine.apply).run DocumentEngine.initState = .ok () st2 ∧
      ((PyVal.vstr "a") ∈ DocumentEngine.idxIds st2 "c" "x" (PyVal.vint 2) ↔
        ∃ d, DocumentEngine.storedDoc st2 "c" (PyVal.vstr "a") = some d ∧
          Dict.get? d "x" = some (PyVal.vint 2)) := by
  refine ⟨_, rfl, ?_⟩
  have hops : ∀ op ∈ [DocumentEngine.DocOp.insertOp "c"
      [("_id", PyVal.vstr "a"), ("x", PyVal.vint 1)],
    DocumentEngine.DocOp.insertOp "c"
      [("_id", PyVal.vstr "a"), ("x", PyVal.vint 2)]],
      DocumentEngine.opWF op := by
    intro op hop
    rcases List.mem_cons.mp hop with rfl | hop2
    · show (([("_id", PyVal.vstr "a"), ("x", PyVal.vint 1)] : Doc).map
        Prod.fst).Nodup
      decide
    rcases List.mem_cons.mp hop2 with rfl | hop3
    · show (([("_id", PyVal.vstr "a"), ("x", PyVal.vint 2)] : Doc).map
        Prod.fst).Nodup
      decide
    · exact absurd hop3 (List.not_mem_nil op)
  exact c2_document_index_exact _ _ hops rfl "c" "x" (PyVal.vint 2)
    (PyVal.vstr "a")

/-! ## C3 — graph adjacency invariants -/

theorem Dict.get?_eq_none_of_hasKey_false {κ ν : Type} [DecidableEq κ]
    (d : Dict κ ν) (k : κ) (h : Dict.hasKey d k = false) :
    Dict.get? d k = none := by
  unfold Dict.hasKey at h
  cases hg : Dict.get? d k with
  | none => rfl
  | some v => rw [hg] at h; simp at h

theorem Dict.getD_setdefault_same {κ ν : Type} [DecidableEq κ]
    (d : Dict κ ν) (k k2 : κ) (v0 : ν) :
    Dict.getD (Dict.setdefault d k v0) k2 v0 = Dict.getD d k2 v0 := by
  by_cases hk : Dict.hasKey d k
  · rw [Dict.getD, Dict.getD, Dict.get?_setdefault_present d k k2 v0 hk]
  · rw [Dict.getD, Dict.getD,
      Dict.get?_setdefault_absent d k k2 v0 (by simpa using hk)]
    by_cases h2 : k2 = k
    · subst h2
      rw [Dict.get?_eq_none_of_hasKey_false d k2 (by simpa using hk)]
      simp
    · rw [if_neg h2]

theorem Dict.get?_setdefault_of_some {κ ν : Type} [DecidableEq κ]
    (d : Dict κ ν) (k n : κ) (v a : ν) (h : Dict.get? d n = some a) :
    Dict.get? (Dict.setdefault d k v) n = some a := by
  by_cases hk : Dict.hasKey d k
  · rw [Dict.get?_setdefault_present _ _ _ _ hk]
    exact h
  · rw [Dict.get?_setdefault_absent _ _ _ _ (by simpa using hk)]
    by_cases hn : n = k
    · subst hn
      rw [Dict.get?_eq_none_of_hasKey_false d n (by simpa using hk)] at h
      exact absurd h (by simp)
    · rw [if_neg hn]
      exact h

/-- "Edge `e` is registered in node `n`'s outgoing set." -/
def GraphEngine.adjoutP (st : GraphEngine.GraphState) (g : String)
    (n e : PyVal) : Prop :=
  ∃ a, GraphEngine.adjOf st g n = some a ∧ e ∈ a.outgoing

/-- "Edge `e` is registered in node `n`'s incoming set." -/
def GraphEngine.adjinP (st : GraphEngine.GraphState) (g : String)
    (n e : PyVal) : Prop :=
  ∃ a, GraphEngine.adjOf st g n = some a ∧ e ∈ a.incoming

/-- The adjacency invariant the graph engine maintains: every stored
edge whose `from` and `to` are truthy has both endpoints present as
adjacency keys, with the edge id in the `from` node's outgoing set and
the `to` node's incoming set. -/
def GraphEngine.edgeAdjInv (st : GraphEngine.GraphState) : Prop :=
  ∀ (g : String) (eid : PyVal) (ed : Doc),
    Dict.get? (GraphEngine.graphOf st g).edges eid = some ed →
    (Dict.getD ed "from" PyVal.vnone).truthy = true →
    (Dict.getD ed "to" PyVal.vnone).truthy = true →
    GraphEngine.adjoutP st g (Dict.getD ed "from" PyVal.vnone) eid ∧
    GraphEngine.adjinP st g (Dict.getD ed "to" PyVal.vnone) eid

theorem GraphEngine.adjOf_setAdj (st : GraphEngine.GraphState)
    (g0 : String) (n0 : PyVal) (anew : GraphEngine.AdjEntry)
    (g : String) (n : PyVal) :
    GraphEngine.adjOf (GraphEngine.setAdj st g0 n0 anew) g n =
      if g = g0 then
        (if n = n0 then some anew
         else Dict.get? (Dict.getD st.adjacency g0 []) n)
      else GraphEngine.adjOf st g n := by
  unfold GraphEngine.adjOf GraphEngine.setAdj
  by_cases hg : g = g0
  · subst hg
    rw [if_pos rfl, Dict.getD_set_self]
    by_cases hn : n = n0
    · subst hn
      rw [if_pos rfl, Dict.get?_set_self]
    · rw [if_neg hn, Dict.get?_set_ne _ _ _ _ hn]
  · rw [if_neg hg, Dict.getD_set_ne _ _ _ _ _ hg]

theorem GraphEngine.store_setAdj (st : GraphEngine.GraphState)
    (g0 : String) (n0 : PyVal) (anew : GraphEngine.AdjEntry) :
    (GraphEngine.setAdj st g0 n0 anew).store = st.store := rfl

theorem GraphEngine.run_adjacencyModify_ok (g : String) (n : PyVal)
    (f : GraphEngine.AdjEntry → GraphEngine.AdjEntry)
    (st st2 : GraphEngine.GraphState)
    (h : (GraphEngine.adjacencyModify g n f).run st = .ok () st2) :
    ∃ a, GraphEngine.adjOf st g n = some a ∧
      st2 = GraphEngine.setAdj st g n (f a) := by
  unfold GraphEngine.adjacencyModify at h
  simp only [PyM.run_bind, PyM.run_read] at h
  cases ha : GraphEngine.adjOf st g n with
  | none => rw [ha] at h; simp [PyM.run_throw] at h
  | some a =>
    rw [ha] at h
    simp only [PyM.run_write, PyResult.ok.injEq, true_and] at h
    exact ⟨a, rfl, h.symm⟩

theorem GraphEngine.saLoop_preserves {α : Type}
    (body : α → PyM GraphEngine.GraphState Unit)
    (hbody : ∀ x st st2, (body x).run st = .ok () st2 →
      st2.store = st.store ∧ st2.adjacency = st.adjacency) :
    ∀ (xs : List α) (st st2 : GraphEngine.GraphState),
      (PyM.forEach xs body).run st = .ok () st2 →
      st2.store = st.store ∧ st2.adjacency = st.adjacency := by
  intro xs
  induction xs with
  | nil =>
    intro st st2 h
    simp only [PyM.forEach_nil, PyM.run_pure, PyResult.ok.injEq,
      true_and] at h
    rw [← h]
    exact ⟨rfl, rfl⟩
  | cons x rest ih =>
    intro st st2 h
    simp only [PyM.forEach_cons, PyM.run_bind] at h
    cases hx : (body x).run st with
    | ok u s3 =>
      cases u
      rw [hx] at h
      simp only at h
      obtain ⟨h1, h2⟩ := hbody x st s3 hx
      obtain ⟨h3, h4⟩ := ih s3 st2 h
      exact ⟨h3.trans h1, h4.trans h2⟩
    | err e s3 => rw [hx] at h; simp at h

theorem GraphEngine.inv_setdefault (st : GraphEngine.GraphState)
    (g : String) (h : GraphEngine.edgeAdjInv st) :
    GraphEngine.edgeAdjInv { st with
      store := Dict.setdefault st.store g GraphEngine.emptyGraph,
      nodeIndexes := Dict.setdefault st.nodeIndexes g [],
      edgeIndexes := Dict.setdefault st.edgeIndexes g [],
      adjacency := Dict.setdefault st.adjacency g [] } := by
  intro g' eid ed hed hf ht
  have hed2 : Dict.get? (GraphEngine.graphOf st g').edges eid = some ed := by
    have : GraphEngine.graphOf { st with
        store := Dict.setdefault st.store g GraphEngine.emptyGraph,
        nodeIndexes := Dict.setdefault st.nodeIndexes g [],
        edgeIndexes := Dict.setdefault st.edgeIndexes g [],
        adjacency := Dict.setdefault st.adjacency g [] } g' =
        GraphEngine.graphOf st g' := by
      unfold GraphEngine.graphOf
      exact Dict.getD_setdefault_same _ _ _ _
    rw [this] at hed
    exact hed
  have hadj : ∀ n : PyVal, GraphEngine.adjOf { st with
      store := Dict.setdefault st.store g GraphEngine.emptyGraph,
      nodeIndexes := Dict.setdefault st.nodeIndexes g [],
      edgeIndexes := Dict.setdefault st.edgeIndexes g [],
      adjacency := Dict.setdefault st.adjacency g [] } g' n =
      GraphEngine.adjOf st g' n := by
    intro n
    unfold GraphEngine.adjOf
    rw [Dict.getD_setdefault_nil]
  obtain ⟨⟨a1, ha1, hm1⟩, ⟨a2, ha2, hm2⟩⟩ := h g' eid ed hed2 hf ht
  exact ⟨⟨a1, by rw [hadj]; exact ha1, hm1⟩,
    ⟨a2, by rw [hadj]; exact ha2, hm2⟩⟩

theorem GraphEngine.inv_apply_addNode (g : String) (nodeId : PyVal)
    (nodeData : Doc) (st st2 : GraphEngine.GraphState)
    (hinv : GraphEngine.edgeAdjInv st)
    (h : (GraphEngine.apply (.addNode g nodeId nodeData)).run st =
      .ok () st2) :
    GraphEngine.edgeAdjInv st2 := by
  simp only [GraphEngine.apply, PyM.run_bind, PyM.run_modify,
    PyM.run_raiseIf] at h
  by_cases hh : nodeId.hashable
  case neg => simp [hh] at h
  case pos =>
    simp only [hh, Bool.not_true, Bool.false_eq_true, if_false,
      PyM.run_read] at h
    set st1 : GraphEngine.GraphState := { st with
      store := Dict.setdefault st.store g GraphEngine.emptyGraph,
      nodeIndexes := Dict.setdefault st.nodeIndexes g [],
      edgeIndexes := Dict.setdefault st.edgeIndexes g [],
      adjacency := Dict.setdefault st.adjacency g [] } with hst1
    have hinv1 := GraphEngine.inv_setdefault st g hinv
    have hbodyRm : ∀ (x : String × PyVal) (s s2 : GraphEngine.GraphState),
        ((do
          PyM.raiseIf (!x.2.hashable) .typeError
          PyM.modify (fun st => { st with
            nodeIndexes := idxRemove1 st.nodeIndexes g x.1 x.2 nodeId })) :
          PyM GraphEngine.GraphState Unit).run s = .ok () s2 →
        s2.store = s.store ∧ s2.adjacency = s.adjacency := by
      intro x s s2 hx
      by_cases hxh : x.2.hashable
      · simp only [PyM.run_bind, PyM.run_raiseIf, hxh, Bool.not_true,
          Bool.false_eq_true, if_false, PyM.run_modify,
          PyResult.ok.injEq, true_and] at hx
        rw [← hx]
        exact ⟨rfl, rfl⟩
      · simp [PyM.run_bind, PyM.run_raiseIf, hxh] at hx
    have hbodyAdd : ∀ (x : String × PyVal) (s s2 : GraphEngine.GraphState),
        ((do
          PyM.raiseIf (!x.2.hashable) .typeError
          PyM.modify (fun st => { st with
            nodeIndexes := idxAdd1 st.nodeIndexes g x.1 x.2 nodeId })) :
          PyM GraphEngine.GraphState Unit).run s = .ok () s2 →
        s2.store = s.store ∧ s2.adjacency = s.adjacency := by
      intro x s s2 hx
      by_cases hxh : x.2.hashable
      · simp only [PyM.run_bind, PyM.run_raiseIf, hxh, Bool.not_true,
          Bool.false_eq_true, if_false, PyM.run_modify,
          PyResult.ok.injEq, true_and] at hx
        rw [← hx]
        exact ⟨rfl, rfl⟩
      · simp [PyM.run_bind, PyM.run_raiseIf, hxh] at hx
    cases hold : Dict.get? (GraphEngine.graphOf st1 g).nodes nodeId with
    | some old =>
      simp only [hold, PyM.run_bind, PyM.run_modify] at h
      split at h
      · next u sa heqrm =>
        cases u
        obtain ⟨hsa_s, hsa_a⟩ :=
          GraphEngine.saLoop_preserves _ hbodyRm old st1 sa heqrm
        split at h
        · next u2 sb heqadd =>
          cases u2
          obtain ⟨hsb_s, hsb_a⟩ :=
            GraphEngine.saLoop_preserves _ hbodyAdd nodeData _ _ heqadd
          simp only [PyM.run_modify, PyResult.ok.injEq, true_and] at h
          rw [← h]
          intro g' eid ed hed hf ht
          have hG : ∀ g2 : String,
              (GraphEngine.graphOf sb g2).edges =
              (GraphEngine.graphOf st1 g2).edges := by
            intro g2
            unfold GraphEngine.graphOf
            rw [hsb_s]
            show (Dict.getD (Dict.set sa.store g _) g2
              GraphEngine.emptyGraph).edges = _
            by_cases hg2 : g2 = g
            · subst hg2
              rw [Dict.getD_set_self]
              show (GraphEngine.graphOf sa g2).edges = _
              unfold GraphEngine.graphOf
              rw [hsa_s]
            · rw [Dict.getD_set_ne _ _ _ _ _ hg2, hsa_s]
          have hA : ∀ (g2 : String) (n : PyVal) (a : GraphEngine.AdjEntry),
              GraphEngine.adjOf st1 g2 n = some a →
              GraphEngine.adjOf { sb with
                adjacency := Dict.set sb.adjacency g
                  (Dict.setdefault (Dict.getD sb.adjacency g []) nodeId
                    GraphEngine.emptyAdj) } g2 n = some a := by
            intro g2 n a ha
            unfold GraphEngine.adjOf
            show Dict.get? (Dict.getD (Dict.set sb.adjacency g _) g2 []) n =
              some a
            have hsba : sb.adjacency = st1.adjacency := by
              rw [hsb_a]
              show sa.adjacency = st1.adjacency
              exact hsa_a
            by_cases hg2 : g2 = g
            · subst hg2
              rw [Dict.getD_set_self]
              refine Dict.get?_setdefault_of_some _ _ _ _ _ ?_
              rw [hsba]
              exact ha
            · rw [Dict.getD_set_ne _ _ _ _ _ hg2, hsba]
              exact ha
          have hed1 : Dict.get? (GraphEngine.graphOf st1 g').edges eid =
              some ed := by
            have : Dict.get? (GraphEngine.graphOf sb g').edges eid =
                some ed := hed
            rw [hG g'] at this
            exact this
          obtain ⟨⟨a1, ha1, hm1⟩, ⟨a2, ha2, hm2⟩⟩ :=
            hinv1 g' eid ed hed1 hf ht
          exact ⟨⟨a1, hA g' _ a1 ha1, hm1⟩, ⟨a2, hA g' _ a2 ha2, hm2⟩⟩
        · next e2 sb heqadd =>
          simp at h
      · next e2 sa heqrm =>
        simp at h
    | none =>
      simp only [hold, PyM.run_bind, PyM.run_pure, PyM.run_modify] at h
      split at h
      · next u2 sb heqadd =>
        cases u2
        obtain ⟨hsb_s, hsb_a⟩ :=
          GraphEngine.saLoop_preserves _ hbodyAdd nodeData _ _ heqadd
        simp only [PyM.run_modify, PyResult.ok.injEq, true_and] at h
        rw [← h]
        intro g' eid ed hed hf ht
        have hG : ∀ g2 : String,
            (GraphEngine.graphOf sb g2).edges =
            (GraphEngine.graphOf st1 g2).edges := by
          intro g2
          unfold GraphEngine.graphOf
          rw [hsb_s]
          show (Dict.getD (Dict.set st1.store g _) g2
            GraphEngine.emptyGraph).edges = _
          by_cases hg2 : g2 = g
          · subst hg2
            rw [Dict.getD_set_self]
            rfl
          · rw [Dict.getD_set_ne _ _ _ _ _ hg2]
        have hA : ∀ (g2 : String) (n : PyVal) (a : GraphEngine.AdjEntry),
            GraphEngine.adjOf st1 g2 n = some a →
            GraphEngine.adjOf { sb with
              adjacency := Dict.set sb.adjacency g
                (Dict.setdefault (Dict.getD sb.adjacency g []) nodeId
                  GraphEngine.emptyAdj) } g2 n = some a := by
          intro g2 n a ha
          unfold GraphEngine.adjOf
          show Dict.get? (Dict.getD (Dict.set sb.adjacency g _) g2 []) n =
            some a
          have hsba : sb.adjacency = st1.adjacency := hsb_a
          by_cases hg2 : g2 = g
          · subst hg2
            rw [Dict.getD_set_self]
            refine Dict.get?_setdefault_of_some _ _ _ _ _ ?_
            rw [hsba]
            exact ha
          · rw [Dict.getD_set_ne _ _ _ _ _ hg2, hsba]
            exact ha
        have hed1 : Dict.get? (GraphEngine.graphOf st1 g').edges eid =
            some ed := by
          have h0 : Dict.get? (GraphEngine.graphOf sb g').edges eid =
              some ed := hed
          rw [hG g'] at h0
          exact h0
        obtain ⟨⟨a1, ha1, hm1⟩, ⟨a2, ha2, hm2⟩⟩ :=
          hinv1 g' eid ed hed1 hf ht
        exact ⟨⟨a1, hA g' _ a1 ha1, hm1⟩, ⟨a2, hA g' _ a2 ha2, hm2⟩⟩
      · next e2 sb heqadd =>
        simp at h

/-- Adjacency-membership preservation for all edges other than `eid`
(the edge an operation is rewriting), on graph `g`. -/
def GraphEngine.adjPres (s s' : GraphEngine.GraphState) (g : String)
    (eid : PyVal) : Prop :=
  ∀ (n e : PyVal), e ≠ eid →
    (GraphEngine.adjoutP s g n e → GraphEngine.adjoutP s' g n e) ∧
    (GraphEngine.adjinP s g n e → GraphEngine.adjinP s' g n e)

theorem GraphEngine.adjPres_refl (s : GraphEngine.GraphState) (g : String)
    (eid : PyVal) : GraphEngine.adjPres s s g eid :=
  fun _ _ _ => ⟨id, id⟩

theorem GraphEngine.adjPres_trans {s1 s2 s3 : GraphEngine.GraphState}
    {g : String} {eid : PyVal} (h1 : GraphEngine.adjPres s1 s2 g eid)
    (h2 : GraphEngine.adjPres s2 s3 g eid) :
    GraphEngine.adjPres s1 s3 g eid := by
  intro n e hne
  exact ⟨fun hx => (h2 n e hne).1 ((h1 n e hne).1 hx),
    fun hx => (h2 n e hne).2 ((h1 n e hne).2 hx)⟩

theorem GraphEngine.adjPres_of_eq {s s' : GraphEngine.GraphState}
    {g : String} {eid : PyVal}
    (hs : s'.adjacency = s.adjacency) :
    GraphEngine.adjPres s s' g eid := by
  intro n e hne
  have hOf : ∀ n2, GraphEngine.adjOf s' g n2 = GraphEngine.adjOf s g n2 := by
    intro n2
    unfold GraphEngine.adjOf
    rw [hs]
  constructor
  · rintro ⟨b, hb, hm⟩
    exact ⟨b, by rw [hOf]; exact hb, hm⟩
  · rintro ⟨b, hb, hm⟩
    exact ⟨b, by rw [hOf]; exact hb, hm⟩

theorem GraphEngine.adjPres_setAdj (s : GraphEngine.GraphState)
    (g : String) (n0 : PyVal) (a a' : GraphEngine.AdjEntry) (eid : PyVal)
    (ha : GraphEngine.adjOf s g n0 = some a)
    (hout : ∀ e, e ≠ eid → e ∈ a.outgoing → e ∈ a'.outgoing)
    (hin : ∀ e, e ≠ eid → e ∈ a.incoming → e ∈ a'.incoming) :
    GraphEngine.adjPres s (GraphEngine.setAdj s g n0 a') g eid := by
  intro n e hne
  constructor
  · rintro ⟨b, hb, hm⟩
    rw [GraphEngine.adjoutP, GraphEngine.adjOf_setAdj, if_pos rfl]
    by_cases hn : n = n0
    · rw [if_pos hn]
      subst hn
      rw [ha] at hb
      injection hb with hb
      subst hb
      exact ⟨a', rfl, hout e hne hm⟩
    · rw [if_neg hn]
      exact ⟨b, hb, hm⟩
  · rintro ⟨b, hb, hm⟩
    rw [GraphEngine.adjinP, GraphEngine.adjOf_setAdj, if_pos rfl]
    by_cases hn : n = n0
    · rw [if_pos hn]
      subst hn
      rw [ha] at hb
      injection hb with hb
      subst hb
      exact ⟨a', rfl, hin e hne hm⟩
    · rw [if_neg hn]
      exact ⟨b, hb, hm⟩

theorem GraphEngine.adjPres_sd (s : GraphEngine.GraphState) (g : String)
    (n0 eid : PyVal) :
    GraphEngine.adjPres s { s with
      adjacency := Dict.set s.adjacency g
        (Dict.setdefault (Dict.getD s.adjacency g []) n0
          GraphEngine.emptyAdj) } g eid := by
  intro n e hne
  have hOf : ∀ (b : GraphEngine.AdjEntry),
      GraphEngine.adjOf s g n = some b →
      GraphEngine.adjOf { s with
        adjacency := Dict.set s.adjacency g
          (Dict.setdefault (Dict.getD s.adjacency g []) n0
            GraphEngine.emptyAdj) } g n = some b := by
    intro b hb
    show Dict.get? (Dict.getD (Dict.set s.adjacency g _) g []) n = some b
    rw [Dict.getD_set_self]
    exact Dict.get?_setdefault_of_some _ _ _ _ _ hb
  constructor
  · rintro ⟨b, hb, hm⟩
    exact ⟨b, hOf b hb, hm⟩
  · rintro ⟨b, hb, hm⟩
    exact ⟨b, hOf b hb, hm⟩

/-- "Graphs other than `g` are untouched" between two states. -/
def GraphEngine.otherEq (s s' : GraphEngine.GraphState) (g : String) : Prop :=
  (∀ g2, g2 ≠ g → GraphEngine.graphOf s' g2 = GraphEngine.graphOf s g2) ∧
  (∀ g2 n, g2 ≠ g → GraphEngine.adjOf s' g2 n = GraphEngine.adjOf s g2 n)

theorem GraphEngine.otherEq_refl (s : GraphEngine.GraphState) (g : String) :
    GraphEngine.otherEq s s g :=
  ⟨fun _ _ => rfl, fun _ _ _ => rfl⟩

theorem GraphEngine.otherEq_trans {s1 s2 s3 : GraphEngine.GraphState}
    {g : String} (h1 : GraphEngine.otherEq s1 s2 g)
    (h2 : GraphEngine.otherEq s2 s3 g) : GraphEngine.otherEq s1 s3 g :=
  ⟨fun g2 hg => (h2.1 g2 hg).trans (h1.1 g2 hg),
   fun g2 n hg => (h2.2 g2 n hg).trans (h1.2 g2 n hg)⟩

theorem GraphEngine.otherEq_of_sa {s s' : GraphEngine.GraphState}
    {g : String} (hs : s'.store = s.store)
    (ha : s'.adjacency = s.adjacency) : GraphEngine.otherEq s s' g := by
  constructor
  · intro g2 _
    unfold GraphEngine.graphOf
    rw [hs]
  · intro g2 n _
    unfold GraphEngine.adjOf
    rw [ha]

theorem GraphEngine.otherEq_setAdj (s : GraphEngine.GraphState)
    (g : String) (n0 : PyVal) (a : GraphEngine.AdjEntry) :
    GraphEngine.otherEq s (GraphEngine.setAdj s g n0 a) g := by
  constructor
  · intro g2 _
    rfl
  · intro g2 n hg
    rw [GraphEngine.adjOf_setAdj, if_neg hg]

theorem GraphEngine.otherEq_adjSd (s : GraphEngine.GraphState)
    (g : String) (n0 : PyVal) :
    GraphEngine.otherEq s { s with
      adjacency := Dict.set s.adjacency g
        (Dict.setdefault (Dict.getD s.adjacency g []) n0
          GraphEngine.emptyAdj) } g := by
  constructor
  · intro g2 _
    rfl
  · intro g2 n hg
    show Dict.get? (Dict.getD (Dict.set s.adjacency g _) g2 []) n = _
    rw [Dict.getD_set_ne _ _ _ _ _ hg]
    rfl

theorem GraphEngine.otherEq_setGraph (s : GraphEngine.GraphState)
    (g : String) (gd : GraphEngine.GraphData) :
    GraphEngine.otherEq s (GraphEngine.setGraph s g gd) g := by
  constructor
  · intro g2 hg
    unfold GraphEngine.graphOf GraphEngine.setGraph
    exact Dict.getD_set_ne _ _ _ _ _ hg
  · intro g2 n _
    rfl

theorem GraphEngine.inv_apply_addEdge (g : String) (edgeId : PyVal)
    (edgeData : Doc) (st st2 : GraphEngine.GraphState)
    (hinv : GraphEngine.edgeAdjInv st)
    (h : (GraphEngine.apply (.addEdge g edgeId edgeData)).run st =
      .ok () st2) :
    GraphEngine.edgeAdjInv st2 := by
  simp only [GraphEngine.apply, PyM.run_bind, PyM.run_modify,
    PyM.run_raiseIf] at h
  by_cases hh : edgeId.hashable
  case neg => simp [hh] at h
  case pos =>
    simp only [hh, Bool.not_true, Bool.false_eq_true, if_false,
      PyM.run_read] at h
    set st1 : GraphEngine.GraphState := { st with
      store := Dict.setdefault st.store g GraphEngine.emptyGraph,
      nodeIndexes := Dict.setdefault st.nodeIndexes g [],
      edgeIndexes := Dict.setdefault st.edgeIndexes g [],
      adjacency := Dict.setdefault st.adjacency g [] } with hst1
    have hinv1 := GraphEngine.inv_setdefault st g hinv
    have hbodyE : ∀ (F : GraphEngine.GraphState → String × PyVal → Idx3)
        (x : String × PyVal) (s s2 : GraphEngine.GraphState),
        ((do
          if x.1 ≠ "from" ∧ x.1 ≠ "to" then do
            PyM.raiseIf (!x.2.hashable) .typeError
            PyM.modify (fun st => { st with edgeIndexes := F st x })
          else pure ()) : PyM GraphEngine.GraphState Unit).run s =
          .ok () s2 →
        s2.store = s.store ∧ s2.adjacency = s.adjacency := by
      intro F x s s2 hx
      by_cases hc : x.1 ≠ "from" ∧ x.1 ≠ "to"
      · rw [if_pos hc] at hx
        by_cases hxh : x.2.hashable
        · simp only [PyM.run_bind, PyM.run_raiseIf, hxh, Bool.not_true,
            Bool.false_eq_true, if_false, PyM.run_modify,
            PyResult.ok.injEq, true_and] at hx
          rw [← hx]
          exact ⟨rfl, rfl⟩
        · simp [PyM.run_bind, PyM.run_raiseIf, hxh] at hx
      · rw [if_neg hc] at hx
        simp only [PyM.run_pure, PyResult.ok.injEq, true_and] at hx
        rw [← hx]
        exact ⟨rfl, rfl⟩
    -- common tail, parameterized by the state reached before the
    -- `store[graph]['edges'][edge_id] = edge_data` write
    have htail : ∀ s4 : GraphEngine.GraphState,
        GraphEngine.adjPres st1 s4 g edgeId →
        GraphEngine.otherEq st1 s4 g →
        (GraphEngine.graphOf s4 g).edges = (GraphEngine.graphOf st1 g).edges →
        ∀ st2b : GraphEngine.GraphState,
        ((do
          PyM.modify (fun st => GraphEngine.setGraph st g
            { GraphEngine.graphOf st g with
              edges := Dict.set (GraphEngine.graphOf st g).edges edgeId
                edgeData })
          PyM.forEach edgeData (fun fv => do
            if fv.1 ≠ "from" ∧ fv.1 ≠ "to" then do
              PyM.raiseIf (!fv.2.hashable) .typeError
              PyM.modify (fun st =>
                { st with
                  edgeIndexes := idxAdd1 st.edgeIndexes g fv.1 fv.2 edgeId })
            else pure ())
          let fromNode := Dict.getD edgeData "from" .vnone
          let toNode := Dict.getD edgeData "to" .vnone
          if fromNode.truthy ∧ toNode.truthy then do
            PyM.modify (fun st =>
              { st with
                adjacency :=
                  Dict.set st.adjacency g
                    (Dict.setdefault (Dict.getD st.adjacency g []) fromNode
                      GraphEngine.emptyAdj) })
            PyM.modify (fun st =>
              { st with
                adjacency :=
                  Dict.set st.adjacency g
                    (Dict.setdefault (Dict.getD st.adjacency g []) toNode
                      GraphEngine.emptyAdj) })
            GraphEngine.adjacencyModify g fromNode (fun a =>
              { a with outgoing := SSet.insert a.outgoing edgeId })
            GraphEngine.adjacencyModify g toNode (fun a =>
              { a with incoming := SSet.insert a.incoming edgeId })
          else pure ()) : PyM GraphEngine.GraphState Unit).run s4 =
          .ok () st2b →
        GraphEngine.edgeAdjInv st2b := by
      intro s4 hP4 hO4 hE4 st2b htl
      simp only [PyM.run_bind, PyM.run_modify] at htl
      -- the state after the edges write
      set s5 : GraphEngine.GraphState := GraphEngine.setGraph s4 g
        { GraphEngine.graphOf s4 g with
          edges := Dict.set (GraphEngine.graphOf s4 g).edges edgeId
            edgeData } with hs5
      have hE5 : (GraphEngine.graphOf s5 g).edges =
          Dict.set (GraphEngine.graphOf st1 g).edges edgeId edgeData := by
        show (Dict.getD (Dict.set s4.store g _) g
          GraphEngine.emptyGraph).edges = _
        rw [Dict.getD_set_self]
        show Dict.set (GraphEngine.graphOf s4 g).edges edgeId edgeData = _
        rw [hE4]
      have hO5 : GraphEngine.otherEq st1 s5 g :=
        GraphEngine.otherEq_trans hO4 (GraphEngine.otherEq_setGraph s4 g _)
      have hP5 : GraphEngine.adjPres st1 s5 g edgeId :=
        GraphEngine.adjPres_trans hP4 (GraphEngine.adjPres_of_eq rfl)
      split at htl
      · next u6 s6 heq6 =>
        cases u6
        obtain ⟨h6s, h6a⟩ := GraphEngine.saLoop_preserves _
          (hbodyE (fun st x => idxAdd1 st.edgeIndexes g x.1 x.2 edgeId))
          edgeData s5 s6 heq6
        have hE6 : (GraphEngine.graphOf s6 g).edges =
            Dict.set (GraphEngine.graphOf st1 g).edges edgeId edgeData := by
          unfold GraphEngine.graphOf
          rw [h6s]
          exact hE5
        have hO6 : GraphEngine.otherEq st1 s6 g :=
          GraphEngine.otherEq_trans hO5 (GraphEngine.otherEq_of_sa h6s h6a)
        have hP6 : GraphEngine.adjPres st1 s6 g edgeId :=
          GraphEngine.adjPres_trans hP5 (GraphEngine.adjPres_of_eq h6a)
        by_cases hT : (Dict.getD edgeData "from" PyVal.vnone).truthy = true ∧
            (Dict.getD edgeData "to" PyVal.vnone).truthy = true
        · rw [if_pos hT] at htl
          simp only [PyM.run_bind, PyM.run_modify] at htl
          set m1 : GraphEngine.GraphState := { s6 with
            adjacency := Dict.set s6.adjacency g
              (Dict.setdefault (Dict.getD s6.adjacency g [])
                (Dict.getD edgeData "from" PyVal.vnone)
                GraphEngine.emptyAdj) } with hm1
          set m2 : GraphEngine.GraphState := { m1 with
            adjacency := Dict.set m1.adjacency g
              (Dict.setdefault (Dict.getD m1.adjacency g [])
                (Dict.getD edgeData "to" PyVal.vnone)
                GraphEngine.emptyAdj) } with hm2
          split at htl
          · next u7 s7 heq7 =>
            cases u7
            obtain ⟨aF, haF, hs7⟩ :=
              GraphEngine.run_adjacencyModify_ok _ _ _ _ _ heq7
            obtain ⟨aT, haT, hs8⟩ :=
              GraphEngine.run_adjacencyModify_ok _ _ _ _ _ htl
            subst hs8
            subst hs7
            -- invariant for the final state
            intro g' eid' ed' hed hf ht
            by_cases hg' : g' = g
            case neg =>
              have hoth : GraphEngine.otherEq st1
                  (GraphEngine.setAdj (GraphEngine.setAdj m2 g
                    (Dict.getD edgeData "from" PyVal.vnone)
                    { aF with outgoing := SSet.insert aF.outgoing edgeId })
                    g (Dict.getD edgeData "to" PyVal.vnone)
                    { aT with incoming := SSet.insert aT.incoming edgeId })
                  g := by
                refine GraphEngine.otherEq_trans hO6 ?_
                refine GraphEngine.otherEq_trans
                  (GraphEngine.otherEq_adjSd s6 g
                    (Dict.getD edgeData "from" PyVal.vnone)) ?_
                refine GraphEngine.otherEq_trans
                  (GraphEngine.otherEq_adjSd m1 g
                    (Dict.getD edgeData "to" PyVal.vnone)) ?_
                refine GraphEngine.otherEq_trans
                  (GraphEngine.otherEq_setAdj m2 g
                    (Dict.getD edgeData "from" PyVal.vnone)
                    { aF with outgoing := SSet.insert aF.outgoing edgeId }) ?_
                exact GraphEngine.otherEq_setAdj _ g _ _
              have hed1 : Dict.get? (GraphEngine.graphOf st1 g').edges
                  eid' = some ed' := by
                rw [← hoth.1 g' hg']
                exact hed
              obtain ⟨⟨a1, ha1, hm1'⟩, ⟨a2, ha2, hm2'⟩⟩ :=
                hinv1 g' eid' ed' hed1 hf ht
              exact ⟨⟨a1, by rw [hoth.2 g' _ hg']; exact ha1, hm1'⟩,
                ⟨a2, by rw [hoth.2 g' _ hg']; exact ha2, hm2'⟩⟩
            case pos =>
              subst hg'
              have hedG : Dict.get? (Dict.set
                  (GraphEngine.graphOf st1 g').edges edgeId edgeData)
                  eid' = some ed' := by
                have h0 := hed
                have hfin : (GraphEngine.graphOf
                    (GraphEngine.setAdj (GraphEngine.setAdj m2 g'
                      (Dict.getD edgeData "from" PyVal.vnone)
                      { aF with
                        outgoing := SSet.insert aF.outgoing edgeId })
                      g' (Dict.getD edgeData "to" PyVal.vnone)
                      { aT with
                        incoming := SSet.insert aT.incoming edgeId })
                    g').edges =
                    Dict.set (GraphEngine.graphOf st1 g').edges edgeId
                      edgeData := by
                  show (GraphEngine.graphOf m2 g').edges = _
                  show (GraphEngine.graphOf s6 g').edges = _
                  exact hE6
                rw [hfin] at h0
                exact h0
              by_cases heid : eid' = edgeId
              · subst heid
                rw [Dict.get?_set_self] at hedG
                have hde : ed' = edgeData := by
                  injection hedG with hx
                  exact hx.symm
                subst hde
                constructor
                · -- outgoing registration of the new edge
                  rw [GraphEngine.adjoutP, GraphEngine.adjOf_setAdj,
                    if_pos rfl]
                  by_cases hft : Dict.getD ed' "from" PyVal.vnone =
                      Dict.getD ed' "to" PyVal.vnone
                  · rw [if_pos hft]
                    refine ⟨_, rfl, ?_⟩
                    have haT2 : aT = { aF with
                        outgoing := SSet.insert aF.outgoing eid' } := by
                      rw [← hft] at haT
                      rw [GraphEngine.adjOf_setAdj, if_pos rfl,
                        if_pos rfl] at haT
                      injection haT with hx
                      exact hx.symm
                    show eid' ∈ aT.outgoing
                    rw [haT2]
                    show eid' ∈ SSet.insert aF.outgoing eid'
                    rw [SSet.mem_insert]
                    exact Or.inr rfl
                  · rw [if_neg hft]
                    refine ⟨{ aF with
                      outgoing := SSet.insert aF.outgoing eid' }, ?_, ?_⟩
                    · show GraphEngine.adjOf (GraphEngine.setAdj m2 g'
                        (Dict.getD ed' "from" PyVal.vnone)
                        { aF with
                          outgoing := SSet.insert aF.outgoing eid' }) g'
                        (Dict.getD ed' "from" PyVal.vnone) = _
                      rw [GraphEngine.adjOf_setAdj, if_pos rfl, if_pos rfl]
                    · show eid' ∈ SSet.insert aF.outgoing eid'
                      rw [SSet.mem_insert]
                      exact Or.inr rfl
                · rw [GraphEngine.adjinP, GraphEngine.adjOf_setAdj,
                    if_pos rfl, if_pos rfl]
                  refine ⟨_, rfl, ?_⟩
                  show eid' ∈ SSet.insert aT.incoming eid'
                  rw [SSet.mem_insert]
                  exact Or.inr rfl
              · rw [Dict.get?_set_ne _ _ _ _ heid] at hedG
                obtain ⟨ho1, ho2⟩ := hinv1 g' eid' ed' hedG hf ht
                have hPfin : GraphEngine.adjPres st1
                    (GraphEngine.setAdj (GraphEngine.setAdj m2 g'
                      (Dict.getD edgeData "from" PyVal.vnone)
                      { aF with outgoing := SSet.insert aF.outgoing edgeId })
                      g' (Dict.getD edgeData "to" PyVal.vnone)
                      { aT with incoming := SSet.insert aT.incoming edgeId })
                    g' edgeId := by
                  refine GraphEngine.adjPres_trans hP6 ?_
                  refine GraphEngine.adjPres_trans
                    (GraphEngine.adjPres_sd s6 g'
                      (Dict.getD edgeData "from" PyVal.vnone) edgeId) ?_
                  refine GraphEngine.adjPres_trans
                    (GraphEngine.adjPres_sd m1 g'
                      (Dict.getD edgeData "to" PyVal.vnone) edgeId) ?_
                  refine GraphEngine.adjPres_trans
                    (GraphEngine.adjPres_setAdj m2 g'
                      (Dict.getD edgeData "from" PyVal.vnone) aF
                      { aF with outgoing := SSet.insert aF.outgoing edgeId }
                      edgeId haF
                      (fun e hne hm => by
                        show e ∈ SSet.insert aF.outgoing edgeId
                        rw [SSet.mem_insert]
                        exact Or.inl hm)
                      (fun e hne hm => hm)) ?_
                  exact GraphEngine.adjPres_setAdj _ g'
                    (Dict.getD edgeData "to" PyVal.vnone) aT
                    { aT with incoming := SSet.insert aT.incoming edgeId }
                    edgeId haT
                    (fun e hne hm => hm)
                    (fun e hne hm => by
                      show e ∈ SSet.insert aT.incoming edgeId
                      rw [SSet.mem_insert]
                      exact Or.inl hm)
                exact ⟨(hPfin _ eid' heid).1 ho1,
                  (hPfin _ eid' heid).2 ho2⟩
          · next e7 s7 heq7 =>
            simp at htl
        · rw [if_neg hT] at htl
          simp only [PyM.run_pure, PyResult.ok.injEq, true_and] at htl
          rw [← htl]
          intro g' eid' ed' hed hf ht
          by_cases hg' : g' = g
          case neg =>
            have hed1 : Dict.get? (GraphEngine.graphOf st1 g').edges eid' =
                some ed' := by
              rw [← hO6.1 g' hg']
              exact hed
            obtain ⟨⟨a1, ha1, hm1'⟩, ⟨a2, ha2, hm2'⟩⟩ :=
              hinv1 g' eid' ed' hed1 hf ht
            exact ⟨⟨a1, by rw [hO6.2 g' _ hg']; exact ha1, hm1'⟩,
              ⟨a2, by rw [hO6.2 g' _ hg']; exact ha2, hm2'⟩⟩
          case pos =>
            subst hg'
            have hedG : Dict.get? (Dict.set
                (GraphEngine.graphOf st1 g').edges edgeId edgeData) eid' =
                some ed' := by
              rw [← hE6]
              exact hed
            by_cases heid : eid' = edgeId
            · subst heid
              rw [Dict.get?_set_self] at hedG
              have hde : ed' = edgeData := by
                injection hedG with hx
                exact hx.symm
              subst hde
              exact absurd ⟨hf, ht⟩ hT
            · rw [Dict.get?_set_ne _ _ _ _ heid] at hedG
              obtain ⟨ho1, ho2⟩ := hinv1 g' eid' ed' hedG hf ht
              exact ⟨(hP6 _ eid' heid).1 ho1, (hP6 _ eid' heid).2 ho2⟩
      · next e6 s6 heq6 =>
        simp at htl
    -- dispatch on whether the edge overwrites an existing one
    cases holdE : Dict.get? (GraphEngine.graphOf st1 g).edges edgeId with
    | none =>
      simp only [holdE, PyM.run_bind, PyM.run_pure, PyM.run_modify] at h
      exact htail st1 (GraphEngine.adjPres_refl st1 g edgeId)
        (GraphEngine.otherEq_refl st1 g) rfl st2 h
    | some oldEdge =>
      simp only [holdE, PyM.run_bind, PyM.run_modify] at h
      split at h
      · next uR sR heqR =>
        cases uR
        obtain ⟨hRs, hRa⟩ := GraphEngine.saLoop_preserves _
          (hbodyE (fun st x => idxRemove1 st.edgeIndexes g x.1 x.2 edgeId))
          oldEdge st1 sR heqR
        have hPR : GraphEngine.adjPres st1 sR g edgeId :=
          GraphEngine.adjPres_of_eq hRa
        have hOR : GraphEngine.otherEq st1 sR g :=
          GraphEngine.otherEq_of_sa hRs hRa
        have hER : (GraphEngine.graphOf sR g).edges =
            (GraphEngine.graphOf st1 g).edges := by
          unfold GraphEngine.graphOf
          rw [hRs]
        by_cases hTold : (Dict.getD oldEdge "from" PyVal.vnone).truthy =
            true ∧ (Dict.getD oldEdge "to" PyVal.vnone).truthy = true
        · rw [if_pos hTold] at h
          simp only [PyM.run_bind] at h
          split at h
          · next uD1 sD1 heqD1 =>
            cases uD1
            obtain ⟨aO1, haO1, hsD1⟩ :=
              GraphEngine.run_adjacencyModify_ok _ _ _ _ _ heqD1
            split at h
            · next uD2 sD2 heqD2 =>
              cases uD2
              obtain ⟨aO2, haO2, hsD2⟩ :=
                GraphEngine.run_adjacencyModify_ok _ _ _ _ _ heqD2
              subst hsD2
              subst hsD1
              refine htail _ ?_ ?_ ?_ st2 h
              · refine GraphEngine.adjPres_trans hPR ?_
                refine GraphEngine.adjPres_trans
                  (GraphEngine.adjPres_setAdj sR g
                    (Dict.getD oldEdge "from" PyVal.vnone) aO1
                    { aO1 with
                      outgoing := SSet.discard aO1.outgoing edgeId }
                    edgeId haO1
                    (fun e hne hm => by
                      show e ∈ SSet.discard aO1.outgoing edgeId
                      rw [SSet.mem_discard]
                      exact ⟨hm, hne⟩)
                    (fun e hne hm => hm)) ?_
                exact GraphEngine.adjPres_setAdj _ g
                  (Dict.getD oldEdge "to" PyVal.vnone) aO2
                  { aO2 with
                    incoming := SSet.discard aO2.incoming edgeId }
                  edgeId haO2
                  (fun e hne hm => hm)
                  (fun e hne hm => by
                    show e ∈ SSet.discard aO2.incoming edgeId
                    rw [SSet.mem_discard]
                    exact ⟨hm, hne⟩)
              · refine GraphEngine.otherEq_trans hOR ?_
                refine GraphEngine.otherEq_trans
                  (GraphEngine.otherEq_setAdj sR g
                    (Dict.getD oldEdge "from" PyVal.vnone)
                    { aO1 with
                      outgoing := SSet.discard aO1.outgoing edgeId }) ?_
                exact GraphEngine.otherEq_setAdj _ g _ _
              · show (GraphEngine.graphOf sR g).edges = _
                exact hER
            · next eD2 sD2 heqD2 =>
              simp at h
          · next eD1 sD1 heqD1 =>
            simp at h
        · rw [if_neg hTold] at h
          simp only [PyM.run_bind, PyM.run_pure] at h
          exact htail sR hPR hOR hER st2 h
      · next eR sR heqR =>
        simp at h


theorem Dict.erase_of_get?_none {κ ν : Type} [DecidableEq κ]
    (d : Dict κ ν) (k : κ) (h : Dict.get? d k = none) :
    Dict.erase d k = d := by
  induction d with
  | nil => rfl
  | cons hd tl ih =>
    obtain ⟨k2, v2⟩ := hd
    rw [Dict.get?_cons] at h
    by_cases hk : k2 = k
    · rw [if_pos hk] at h
      exact absurd h (by simp)
    · rw [if_neg hk] at h
      show List.filter _ ((k2, v2) :: tl) = (k2, v2) :: tl
      rw [List.filter_cons, if_pos (by simp [hk])]
      exact congrArg (List.cons (k2, v2)) (ih h)

theorem SSet.mem_foldl_insert {α : Type} [DecidableEq α]
    (xs : List α) (s : SSet α) (e : α) :
    e ∈ List.foldl SSet.insert s xs ↔ e ∈ s ∨ e ∈ xs := by
  induction xs generalizing s with
  | nil => simp
  | cons x rest ih =>
    rw [List.foldl_cons, ih, SSet.mem_insert, List.mem_cons]
    tauto

theorem Dict.get?_foldl_erase {κ ν : Type} [DecidableEq κ]
    (L : List κ) (d : Dict κ ν) (k : κ) :
    Dict.get? (List.foldl Dict.erase d L) k =
      if k ∈ L then none else Dict.get? d k := by
  induction L generalizing d with
  | nil => simp
  | cons x rest ih =>
    rw [List.foldl_cons, ih]
    by_cases hk : k ∈ rest
    · rw [if_pos hk, if_pos (List.mem_cons_of_mem _ hk)]
    · rw [if_neg hk]
      by_cases hx : k = x
      · subst hx
        rw [if_pos (List.mem_cons_self _ _), Dict.get?_erase_self]
      · rw [if_neg (by simp [List.mem_cons, hx, hk]),
          Dict.get?_erase_ne _ _ _ hx]

/-- The per-field body of the edge-index maintenance loops (skip the
`from`/`to` structural keys, hash-check, mutate only `edge_indexes`)
leaves the primary store and the adjacency map untouched. -/
theorem GraphEngine.edgeIdxLoopBody (g : String)
    (F : GraphEngine.GraphState → String × PyVal → Idx3) :
    ∀ (x : String × PyVal) (s s2 : GraphEngine.GraphState),
      ((do
        if x.1 ≠ "from" ∧ x.1 ≠ "to" then do
          PyM.raiseIf (!x.2.hashable) .typeError
          PyM.modify (fun st => { st with edgeIndexes := F st x })
        else pure ()) : PyM GraphEngine.GraphState Unit).run s = .ok () s2 →
      s2.store = s.store ∧ s2.adjacency = s.adjacency := by
  intro x s s2 hx
  by_cases hc : x.1 ≠ "from" ∧ x.1 ≠ "to"
  · rw [if_pos hc] at hx
    by_cases hxh : x.2.hashable
    · simp only [PyM.run_bind, PyM.run_raiseIf, hxh, Bool.not_true,
        Bool.false_eq_true, if_false, PyM.run_modify,
        PyResult.ok.injEq, true_and] at hx
      rw [← hx]
      exact ⟨rfl, rfl⟩
    · simp [PyM.run_bind, PyM.run_raiseIf, hxh] at hx
  · rw [if_neg hc] at hx
    simp only [PyM.run_pure, PyResult.ok.injEq, true_and] at hx
    rw [← hx]
    exact ⟨rfl, rfl⟩

/-- Loop rule for `DELETE_NODE`'s connected-edges pass: if each
iteration leaves the adjacency map, the other graphs and graph `g`'s
node dict unchanged, and erases its edge id from graph `g`'s edge dict,
the whole loop folds `erase` over the processed list. -/
theorem GraphEngine.eraseLoop (g : String)
    (body : PyVal → PyM GraphEngine.GraphState Unit)
    (hbody : ∀ x s s2, (body x).run s = .ok () s2 →
      s2.adjacency = s.adjacency ∧
      (∀ g2, g2 ≠ g → GraphEngine.graphOf s2 g2 =
        GraphEngine.graphOf s g2) ∧
      (∀ g2, (GraphEngine.graphOf s2 g2).nodes =
        (GraphEngine.graphOf s g2).nodes) ∧
      (GraphEngine.graphOf s2 g).edges =
        Dict.erase (GraphEngine.graphOf s g).edges x) :
    ∀ (L : List PyVal) (s s2 : GraphEngine.GraphState),
      (PyM.forEach L body).run s = .ok () s2 →
      s2.adjacency = s.adjacency ∧
      (∀ g2, g2 ≠ g → GraphEngine.graphOf s2 g2 =
        GraphEngine.graphOf s g2) ∧
      (∀ g2, (GraphEngine.graphOf s2 g2).nodes =
        (GraphEngine.graphOf s g2).nodes) ∧
      (GraphEngine.graphOf s2 g).edges =
        List.foldl Dict.erase (GraphEngine.graphOf s g).edges L := by
  intro L
  induction L with
  | nil =>
    intro s s2 h
    simp only [PyM.forEach_nil, PyM.run_pure, PyResult.ok.injEq,
      true_and] at h
    rw [← h]
    exact ⟨rfl, fun _ _ => rfl, fun _ => rfl, rfl⟩
  | cons x rest ih =>
    intro s s2 h
    simp only [PyM.forEach_cons, PyM.run_bind] at h
    cases hx : (body x).run s with
    | ok u s3 =>
      cases u
      rw [hx] at h
      simp only at h
      obtain ⟨h1, h2, h3, h4⟩ := hbody x s s3 hx
      obtain ⟨h5, h6, h7, h8⟩ := ih s3 s2 h
      refine ⟨h5.trans h1, fun g2 hg => (h6 g2 hg).trans (h2 g2 hg),
        fun g2 => (h7 g2).trans (h3 g2), ?_⟩
      rw [List.foldl_cons, h8, h4]
    | err e s3 =>
      rw [hx] at h
      simp at h


theorem GraphEngine.inv_apply_deleteEdge (g : String) (edgeId : PyVal)
    (st st2 : GraphEngine.GraphState)
    (hinv : GraphEngine.edgeAdjInv st)
    (h : (GraphEngine.apply (.deleteEdge g edgeId)).run st = .ok () st2) :
    GraphEngine.edgeAdjInv st2 := by
  simp only [GraphEngine.apply, PyM.run_bind, PyM.run_modify,
    PyM.run_raiseIf] at h
  by_cases hh : edgeId.hashable
  case neg => simp [hh] at h
  case pos =>
    simp only [hh, Bool.not_true, Bool.false_eq_true, if_false,
      PyM.run_read] at h
    set st1 : GraphEngine.GraphState := { st with
      store := Dict.setdefault st.store g GraphEngine.emptyGraph,
      nodeIndexes := Dict.setdefault st.nodeIndexes g [],
      edgeIndexes := Dict.setdefault st.edgeIndexes g [],
      adjacency := Dict.setdefault st.adjacency g [] } with hst1
    have hinv1 := GraphEngine.inv_setdefault st g hinv
    -- the deletion's final store write, characterized on pure states
    have hFin : ∀ s : GraphEngine.GraphState,
        GraphEngine.adjPres st1 s g edgeId →
        GraphEngine.otherEq st1 s g →
        (GraphEngine.graphOf s g).edges = (GraphEngine.graphOf st1 g).edges →
        GraphEngine.edgeAdjInv (GraphEngine.setGraph s g
          { GraphEngine.graphOf s g with
            edges := Dict.erase (GraphEngine.graphOf s g).edges edgeId }) := by
      intro s hP hO hE g' eid' ed' hed hf ht
      by_cases hg' : g' = g
      case neg =>
        have hO2 : GraphEngine.otherEq st1 (GraphEngine.setGraph s g
            { GraphEngine.graphOf s g with
              edges := Dict.erase (GraphEngine.graphOf s g).edges edgeId })
            g :=
          GraphEngine.otherEq_trans hO (GraphEngine.otherEq_setGraph s g _)
        have hed1 : Dict.get? (GraphEngine.graphOf st1 g').edges eid' =
            some ed' := by
          rw [← hO2.1 g' hg']
          exact hed
        obtain ⟨⟨a1, ha1, hm1⟩, ⟨a2, ha2, hm2⟩⟩ :=
          hinv1 g' eid' ed' hed1 hf ht
        exact ⟨⟨a1, by rw [hO2.2 g' _ hg']; exact ha1, hm1⟩,
          ⟨a2, by rw [hO2.2 g' _ hg']; exact ha2, hm2⟩⟩
      case pos =>
        subst hg'
        have hedE : Dict.get? (Dict.erase (GraphEngine.graphOf s g').edges
            edgeId) eid' = some ed' := by
          have hgg : (GraphEngine.graphOf (GraphEngine.setGraph s g'
              { GraphEngine.graphOf s g' with
                edges := Dict.erase (GraphEngine.graphOf s g').edges
                  edgeId }) g').edges =
              Dict.erase (GraphEngine.graphOf s g').edges edgeId := by
            show (Dict.getD (Dict.set s.store g' _) g'
              GraphEngine.emptyGraph).edges = _
            rw [Dict.getD_set_self]
          rw [hgg] at hed
          exact hed
        by_cases heid : eid' = edgeId
        · subst heid
          rw [Dict.get?_erase_self] at hedE
          exact absurd hedE (by simp)
        · rw [Dict.get?_erase_ne _ _ _ heid, hE] at hedE
          obtain ⟨ho1, ho2⟩ := hinv1 g' eid' ed' hedE hf ht
          have hP2 : GraphEngine.adjPres st1 (GraphEngine.setGraph s g'
              { GraphEngine.graphOf s g' with
                edges := Dict.erase (GraphEngine.graphOf s g').edges
                  edgeId }) g' edgeId :=
            GraphEngine.adjPres_trans hP (GraphEngine.adjPres_of_eq rfl)
          exact ⟨(hP2 _ eid' heid).1 ho1, (hP2 _ eid' heid).2 ho2⟩
    cases holdE : Dict.get? (GraphEngine.graphOf st1 g).edges edgeId with
    | none =>
      simp only [holdE, PyM.run_pure, PyResult.ok.injEq, true_and] at h
      rw [← h]
      exact hinv1
    | some edgeData =>
      simp only [holdE, PyM.run_bind] at h
      split at h
      · next uR sR heqR =>
        cases uR
        obtain ⟨hRs, hRa⟩ := GraphEngine.saLoop_preserves _
          (GraphEngine.edgeIdxLoopBody g
            (fun st x => idxRemove1 st.edgeIndexes g x.1 x.2 edgeId))
          edgeData st1 sR heqR
        have hPR : GraphEngine.adjPres st1 sR g edgeId :=
          GraphEngine.adjPres_of_eq hRa
        have hOR : GraphEngine.otherEq st1 sR g :=
          GraphEngine.otherEq_of_sa hRs hRa
        have hER : (GraphEngine.graphOf sR g).edges =
            (GraphEngine.graphOf st1 g).edges := by
          unfold GraphEngine.graphOf
          rw [hRs]
        by_cases hF : (Dict.getD edgeData "from" PyVal.vnone).truthy = true
        · rw [if_pos hF] at h
          simp only [PyM.run_bind, PyM.run_read] at h
          cases haF : GraphEngine.adjOf sR g
              (Dict.getD edgeData "from" PyVal.vnone) with
          | some aOF =>
            simp only [haF, PyM.run_bind, PyM.run_write] at h
            set sF : GraphEngine.GraphState := GraphEngine.setAdj sR g
              (Dict.getD edgeData "from" PyVal.vnone)
              { aOF with
                outgoing := SSet.discard aOF.outgoing edgeId } with hsF
            have hPF : GraphEngine.adjPres st1 sF g edgeId :=
              GraphEngine.adjPres_trans hPR
                (GraphEngine.adjPres_setAdj sR g
                  (Dict.getD edgeData "from" PyVal.vnone) aOF
                  { aOF with
                    outgoing := SSet.discard aOF.outgoing edgeId }
                  edgeId haF
                  (fun e hne hm => by
                    show e ∈ SSet.discard aOF.outgoing edgeId
                    rw [SSet.mem_discard]
                    exact ⟨hm, hne⟩)
                  (fun e hne hm => hm))
            have hOF : GraphEngine.otherEq st1 sF g :=
              GraphEngine.otherEq_trans hOR
                (GraphEngine.otherEq_setAdj sR g
                  (Dict.getD edgeData "from" PyVal.vnone) _)
            have hEF : (GraphEngine.graphOf sF g).edges =
                (GraphEngine.graphOf st1 g).edges := by
              show (GraphEngine.graphOf sR g).edges = _
              exact hER
            by_cases hT : (Dict.getD edgeData "to" PyVal.vnone).truthy = true
            · rw [if_pos hT] at h
              simp only [PyM.run_bind, PyM.run_read] at h
              cases haT : GraphEngine.adjOf sF g
                  (Dict.getD edgeData "to" PyVal.vnone) with
              | some aOT =>
                simp only [haT, PyM.run_bind, PyM.run_write,
                  PyM.run_modify, PyResult.ok.injEq, true_and] at h
                rw [← h]
                refine hFin _ ?_ ?_ ?_
                · exact GraphEngine.adjPres_trans hPF
                    (GraphEngine.adjPres_setAdj sF g
                      (Dict.getD edgeData "to" PyVal.vnone) aOT
                      { aOT with
                        incoming := SSet.discard aOT.incoming edgeId }
                      edgeId haT
                      (fun e hne hm => hm)
                      (fun e hne hm => by
                        show e ∈ SSet.discard aOT.incoming edgeId
                        rw [SSet.mem_discard]
                        exact ⟨hm, hne⟩))
                · exact GraphEngine.otherEq_trans hOF
                    (GraphEngine.otherEq_setAdj sF g
                      (Dict.getD edgeData "to" PyVal.vnone) _)
                · show (GraphEngine.graphOf sF g).edges = _
                  exact hEF
              | none =>
                simp only [haT, PyM.run_bind, PyM.run_pure,
                  PyM.run_modify, PyResult.ok.injEq, true_and] at h
                rw [← h]
                exact hFin sF hPF hOF hEF
            · rw [if_neg hT] at h
              simp only [PyM.run_bind, PyM.run_pure, PyM.run_modify,
                PyResult.ok.injEq, true_and] at h
              rw [← h]
              exact hFin sF hPF hOF hEF
          | none =>
            simp only [haF, PyM.run_bind, PyM.run_pure] at h
            by_cases hT : (Dict.getD edgeData "to" PyVal.vnone).truthy = true
            · rw [if_pos hT] at h
              simp only [PyM.run_bind, PyM.run_read] at h
              cases haT : GraphEngine.adjOf sR g
                  (Dict.getD edgeData "to" PyVal.vnone) with
              | some aOT =>
                simp only [haT, PyM.run_bind, PyM.run_write,
                  PyM.run_modify, PyResult.ok.injEq, true_and] at h
                rw [← h]
                refine hFin _ ?_ ?_ ?_
                · exact GraphEngine.adjPres_trans hPR
                    (GraphEngine.adjPres_setAdj sR g
                      (Dict.getD edgeData "to" PyVal.vnone) aOT
                      { aOT with
                        incoming := SSet.discard aOT.incoming edgeId }
                      edgeId haT
                      (fun e hne hm => hm)
                      (fun e hne hm => by
                        show e ∈ SSet.discard aOT.incoming edgeId
                        rw [SSet.mem_discard]
                        exact ⟨hm, hne⟩))
                · exact GraphEngine.otherEq_trans hOR
                    (GraphEngine.otherEq_setAdj sR g
                      (Dict.getD edgeData "to" PyVal.vnone) _)
                · show (GraphEngine.graphOf sR g).edges = _
                  exact hER
              | none =>
                simp only [haT, PyM.run_bind, PyM.run_pure,
                  PyM.run_modify, PyResult.ok.injEq, true_and] at h
                rw [← h]
                exact hFin sR hPR hOR hER
            · rw [if_neg hT] at h
              simp only [PyM.run_bind, PyM.run_pure, PyM.run_modify,
                PyResult.ok.injEq, true_and] at h
              rw [← h]
              exact hFin sR hPR hOR hER
        · rw [if_neg hF] at h
          simp only [PyM.run_bind, PyM.run_pure] at h
          by_cases hT : (Dict.getD edgeData "to" PyVal.vnone).truthy = true
          · rw [if_pos hT] at h
            simp only [PyM.run_bind, PyM.run_read] at h
            cases haT : GraphEngine.adjOf sR g
                (Dict.getD edgeData "to" PyVal.vnone) with
            | some aOT =>
              simp only [haT, PyM.run_bind, PyM.run_write,
                PyM.run_modify, PyResult.ok.injEq, true_and] at h
              rw [← h]
              refine hFin _ ?_ ?_ ?_
              · exact GraphEngine.adjPres_trans hPR
                  (GraphEngine.adjPres_setAdj sR g
                    (Dict.getD edgeData "to" PyVal.vnone) aOT
                    { aOT with
                      incoming := SSet.discard aOT.incoming edgeId }
                    edgeId haT
                    (fun e hne hm => hm)
                    (fun e hne hm => by
                      show e ∈ SSet.discard aOT.incoming edgeId
                      rw [SSet.mem_discard]
                      exact ⟨hm, hne⟩))
              · exact GraphEngine.otherEq_trans hOR
                  (GraphEngine.otherEq_setAdj sR g
                    (Dict.getD edgeData "to" PyVal.vnone) _)
              · show (GraphEngine.graphOf sR g).edges = _
                exact hER
            | none =>
              simp only [haT, PyM.run_bind, PyM.run_pure,
                PyM.run_modify, PyResult.ok.injEq, true_and] at h
              rw [← h]
              exact hFin sR hPR hOR hER
          · rw [if_neg hT] at h
            simp only [PyM.run_bind, PyM.run_pure, PyM.run_modify,
              PyResult.ok.injEq, true_and] at h
            rw [← h]
            exact hFin sR hPR hOR hER
      · next eR sR heqR =>
        simp at h


theorem GraphEngine.deleteNode_facts (g : String) (nodeId : PyVal)
    (st st2 : GraphEngine.GraphState)
    (hinv : GraphEngine.edgeAdjInv st)
    (h : (GraphEngine.apply (.deleteNode g nodeId)).run st = .ok () st2) :
    GraphEngine.edgeAdjInv st2 ∧
    GraphEngine.adjOf st2 g nodeId = none ∧
    Dict.get? (GraphEngine.graphOf st2 g).nodes nodeId = none ∧
    (∀ eid ed, Dict.get? (GraphEngine.graphOf st2 g).edges eid = some ed →
      (Dict.getD ed "from" PyVal.vnone).truthy = true →
      (Dict.getD ed "to" PyVal.vnone).truthy = true →
      Dict.getD ed "from" PyVal.vnone ≠ nodeId ∧
      Dict.getD ed "to" PyVal.vnone ≠ nodeId) := by
  simp only [GraphEngine.apply, PyM.run_bind, PyM.run_modify,
    PyM.run_raiseIf] at h
  by_cases hh : nodeId.hashable
  case neg => simp [hh] at h
  case pos =>
    simp only [hh, Bool.not_true, Bool.false_eq_true, if_false,
      PyM.run_read] at h
    set st1 : GraphEngine.GraphState := { st with
      store := Dict.setdefault st.store g GraphEngine.emptyGraph,
      nodeIndexes := Dict.setdefault st.nodeIndexes g [],
      edgeIndexes := Dict.setdefault st.edgeIndexes g [],
      adjacency := Dict.setdefault st.adjacency g [] } with hst1
    have hinv1 := GraphEngine.inv_setdefault st g hinv
    have hbodyN : ∀ (x : String × PyVal) (s s2 : GraphEngine.GraphState),
        ((do
          PyM.raiseIf (!x.2.hashable) .typeError
          PyM.modify (fun st => { st with
            nodeIndexes := idxRemove1 st.nodeIndexes g x.1 x.2 nodeId })) :
          PyM GraphEngine.GraphState Unit).run s = .ok () s2 →
        s2.store = s.store ∧ s2.adjacency = s.adjacency := by
      intro x s s2 hx
      by_cases hxh : x.2.hashable
      · simp only [PyM.run_bind, PyM.run_raiseIf, hxh, Bool.not_true,
          Bool.false_eq_true, if_false, PyM.run_modify,
          PyResult.ok.injEq, true_and] at hx
        rw [← hx]
        exact ⟨rfl, rfl⟩
      · simp [PyM.run_bind, PyM.run_raiseIf, hxh] at hx
    -- final segment of the deletion, characterized on pure states
    have hMain : ∀ (s : GraphEngine.GraphState) (L : List PyVal),
        (∀ e, e ∈ L ↔ GraphEngine.adjoutP st1 g nodeId e ∨
          GraphEngine.adjinP st1 g nodeId e) →
        s.adjacency = st1.adjacency →
        (∀ g2, g2 ≠ g → GraphEngine.graphOf s g2 =
          GraphEngine.graphOf st1 g2) →
        Dict.get? (GraphEngine.graphOf s g).nodes nodeId = none →
        (GraphEngine.graphOf s g).edges =
          List.foldl Dict.erase (GraphEngine.graphOf st1 g).edges L →
        GraphEngine.edgeAdjInv { s with
          adjacency := Dict.set s.adjacency g
            (Dict.erase (Dict.getD s.adjacency g []) nodeId) } ∧
        GraphEngine.adjOf { s with
          adjacency := Dict.set s.adjacency g
            (Dict.erase (Dict.getD s.adjacency g []) nodeId) } g nodeId =
          none ∧
        Dict.get? (GraphEngine.graphOf { s with
          adjacency := Dict.set s.adjacency g
            (Dict.erase (Dict.getD s.adjacency g []) nodeId) } g).nodes
          nodeId = none ∧
        (∀ eid ed, Dict.get? (GraphEngine.graphOf { s with
            adjacency := Dict.set s.adjacency g
              (Dict.erase (Dict.getD s.adjacency g []) nodeId) } g).edges
            eid = some ed →
          (Dict.getD ed "from" PyVal.vnone).truthy = true →
          (Dict.getD ed "to" PyVal.vnone).truthy = true →
          Dict.getD ed "from" PyVal.vnone ≠ nodeId ∧
          Dict.getD ed "to" PyVal.vnone ≠ nodeId) := by
      intro s L hL hA hOth hNd hEd
      have hGfin : ∀ g2 : String, GraphEngine.graphOf { s with
          adjacency := Dict.set s.adjacency g
            (Dict.erase (Dict.getD s.adjacency g []) nodeId) } g2 =
          GraphEngine.graphOf s g2 := fun g2 => rfl
      have hAfin : ∀ n2 : PyVal, n2 ≠ nodeId → GraphEngine.adjOf { s with
          adjacency := Dict.set s.adjacency g
            (Dict.erase (Dict.getD s.adjacency g []) nodeId) } g n2 =
          GraphEngine.adjOf st1 g n2 := by
        intro n2 hn2
        show Dict.get? (Dict.getD (Dict.set s.adjacency g
          (Dict.erase (Dict.getD s.adjacency g []) nodeId)) g []) n2 = _
        rw [Dict.getD_set_self, Dict.get?_erase_ne _ _ _ hn2]
        show Dict.get? (Dict.getD s.adjacency g []) n2 = _
        rw [hA]
        rfl
      have hAll : ∀ (g2 : String) (n2 : PyVal), g2 ≠ g →
          GraphEngine.adjOf { s with
            adjacency := Dict.set s.adjacency g
              (Dict.erase (Dict.getD s.adjacency g []) nodeId) } g2 n2 =
          GraphEngine.adjOf st1 g2 n2 := by
        intro g2 n2 hg2
        show Dict.get? (Dict.getD (Dict.set s.adjacency g _) g2 []) n2 = _
        rw [Dict.getD_set_ne _ _ _ _ _ hg2, hA]
        rfl
      have hEdmem : ∀ eid ed,
          Dict.get? (GraphEngine.graphOf s g).edges eid = some ed →
          eid ∉ L ∧
          Dict.get? (GraphEngine.graphOf st1 g).edges eid = some ed := by
        intro eid ed hed
        rw [hEd, Dict.get?_foldl_erase] at hed
        by_cases hmem : eid ∈ L
        · rw [if_pos hmem] at hed
          exact absurd hed (by simp)
        · rw [if_neg hmem] at hed
          exact ⟨hmem, hed⟩
      have hNot : ∀ eid ed,
          Dict.get? (GraphEngine.graphOf s g).edges eid = some ed →
          (Dict.getD ed "from" PyVal.vnone).truthy = true →
          (Dict.getD ed "to" PyVal.vnone).truthy = true →
          Dict.getD ed "from" PyVal.vnone ≠ nodeId ∧
          Dict.getD ed "to" PyVal.vnone ≠ nodeId := by
        intro eid ed hed hf ht
        obtain ⟨hnl, hst1e⟩ := hEdmem eid ed hed
        obtain ⟨hoF, hoT⟩ := hinv1 g eid ed hst1e hf ht
        constructor
        · intro hfn
          exact hnl ((hL eid).mpr (Or.inl (by rw [← hfn]; exact hoF)))
        · intro htn
          exact hnl ((hL eid).mpr (Or.inr (by rw [← htn]; exact hoT)))
      refine ⟨?_, ?_, ?_, ?_⟩
      · intro g' eid ed hed hf ht
        by_cases hg' : g' = g
        case pos =>
          subst hg'
          rw [hGfin g'] at hed
          obtain ⟨hfn, htn⟩ := hNot eid ed hed hf ht
          obtain ⟨hnl, hst1e⟩ := hEdmem eid ed hed
          obtain ⟨⟨aF, haF, hmF⟩, ⟨aT, haT, hmT⟩⟩ :=
            hinv1 g' eid ed hst1e hf ht
          exact ⟨⟨aF, by rw [hAfin _ hfn]; exact haF, hmF⟩,
            ⟨aT, by rw [hAfin _ htn]; exact haT, hmT⟩⟩
        case neg =>
          rw [hGfin g', hOth g' hg'] at hed
          obtain ⟨⟨aF, haF, hmF⟩, ⟨aT, haT, hmT⟩⟩ :=
            hinv1 g' eid ed hed hf ht
          exact ⟨⟨aF, by rw [hAll g' _ hg']; exact haF, hmF⟩,
            ⟨aT, by rw [hAll g' _ hg']; exact haT, hmT⟩⟩
      · show Dict.get? (Dict.getD (Dict.set s.adjacency g
          (Dict.erase (Dict.getD s.adjacency g []) nodeId)) g [])
          nodeId = none
        rw [Dict.getD_set_self, Dict.get?_erase_self]
      · rw [hGfin g]
        exact hNd
      · intro eid ed hed
        rw [hGfin g] at hed
        exact hNot eid ed hed
    cases hadj : GraphEngine.adjOf st1 g nodeId with
    | none =>
      have hL : ∀ e : PyVal, e ∈ ([] : List PyVal) ↔
          GraphEngine.adjoutP st1 g nodeId e ∨
          GraphEngine.adjinP st1 g nodeId e := by
        intro e
        constructor
        · intro hmem
          exact absurd hmem (List.not_mem_nil e)
        · rintro (⟨a2, ha2, hm2⟩ | ⟨a2, ha2, hm2⟩) <;> rw [hadj] at ha2 <;>
            exact absurd ha2 (by simp)
      simp only [hadj, PyM.forEach_nil, PyM.run_pure] at h
      cases hnd : Dict.get? (GraphEngine.graphOf st1 g).nodes nodeId with
      | some nodeData =>
        simp only [hnd, PyM.run_bind] at h
        split at h
        · next uN sN heqN =>
          cases uN
          obtain ⟨hNs, hNa⟩ :=
            GraphEngine.saLoop_preserves _ hbodyN nodeData st1 sN heqN
          simp only [PyM.run_modify, PyResult.ok.injEq, true_and] at h
          rw [← h]
          refine hMain _ [] hL ?_ ?_ ?_ ?_
          · show sN.adjacency = st1.adjacency
            exact hNa
          · intro g2 hg2
            show GraphEngine.graphOf (GraphEngine.setGraph sN g _) g2 = _
            unfold GraphEngine.graphOf GraphEngine.setGraph
            rw [Dict.getD_set_ne _ _ _ _ _ hg2, hNs]
          · show Dict.get? (GraphEngine.graphOf
              (GraphEngine.setGraph sN g _) g).nodes nodeId = none
            unfold GraphEngine.graphOf GraphEngine.setGraph
            rw [Dict.getD_set_self]
            show Dict.get? (Dict.erase (GraphEngine.graphOf sN g).nodes
              nodeId) nodeId = none
            rw [Dict.get?_erase_self]
          · show (GraphEngine.graphOf (GraphEngine.setGraph sN g _) g).edges
              = _
            unfold GraphEngine.graphOf GraphEngine.setGraph
            rw [Dict.getD_set_self]
            show (GraphEngine.graphOf sN g).edges = _
            unfold GraphEngine.graphOf
            rw [hNs]
            rfl
        · next eN sN heqN =>
          simp at h
      | none =>
        simp only [hnd, PyM.run_bind, PyM.run_pure, PyM.run_modify,
          PyResult.ok.injEq, true_and] at h
        rw [← h]
        exact hMain st1 [] hL rfl (fun _ _ => rfl) hnd rfl
    | some a =>
      simp only [hadj, PyM.run_bind] at h
      split at h
      · next uE sE heqE =>
        cases uE
        have hloop : sE.adjacency = st1.adjacency ∧
            (∀ g2, g2 ≠ g → GraphEngine.graphOf sE g2 =
              GraphEngine.graphOf st1 g2) ∧
            (∀ g2, (GraphEngine.graphOf sE g2).nodes =
              (GraphEngine.graphOf st1 g2).nodes) ∧
            (GraphEngine.graphOf sE g).edges =
              List.foldl Dict.erase (GraphEngine.graphOf st1 g).edges
                (List.foldl SSet.insert a.outgoing a.incoming) := by
          refine GraphEngine.eraseLoop g _ ?_ _ st1 sE heqE
          intro x s s2 hx
          simp only [PyM.run_bind, PyM.run_read] at hx
          cases hge : Dict.get? (GraphEngine.graphOf s g).edges x with
          | none =>
            simp only [hge, PyM.run_pure, PyResult.ok.injEq,
              true_and] at hx
            rw [← hx]
            refine ⟨rfl, fun g2 _ => rfl, fun g2 => rfl, ?_⟩
            rw [Dict.erase_of_get?_none _ _ hge]
          | some edgeData =>
            simp only [hge, PyM.run_bind] at hx
            split at hx
            · next ua sa heqa =>
              cases ua
              obtain ⟨has, haa⟩ := GraphEngine.saLoop_preserves _
                (GraphEngine.edgeIdxLoopBody g
                  (fun st fv => idxRemove1 st.edgeIndexes g fv.1 fv.2 x))
                edgeData s sa heqa
              simp only [PyM.run_modify, PyResult.ok.injEq, true_and] at hx
              rw [← hx]
              have hga : ∀ g2, GraphEngine.graphOf sa g2 =
                  GraphEngine.graphOf s g2 := by
                intro g2
                unfold GraphEngine.graphOf
                rw [has]
              refine ⟨haa, ?_, ?_, ?_⟩
              · intro g2 hg2
                show GraphEngine.graphOf (GraphEngine.setGraph sa g _) g2
                  = _
                unfold GraphEngine.graphOf GraphEngine.setGraph
                rw [Dict.getD_set_ne _ _ _ _ _ hg2]
                show GraphEngine.graphOf sa g2 = _
                rw [hga]
                rfl
              · intro g2
                by_cases hg2 : g2 = g
                · subst hg2
                  show (GraphEngine.graphOf (GraphEngine.setGraph sa g2 _)
                    g2).nodes = _
                  unfold GraphEngine.graphOf GraphEngine.setGraph
                  rw [Dict.getD_set_self]
                  show (GraphEngine.graphOf sa g2).nodes = _
                  rw [hga]
                  rfl
                · show (GraphEngine.graphOf (GraphEngine.setGraph sa g _)
                    g2).nodes = _
                  unfold GraphEngine.graphOf GraphEngine.setGraph
                  rw [Dict.getD_set_ne _ _ _ _ _ hg2]
                  show (GraphEngine.graphOf sa g2).nodes = _
                  rw [hga]
                  rfl
              · show (GraphEngine.graphOf (GraphEngine.setGraph sa g _)
                  g).edges = _
                unfold GraphEngine.graphOf GraphEngine.setGraph
                rw [Dict.getD_set_self]
                show Dict.erase (GraphEngine.graphOf sa g).edges x = _
                rw [hga]
                rfl
            · next ea sa heqa =>
              simp at hx
        obtain ⟨hEa, hEo, hEn, hEe⟩ := hloop
        have hL : ∀ e : PyVal,
            e ∈ List.foldl SSet.insert a.outgoing a.incoming ↔
            GraphEngine.adjoutP st1 g nodeId e ∨
            GraphEngine.adjinP st1 g nodeId e := by
          intro e
          rw [SSet.mem_foldl_insert]
          constructor
          · rintro (hm | hm)
            · exact Or.inl ⟨a, hadj, hm⟩
            · exact Or.inr ⟨a, hadj, hm⟩
          · rintro (⟨a2, ha2, hm2⟩ | ⟨a2, ha2, hm2⟩) <;>
              rw [hadj] at ha2 <;> injection ha2 with ha2 <;> subst ha2
            · exact Or.inl hm2
            · exact Or.inr hm2
        cases hnd : Dict.get? (GraphEngine.graphOf sE g).nodes nodeId with
        | some nodeData =>
          simp only [hnd, PyM.run_bind] at h
          split at h
          · next uN sN heqN =>
            cases uN
            obtain ⟨hNs, hNa⟩ :=
              GraphEngine.saLoop_preserves _ hbodyN nodeData sE sN heqN
            simp only [PyM.run_modify, PyResult.ok.injEq, true_and] at h
            rw [← h]
            refine hMain _ _ hL ?_ ?_ ?_ ?_
            · show sN.adjacency = st1.adjacency
              rw [hNa]
              exact hEa
            · intro g2 hg2
              show GraphEngine.graphOf (GraphEngine.setGraph sN g _) g2 = _
              unfold GraphEngine.graphOf GraphEngine.setGraph
              rw [Dict.getD_set_ne _ _ _ _ _ hg2, hNs]
              exact hEo g2 hg2
            · show Dict.get? (GraphEngine.graphOf
                (GraphEngine.setGraph sN g _) g).nodes nodeId = none
              unfold GraphEngine.graphOf GraphEngine.setGraph
              rw [Dict.getD_set_self]
              show Dict.get? (Dict.erase (GraphEngine.graphOf sN g).nodes
                nodeId) nodeId = none
              rw [Dict.get?_erase_self]
            · show (GraphEngine.graphOf (GraphEngine.setGraph sN g _)
                g).edges = _
              unfold GraphEngine.graphOf GraphEngine.setGraph
              rw [Dict.getD_set_self]
              show (GraphEngine.graphOf sN g).edges = _
              unfold GraphEngine.graphOf
              rw [hNs]
              exact hEe
          · next eN sN heqN =>
            simp at h
        | none =>
          simp only [hnd, PyM.run_bind, PyM.run_pure, PyM.run_modify,
            PyResult.ok.injEq, true_and] at h
          rw [← h]
          exact hMain sE _ hL hEa hEo hnd hEe
      · next eE sE heqE =>
        simp at h


theorem GraphEngine.inv_apply (op : GraphEngine.GraphOp)
    (st st2 : GraphEngine.GraphState) (hinv : GraphEngine.edgeAdjInv st)
    (h : (GraphEngine.apply op).run st = .ok () st2) :
    GraphEngine.edgeAdjInv st2 := by
  cases op with
  | addNode g n d => exact GraphEngine.inv_apply_addNode g n d st st2 hinv h
  | addEdge g e d => exact GraphEngine.inv_apply_addEdge g e d st st2 hinv h
  | deleteNode g n =>
    exact (GraphEngine.deleteNode_facts g n st st2 hinv h).1
  | deleteEdge g e =>
    exact GraphEngine.inv_apply_deleteEdge g e st st2 hinv h

/-- Replaying a list of records through `_apply`, as recovery and the
mutating operations do. -/
def GraphEngine.applyOps (ops : List GraphEngine.GraphOp) :
    PyM GraphEngine.GraphState Unit :=
  PyM.forEach ops GraphEngine.apply

theorem GraphEngine.inv_init :
    GraphEngine.edgeAdjInv GraphEngine.initState := by
  intro g eid ed hed hf ht
  simp [GraphEngine.graphOf, GraphEngine.initState, GraphEngine.emptyGraph,
    Dict.getD] at hed

theorem GraphEngine.inv_applyOps :
    ∀ (ops : List GraphEngine.GraphOp) (st st2 : GraphEngine.GraphState),
      GraphEngine.edgeAdjInv st →
      (GraphEngine.applyOps ops).run st = .ok () st2 →
      GraphEngine.edgeAdjInv st2 := by
  intro ops
  induction ops with
  | nil =>
    intro st st2 hinv h
    simp only [GraphEngine.applyOps, PyM.forEach_nil, PyM.run_pure,
      PyResult.ok.injEq, true_and] at h
    rw [← h]
    exact hinv
  | cons op rest ih =>
    intro st st2 hinv h
    simp only [GraphEngine.applyOps, PyM.forEach_cons, PyM.run_bind] at h
    cases hx : (GraphEngine.apply op).run st with
    | ok u s3 =>
      cases u
      rw [hx] at h
      simp only at h
      exact ih s3 st2 (GraphEngine.inv_apply op st s3 hinv hx) h
    | err e s3 =>
      rw [hx] at h
      simp at h


/-- After `put A; put B; add_edge e1 A→B; delete A` the edge record
`e1` is gone from the graph's edge dict, yet node `B`'s incoming
adjacency set still contains `e1`: `DELETE_NODE` collects the incident
edges from the deleted node's *own* adjacency entry only and never
touches the other endpoints' sets, so the remaining adjacency
references to the removed edges survive, and an adjacency set may name
an edge id that is absent from the edge map. -/
theorem c3_dangling_adjacency_counterexample :
    (GraphEngine.applyOps
      [.addNode "g" (.vstr "A") [], .addNode "g" (.vstr "B") [],
       .addEdge "g" (.vstr "e1")
         [("from", .vstr "A"), ("to", .vstr "B")],
       .deleteNode "g" (.vstr "A")]).run GraphEngine.initState =
      .ok ()
        ⟨[("g", ⟨[(.vstr "B", [])], []⟩)], [("g", [])], [("g", [])],
          [("g", [(.vstr "B", ⟨[], [.vstr "e1"]⟩)])], []⟩ ∧
    Dict.get?
      (GraphEngine.graphOf
        ⟨[("g", ⟨[(.vstr "B", [])], []⟩)], [("g", [])], [("g", [])],
          [("g", [(.vstr "B", ⟨[], [.vstr "e1"]⟩)])], []⟩ "g").edges
      (.vstr "e1") = none ∧
    GraphEngine.adjOf
      ⟨[("g", ⟨[(.vstr "B", [])], []⟩)], [("g", [])], [("g", [])],
        [("g", [(.vstr "B", ⟨[], [.vstr "e1"]⟩)])], []⟩ "g"
      (.vstr "B") = some ⟨[], [.vstr "e1"]⟩ :=
  ⟨rfl, rfl, rfl⟩

/-- **C3.** Every successfully replayed sequence of graph records
maintains the adjacency invariant: each stored edge whose `from` and
`to` values are truthy has both endpoints present as keys of the
graph's adjacency map, with the edge id in the `from` node's outgoing
set and the `to` node's incoming set.  A subsequent `DELETE_NODE`
removes the node record, the node's own adjacency entry, and every
edge listed in that entry's outgoing/incoming sets: afterwards no
stored edge with truthy endpoints is incident to the deleted node.
(The references other nodes' adjacency sets keep to the deleted edges
are *not* removed — see the counterexample.) -/
theorem c3_graph_node_deletion (ops : List GraphEngine.GraphOp)
    (g : String) (n : PyVal) (st1 st2 : GraphEngine.GraphState)
    (h1 : (GraphEngine.applyOps ops).run GraphEngine.initState =
      .ok () st1)
    (h2 : (GraphEngine.apply (.deleteNode g n)).run st1 = .ok () st2) :
    GraphEngine.edgeAdjInv st1 ∧ GraphEngine.edgeAdjInv st2 ∧
    GraphEngine.adjOf st2 g n = none ∧
    Dict.get? (GraphEngine.graphOf st2 g).nodes n = none ∧
    (∀ eid ed, Dict.get? (GraphEngine.graphOf st2 g).edges eid = some ed →
      (Dict.getD ed "from" PyVal.vnone).truthy = true →
      (Dict.getD ed "to" PyVal.vnone).truthy = true →
      Dict.getD ed "from" PyVal.vnone ≠ n ∧
      Dict.getD ed "to" PyVal.vnone ≠ n) := by
  have hinv1 : GraphEngine.edgeAdjInv st1 :=
    GraphEngine.inv_applyOps ops GraphEngine.initState st1
      GraphEngine.inv_init h1
  obtain ⟨h3, h4, h5, h6⟩ :=
    GraphEngine.deleteNode_facts g n st1 st2 hinv1 h2
  exact ⟨hinv1, h3, h4, h5, h6⟩

theorem c3_graph_node_deletion_witness :
    GraphEngine.adjOf
      ⟨[("g", ⟨[(.vstr "B", [])], []⟩)], [("g", [])], [("g", [])],
        [("g", [(.vstr "B", ⟨[], [.vstr "e1"]⟩)])], []⟩ "g"
      (.vstr "A") = none ∧
    Dict.get?
      (GraphEngine.graphOf
        ⟨[("g", ⟨[(.vstr "B", [])], []⟩)], [("g", [])], [("g", [])],
          [("g", [(.vstr "B", ⟨[], [.vstr "e1"]⟩)])], []⟩ "g").nodes
      (.vstr "A") = none :=
  have hfacts := c3_graph_node_deletion
    [.addNode "g" (.vstr "A") [], .addNode "g" (.vstr "B") [],
     .addEdge "g" (.vstr "e1") [("from", .vstr "A"), ("to", .vstr "B")]]
    "g" (.vstr "A")
    ⟨[("g", ⟨[(.vstr "A", []), (.vstr "B", [])],
        [(.vstr "e1", [("from", .vstr "A"), ("to", .vstr "B")])]⟩)],
      [("g", [])], [("g", [])],
      [("g", [(.vstr "A", ⟨[.vstr "e1"], []⟩),
        (.vstr "B", ⟨[], [.vstr "e1"]⟩)])], []⟩
    ⟨[("g", ⟨[(.vstr "B", [])], []⟩)], [("g", [])], [("g", [])],
      [("g", [(.vstr "B", ⟨[], [.vstr "e1"]⟩)])], []⟩
    (by rfl) (by rfl)
  ⟨hfacts.2.2.1, hfacts.2.2.2.1⟩


/-! ## C7 — time-series aggregation -/

theorem foldl_min_swap {α : Type} [LinearOrder α] :
    ∀ (t : List α) (a b : α),
      min a (List.foldl min b t) = List.foldl min (min a b) t := by
  intro t
  induction t with
  | nil => intro a b; rfl
  | cons c t ih =>
    intro a b
    rw [List.foldl_cons, List.foldl_cons, ih, min_assoc]

theorem foldl_max_swap {α : Type} [LinearOrder α] :
    ∀ (t : List α) (a b : α),
      max a (List.foldl max b t) = List.foldl max (max a b) t := by
  intro t
  induction t with
  | nil => intro a b; rfl
  | cons c t ih =>
    intro a b
    rw [List.foldl_cons, List.foldl_cons, ih, max_assoc]

theorem min?_cons_eq_foldl {α : Type} [LinearOrder α] :
    ∀ (l : List α) (a : α), (a :: l).min? = some (List.foldl min a l) := by
  intro l
  induction l with
  | nil => intro a; rfl
  | cons b t ih =>
    intro a
    rw [List.min?_cons, ih b, Option.elim, List.foldl_cons,
      foldl_min_swap]

theorem max?_cons_eq_foldl {α : Type} [LinearOrder α] :
    ∀ (l : List α) (a : α), (a :: l).max? = some (List.foldl max a l) := by
  intro l
  induction l with
  | nil => intro a; rfl
  | cons b t ih =>
    intro a
    rw [List.max?_cons, ih b, Option.elim, List.foldl_cons,
      foldl_max_swap]

theorem Dict.exists_get?_of_mem_keys {κ ν : Type} [DecidableEq κ]
    (d : Dict κ ν) (k : κ) (h : k ∈ d.map Prod.fst) :
    ∃ v, Dict.get? d k = some v := by
  induction d with
  | nil => simp at h
  | cons hd tl ih =>
    obtain ⟨k2, v2⟩ := hd
    by_cases he : k2 = k
    · exact ⟨v2, by rw [Dict.get?_cons, if_pos he]⟩
    · rw [List.map_cons, List.mem_cons] at h
      rcases h with h | h
      · exact absurd h.symm he
      · obtain ⟨v, hv⟩ := ih h
        exact ⟨v, by rw [Dict.get?_cons, if_neg he]; exact hv⟩

theorem SSet.insert_of_mem {α : Type} [DecidableEq α] (s : SSet α)
    (a : α) (h : a ∈ s) : SSet.insert s a = s := by
  unfold SSet.insert
  rw [if_pos h]

theorem SSet.insert_of_not_mem {α : Type} [DecidableEq α] (s : SSet α)
    (a : α) (h : a ∉ s) : SSet.insert s a = s ++ [a] := by
  unfold SSet.insert
  rw [if_neg h]

theorem SSet.nodup_foldl_insert {α : Type} [DecidableEq α] :
    ∀ (xs : List α) (s : SSet α), s.Nodup →
      (List.foldl SSet.insert s xs).Nodup := by
  intro xs
  induction xs with
  | nil => intro s h; exact h
  | cons x rest ih =>
    intro s h
    rw [List.foldl_cons]
    refine ih _ ?_
    unfold SSet.insert
    by_cases hx : x ∈ s
    · rw [if_pos hx]; exact h
    · rw [if_neg hx]
      simp [List.nodup_append, h, hx]

/-- Spec-side aggregation value: the claimed avg/sum/min/max/count of a
bucket's field values (an unrecognised name defaulting to the average). -/
def TimeSeriesEngine.specValue (function : String) (vals : List ℚ) : ℚ :=
  if function = "sum" then vals.sum
  else if function = "min" then (vals.min?).getD 0
  else if function = "max" then (vals.max?).getD 0
  else if function = "count" then (vals.length : ℚ)
  else vals.sum / (vals.length : ℚ)

/-- Spec-side reading of the aggregation claim, written from the
specification's words: the points whose timestamp `ts` satisfies
`start ≤ ts ≤ end` are grouped into buckets keyed by
`(ts / interval_seconds) * interval_seconds` (floor division); the
result holds one `{timestamp, value, count}` row per non-empty bucket,
in ascending bucket-timestamp order, where `value` applies the
aggregation function to the bucket's values of the named field and
`count` is the number of the bucket's points. -/
def TimeSeriesEngine.specAggregation (pts : Dict Nat Doc)
    (intervalSeconds start end_ : Nat) (function field : String) :
    List TimeSeriesEngine.AggEntry :=
  let inRange := ((Dict.keys pts).insertionSort (· ≤ ·)).filter
    (fun ts => decide (start ≤ ts ∧ ts ≤ end_))
  let kvs : List (Int × ℚ) := inRange.map (fun ts =>
    (((ts / intervalSeconds * intervalSeconds : Nat) : Int),
     ((((Dict.getD ((Dict.get? pts ts).getD []) field
       (.vint 0)).asNum?).getD 0 : Int) : ℚ)))
  let bucketKeys := (kvs.map Prod.fst).foldl SSet.insert []
  let buckets := bucketKeys.map (fun b =>
    (b, (kvs.filter (fun kv => decide (kv.1 = b))).map Prod.snd))
  (buckets.insertionSort (fun a b => a.1 ≤ b.1)).map (fun bv =>
    ⟨bv.1, TimeSeriesEngine.specValue function bv.2, bv.2.length⟩)

theorem TimeSeriesEngine.aggValue_eq_specValue (function : String)
    (vals : List ℚ) (h : vals ≠ []) :
    TimeSeriesEngine.aggValue function vals =
      TimeSeriesEngine.specValue function vals := by
  cases vals with
  | nil => exact absurd rfl h
  | cons v rest =>
    unfold TimeSeriesEngine.aggValue TimeSeriesEngine.specValue
    rw [min?_cons_eq_foldl, max?_cons_eq_foldl]
    rfl

theorem TimeSeriesEngine.scanLoop_collect (pts : Dict Nat Doc)
    (start end_ limit : Nat) :
    ∀ (tsList : List Nat) (acc : List Doc),
      acc.length + tsList.length < limit →
      (∀ ts ∈ tsList, ∃ p, Dict.get? pts ts = some p ∧ p ≠ []) →
      TimeSeriesEngine.scanLoop pts start end_ limit tsList acc =
        acc ++ (tsList.filter (fun ts =>
          !(decide (start ≠ 0 ∧ ts < start)) &&
          !(decide (end_ ≠ 0 ∧ ts > end_)))).map
          (fun ts => (Dict.get? pts ts).getD []) := by
  intro tsList
  induction tsList with
  | nil =>
    intro acc hlen hmem
    simp [TimeSeriesEngine.scanLoop]
  | cons ts rest ih =>
    intro acc hlen hmem
    obtain ⟨p, hp, hpne⟩ := hmem ts (List.mem_cons_self _ _)
    have hrest : ∀ t ∈ rest, ∃ p2, Dict.get? pts t = some p2 ∧ p2 ≠ [] :=
      fun t ht => hmem t (List.mem_cons_of_mem _ ht)
    have hlen2 : acc.length + rest.length + 1 < limit := by
      rw [List.length_cons] at hlen
      omega
    rw [List.filter_cons]
    simp only [TimeSeriesEngine.scanLoop]
    by_cases h1 : start ≠ 0 ∧ ts < start
    · rw [if_pos h1, ih acc (by omega) hrest]
      rw [if_neg (by simp [h1])]
    · rw [if_neg h1]
      by_cases h2 : end_ ≠ 0 ∧ ts > end_
      · rw [if_pos h2, ih acc (by omega) hrest]
        rw [if_neg (by simp [h1, h2])]
      · rw [if_neg h2, hp]
        have hpe : p.isEmpty = false := by
          cases p with
          | nil => exact absurd rfl hpne
          | cons a b => rfl
        simp only [hpe, Bool.false_eq_true, if_false]
        rw [if_neg (by
          have : (acc ++ [p]).length = acc.length + 1 := by
            simp
          omega)]
        rw [ih (acc ++ [p]) (by simp; omega) hrest]
        rw [if_pos (by simp [h1, h2])]
        rw [List.map_cons, hp]
        simp [List.append_assoc]

theorem TimeSeriesEngine.bucketAdd_update :
    ∀ (K : List Int) (V : Int → List ℚ) (k : Int) (v : ℚ),
      K.Nodup → k ∈ K →
      TimeSeriesEngine.bucketAdd (K.map (fun b => (b, V b))) k v =
        K.map (fun b => (b, if b = k then V b ++ [v] else V b)) := by
  intro K
  induction K with
  | nil =>
    intro V k v _ hk
    simp at hk
  | cons b0 K ih =>
    intro V k v hnd hk
    rw [List.map_cons, List.map_cons]
    simp only [TimeSeriesEngine.bucketAdd]
    by_cases he : b0 = k
    · rw [if_pos he]
      subst he
      congr 1
      · rw [if_pos rfl]
      · apply List.map_congr_left
        intro b hb
        rw [if_neg (by rintro rfl; exact (List.nodup_cons.mp hnd).1 hb)]
    · rw [if_neg he]
      have hk2 : k ∈ K := by
        rcases List.mem_cons.mp hk with h | h
        · exact absurd h.symm he
        · exact h
      rw [ih V k v (List.nodup_cons.mp hnd).2 hk2]
      congr 1
      rw [if_neg he]

theorem TimeSeriesEngine.bucketAdd_new :
    ∀ (K : List Int) (V : Int → List ℚ) (k : Int) (v : ℚ),
      k ∉ K →
      TimeSeriesEngine.bucketAdd (K.map (fun b => (b, V b))) k v =
        K.map (fun b => (b, V b)) ++ [(k, [v])] := by
  intro K
  induction K with
  | nil => intro V k v _; rfl
  | cons b0 K ih =>
    intro V k v hk
    rw [List.map_cons]
    simp only [TimeSeriesEngine.bucketAdd]
    rw [if_neg (by
      intro he
      subst he
      exact hk (List.mem_cons_self _ _))]
    rw [ih V k v (fun h2 => hk (List.mem_cons_of_mem _ h2))]
    rfl

theorem TimeSeriesEngine.bucketFold_char :
    ∀ kvs : List (Int × ℚ),
      List.foldl (fun bs kv => TimeSeriesEngine.bucketAdd bs kv.1 kv.2) []
        kvs =
      ((kvs.map Prod.fst).foldl SSet.insert []).map (fun b =>
        (b, (kvs.filter (fun kv => decide (kv.1 = b))).map Prod.snd)) := by
  intro kvs
  induction kvs using List.reverseRecOn with
  | nil => rfl
  | append_singleton kvs kv ih =>
    rw [List.foldl_append, List.foldl_cons, List.foldl_nil, ih,
      List.map_append, List.map_cons, List.map_nil, List.foldl_append,
      List.foldl_cons, List.foldl_nil]
    have hKnd : ((kvs.map Prod.fst).foldl SSet.insert []).Nodup :=
      SSet.nodup_foldl_insert _ _ List.nodup_nil
    have hKmem : ∀ b : Int,
        b ∈ (kvs.map Prod.fst).foldl SSet.insert [] ↔
        b ∈ kvs.map Prod.fst := by
      intro b
      rw [SSet.mem_foldl_insert]
      simp
    have hvals : ∀ b : Int, ((kvs ++ [kv]).filter
        (fun kv2 => decide (kv2.1 = b))).map Prod.snd =
        ((kvs.filter (fun kv2 => decide (kv2.1 = b))).map Prod.snd) ++
          (if kv.1 = b then [kv.2] else []) := by
      intro b
      rw [List.filter_append, List.map_append]
      congr 1
      by_cases he : kv.1 = b
      · simp [he]
      · simp [he]
    by_cases hmem : kv.1 ∈ (kvs.map Prod.fst).foldl SSet.insert []
    · rw [TimeSeriesEngine.bucketAdd_update _ _ _ _ hKnd hmem]
      rw [SSet.insert_of_mem _ _ hmem]
      apply List.map_congr_left
      intro b hb
      rw [hvals b]
      by_cases he : b = kv.1
      · rw [if_pos he, if_pos (he ▸ rfl : kv.1 = b)]
      · rw [if_neg he, if_neg (fun h2 => he h2.symm), List.append_nil]
    · rw [TimeSeriesEngine.bucketAdd_new _ _ _ _ hmem]
      rw [SSet.insert_of_not_mem _ _ hmem, List.map_append]
      congr 1
      · apply List.map_congr_left
        intro b hb
        rw [hvals b]
        rw [if_neg (fun h2 => hmem (by rw [h2]; exact hb)),
          List.append_nil]
      · rw [List.map_cons, List.map_nil, hvals kv.1, if_pos rfl]
        have hnil : kvs.filter (fun kv2 => decide (kv2.1 = kv.1)) = [] := by
          rw [List.filter_eq_nil_iff]
          intro a ha
          simp only [decide_eq_true_eq]
          intro he
          exact hmem ((hKmem kv.1).mpr
            (he ▸ List.mem_map_of_mem Prod.fst ha))
        rw [hnil]
        rfl

theorem TimeSeriesEngine.aggFoldM_char (pts : Dict Nat Doc)
    (field : String) (k : Nat) :
    ∀ (tss : List Nat) (bs : List (Int × List ℚ)),
      (∀ ts ∈ tss,
        Dict.getD ((Dict.get? pts ts).getD []) "timestamp" (.vint 0) =
          .vint ts ∧
        ((Dict.getD ((Dict.get? pts ts).getD []) field
          (.vint 0)).asNum?).isSome = true) →
      List.foldlM (TimeSeriesEngine.aggStep k field) bs
        (tss.map (fun ts => (Dict.get? pts ts).getD [])) =
      Except.ok (List.foldl
        (fun bs2 kv => TimeSeriesEngine.bucketAdd bs2 kv.1 kv.2) bs
        (tss.map (fun (ts : Nat) =>
          ((Int.fdiv (ts : Int) (k : Int) * (k : Int) : Int),
           ((((Dict.getD ((Dict.get? pts ts).getD []) field
             (.vint 0)).asNum?).getD 0 : Int) : ℚ))))) := by
  intro tss
  induction tss with
  | nil => intro bs hmem; rfl
  | cons ts rest ih =>
    intro bs hmem
    obtain ⟨hts, hfv⟩ := hmem ts (List.mem_cons_self _ _)
    rw [List.map_cons, List.foldlM_cons]
    have hstep : TimeSeriesEngine.aggStep k field bs
        ((Dict.get? pts ts).getD []) =
        Except.ok (TimeSeriesEngine.bucketAdd bs
          (Int.fdiv (ts : Int) (k : Int) * (k : Int))
          ((((Dict.getD ((Dict.get? pts ts).getD []) field
            (.vint 0)).asNum?).getD 0 : Int) : ℚ)) := by
      unfold TimeSeriesEngine.aggStep TimeSeriesEngine.readNum
      rw [hts]
      cases hv : (Dict.getD ((Dict.get? pts ts).getD []) field
          (.vint 0)).asNum? with
      | none => rw [hv] at hfv; simp at hfv
      | some q => simp [hv, PyVal.asNum?]
    rw [hstep]
    rw [exceptBind_ok]
    rw [List.map_cons, List.foldl_cons]
    exact ih _ (fun t ht => hmem t (List.mem_cons_of_mem _ ht))


/-- With `end = 0` the guard `if end_time and timestamp > end_time:`
is skipped entirely (`0` is falsy in Python), so the upper bound is
ignored: on a series holding one point at timestamp `100`, a count
aggregation over `[0, 0]` with 10-second buckets returns that point's
bucket, whereas the claim's reading (keep the points with
`start ≤ ts ≤ end`) yields no bucket at all. -/
theorem c7_aggregation_end_zero_counterexample :
    (TimeSeriesEngine.apply (.insertPoint "s" 100
      [("timestamp", .vint 100), ("value", .vint 5)])).run
      TimeSeriesEngine.initState = .ok ()
      ⟨[("s", ⟨[(100, [("timestamp", .vint 100), ("value", .vint 5)])],
          []⟩)], [("s", [(100, [100])])], [("s", [])],
        [("s", [("value", [100])])], []⟩ ∧
    (TimeSeriesEngine.queryAggregation
      ⟨[("s", ⟨[(100, [("timestamp", .vint 100), ("value", .vint 5)])],
          []⟩)], [("s", [(100, [100])])], [("s", [])],
        [("s", [("value", [100])])], []⟩ "s" "10s" 0 0 "count"
      "value").toOption = some [⟨100, 1, 1⟩] ∧
    TimeSeriesEngine.specAggregation
      (TimeSeriesEngine.seriesOf
        ⟨[("s", ⟨[(100, [("timestamp", .vint 100), ("value", .vint 5)])],
            []⟩)], [("s", [(100, [100])])], [("s", [])],
          [("s", [("value", [100])])], []⟩ "s").points 10 0 0 "count"
      "value" = [] :=
  ⟨rfl, by decide, by decide⟩

/-- **C7.** For a series whose stored points are well formed (non-empty
dicts carrying their own key as `timestamp` and a numeric value at the
aggregated field), whose time index lists exactly the stored
timestamps, with fewer than the internal 100000-point limit, a parsed
non-zero interval and a **non-zero** `end` bound, `_query_aggregation`
computes exactly the claimed aggregation: points with
`start ≤ ts ≤ end` grouped into buckets keyed by
`(ts / interval_seconds) * interval_seconds`, one
`{timestamp, value, count}` row per non-empty bucket in ascending
bucket order, `value` the avg/sum/min/max/count of the field over the
bucket and `count` the bucket's size.  (An `end` of `0` is falsy and
disables the upper bound instead — see the counterexample.) -/
theorem c7_aggregation_semantics (st : TimeSeriesEngine.TsState)
    (series : String) (interval : String) (k start end_ : Nat)
    (function field : String)
    (hki : TimeSeriesEngine.parseInterval interval = .ok k)
    (hk0 : k ≠ 0)
    (hend : end_ ≠ 0)
    (hhk : Dict.hasKey st.timeIndexes series = true)
    (hkeys : Dict.keys (Dict.getD st.timeIndexes series []) =
      Dict.keys (TimeSeriesEngine.seriesOf st series).points)
    (hlen : (TimeSeriesEngine.seriesOf st series).points.length < 100000)
    (hWF : ∀ ts p,
      Dict.get? (TimeSeriesEngine.seriesOf st series).points ts = some p →
      p ≠ [] ∧ Dict.getD p "timestamp" (.vint 0) = .vint ts ∧
      ((Dict.getD p field (.vint 0)).asNum?).isSome = true) :
    TimeSeriesEngine.queryAggregation st series interval start end_
      function field =
    .ok (TimeSeriesEngine.specAggregation
      (TimeSeriesEngine.seriesOf st series).points k start end_
      function field) := by
  have hmemSort : ∀ ts ∈ (Dict.keys
        (TimeSeriesEngine.seriesOf st series).points).insertionSort
        (· ≤ ·),
      ∃ p, Dict.get? (TimeSeriesEngine.seriesOf st series).points ts =
        some p ∧ p ≠ [] := by
    intro ts hts
    have hts2 : ts ∈ Dict.keys (TimeSeriesEngine.seriesOf st series).points :=
      ((List.perm_insertionSort _ _).mem_iff).mp hts
    obtain ⟨v, hv⟩ := Dict.exists_get?_of_mem_keys _ ts hts2
    exact ⟨v, hv, (hWF ts v hv).1⟩
  have hcond : ∀ ts : Nat,
      (!(decide (start ≠ 0 ∧ ts < start)) &&
       !(decide (end_ ≠ 0 ∧ ts > end_))) =
      decide (start ≤ ts ∧ ts ≤ end_) := by
    intro ts
    by_cases h1 : start ≠ 0 ∧ ts < start
    · have h3 : ¬(start ≤ ts ∧ ts ≤ end_) := by omega
      simp [h1, h3]
    · by_cases h2 : end_ ≠ 0 ∧ ts > end_
      · have h3 : ¬(start ≤ ts ∧ ts ≤ end_) := by omega
        simp [h1, h2, h3]
      · have h3 : start ≤ ts ∧ ts ≤ end_ := by omega
        simp [h1, h2, h3]
  have hQTR : TimeSeriesEngine.queryTimeRange st series start end_ 100000 =
      (((Dict.keys (TimeSeriesEngine.seriesOf st series).points).insertionSort
        (· ≤ ·)).filter (fun ts => decide (start ≤ ts ∧ ts ≤ end_))).map
        (fun ts => (Dict.get?
          (TimeSeriesEngine.seriesOf st series).points ts).getD []) := by
    simp only [TimeSeriesEngine.queryTimeRange]
    rw [if_pos hhk, hkeys]
    rw [TimeSeriesEngine.scanLoop_collect _ start end_ 100000 _ []
      (by
        rw [List.length_nil, Nat.zero_add, List.length_insertionSort]
        simpa [Dict.keys] using hlen)
      hmemSort]
    rw [List.nil_append]
    congr 1
    exact List.filter_congr (fun ts _ => hcond ts)
  have hmemF : ∀ ts ∈ ((Dict.keys
        (TimeSeriesEngine.seriesOf st series).points).insertionSort
        (· ≤ ·)).filter (fun ts => decide (start ≤ ts ∧ ts ≤ end_)),
      Dict.getD ((Dict.get?
        (TimeSeriesEngine.seriesOf st series).points ts).getD [])
        "timestamp" (.vint 0) = .vint ts ∧
      ((Dict.getD ((Dict.get?
        (TimeSeriesEngine.seriesOf st series).points ts).getD []) field
        (.vint 0)).asNum?).isSome = true := by
    intro ts hts
    obtain ⟨p, hp, hpne⟩ := hmemSort ts (List.mem_of_mem_filter hts)
    rw [hp]
    have hw := hWF ts p hp
    exact ⟨hw.2.1, hw.2.2⟩
  simp only [TimeSeriesEngine.queryAggregation]
  rw [hki, exceptBind_ok, if_neg hk0]
  rw [hQTR]
  rw [TimeSeriesEngine.aggFoldM_char _ field k _ [] hmemF, exceptBind_ok]
  have hkvs : (((Dict.keys
      (TimeSeriesEngine.seriesOf st series).points).insertionSort
      (· ≤ ·)).filter (fun ts => decide (start ≤ ts ∧ ts ≤ end_))).map
      (fun (ts : Nat) =>
        ((Int.fdiv (ts : Int) (k : Int) * (k : Int) : Int),
         ((((Dict.getD ((Dict.get?
           (TimeSeriesEngine.seriesOf st series).points ts).getD []) field
           (.vint 0)).asNum?).getD 0 : Int) : ℚ))) =
      (((Dict.keys
      (TimeSeriesEngine.seriesOf st series).points).insertionSort
      (· ≤ ·)).filter (fun ts => decide (start ≤ ts ∧ ts ≤ end_))).map
      (fun (ts : Nat) =>
        (((ts / k * k : Nat) : Int),
         ((((Dict.getD ((Dict.get?
           (TimeSeriesEngine.seriesOf st series).points ts).getD []) field
           (.vint 0)).asNum?).getD 0 : Int) : ℚ))) := by
    apply List.map_congr_left
    intro ts _
    have hfd : Int.fdiv (ts : Int) (k : Int) = ((ts / k : Nat) : Int) := by
      rw [Int.fdiv_eq_tdiv (by positivity) (by positivity),
        ← Int.ofNat_tdiv]
    rw [hfd,
      show (((ts / k * k : Nat) : Int)) = ((ts / k : Nat) : Int) * (k : Int)
        from by push_cast; ring]
  rw [hkvs, TimeSeriesEngine.bucketFold_char]
  simp only [TimeSeriesEngine.specAggregation]
  refine congrArg Except.ok ?_
  apply List.map_congr_left
  intro bv hbv
  have hbv2 := (List.perm_insertionSort
    (fun (a b : Int × List ℚ) => a.1 ≤ b.1) _).mem_iff.mp hbv
  obtain ⟨b, hbK, hbe⟩ := List.mem_map.mp hbv2
  have hne : bv.2 ≠ [] := by
    rw [← hbe]
    have hbin := (SSet.mem_foldl_insert _ ([] : SSet Int) b).mp hbK
    rcases hbin with hbin | hbin
    · exact absurd hbin (List.not_mem_nil b)
    · obtain ⟨kv, hkv, hkve⟩ := List.mem_map.mp hbin
      intro hemp
      have hkvf : kv ∈ List.filter (fun kv2 => decide (kv2.1 = b)) _ :=
        List.mem_filter.mpr ⟨hkv, by simp [hkve]⟩
      have : kv.2 ∈ ([] : List ℚ) := by
        rw [← hemp]
        exact List.mem_map_of_mem Prod.snd hkvf
      exact absurd this (List.not_mem_nil kv.2)
  rw [TimeSeriesEngine.aggValue_eq_specValue function bv.2 hne]


theorem c7_aggregation_semantics_witness :
    TimeSeriesEngine.queryAggregation
      ⟨[("s", ⟨[(100, [("timestamp", .vint 100), ("value", .vint 5)])],
          []⟩)], [("s", [(100, [100])])], [("s", [])],
        [("s", [("value", [100])])], []⟩ "s" "10s" 0 150 "sum" "value" =
    .ok (TimeSeriesEngine.specAggregation
      [((100 : Nat), [("timestamp", .vint 100), ("value", .vint 5)])]
      10 0 150 "sum" "value") :=
  c7_aggregation_semantics
    ⟨[("s", ⟨[(100, [("timestamp", .vint 100), ("value", .vint 5)])],
        []⟩)], [("s", [(100, [100])])], [("s", [])],
      [("s", [("value", [100])])], []⟩
    "s" "10s" 10 0 150 "sum" "value" rfl (by decide) (by decide) rfl rfl
    (by decide)
    (by
      intro ts p h
      have h2 : Dict.get? [((100 : Nat),
          [("timestamp", PyVal.vint 100), ("value", PyVal.vint 5)])] ts =
          some p := h
      rw [Dict.get?_cons] at h2
      by_cases h1 : (100 : Nat) = ts
      · rw [if_pos h1] at h2
        injection h2 with h2
        subst h2
        subst h1
        exact ⟨by decide, by decide, by decide⟩
      · rw [if_neg h1] at h2
        exact absurd h2 (by simp))

/-! ## C9 — profiler type analysis and booleans -/

/-- In `_analyze_data_types`, `isinstance(value, (int, float))` is true of
Python booleans (`bool` is a subtype of `int`), so every boolean value is
classified numeric and the `elif isinstance(value, bool)` arm is dead
code: `boolean_fields` is empty on **every** dataset, and the dataset
`[{"flag": True}]` reports `flag` as a numeric field — against the
claim's (and the code's evident) intent of reporting it as boolean. -/
theorem c9_boolean_fields_dead :
    (∀ data : List Doc, (DataProfiler.analyzeDataTypes data).booleanFields = []) ∧
    DataProfiler.analyzeDataTypes [[("flag", .vbool true)]] =
      ⟨["flag"], [], [], []⟩ := by
  constructor
  · intro data
    have hfalse : ∀ fv : String × PyVal,
        (!DataProfiler.isNumericInst fv.2 && !DataProfiler.isStrInst fv.2 &&
          DataProfiler.isBoolInst fv.2) = false := by
      intro fv
      obtain ⟨f, v⟩ := fv
      cases v <;> rfl
    simp [DataProfiler.analyzeDataTypes, DataProfiler.dedupF,
      List.filter_eq_nil_iff, hfalse]
  · decide

end Chimera
